import Mathlib

/-
Verification of the gml_fmt scanner and parser (Rust sources:
src/lex_token.rs, src/lexer/scanner.rs, src/parser.rs) against the
natural-language specification.  The Rust code is embedded shallowly:

* `TokenType` / `Token` mirror lex_token.rs.  parser.rs matches a few
  token categories that lex_token.rs does not declare (With, the
  compound-assignment operators, NumberStartDot, NumberEndDot, and a
  payload on Newline); those extra categories are appended so the parser
  embedding can dispatch on them exactly as parser.rs does.  lex_token.rs
  declares Newline without a payload, so it is embedded without one; the
  parser's `Newline(_)` patterns become plain `Newline` matches, which is
  behaviourally identical.
* Rust `usize`/`u32` counters are embedded as `Nat`.  Line/column numbers
  are diagnostic metadata only; u32 wrap-around (at 2^32 columns) is not
  modelled.
* `&self.input[start..current]` in scanner.rs indexes the source *by
  bytes* while `start`/`current` come from `chars().enumerate()` and are
  therefore *character* counts.  `sliceStr` reproduces this faithfully:
  it returns `none` (the Rust slice panic) whenever a character offset
  does not fall on a UTF-8 byte boundary of the input.
* The scanner's single forward pass consumes at least one character per
  iteration, so `lexLoop` carries `input.length + 1` fuel; running out of
  fuel is impossible (each step strictly shrinks the remaining input) and
  `none` results only from the slice panic above.
-/
/-- A borrowed lexeme payload (`&str` view into the source buffer). -/


abbrev Lexeme : Type := String

/-- Token categories from src/lex_token.rs (all 70 variants), plus the
categories that only parser.rs mentions (version skew between the two
files, flagged as an open question in the spec). -/
inductive TokenType where
  | LeftParen
  | RightParen
  | LeftBrace
  | RightBrace
  | LeftBracket
  | RightBracket
  | Comma
  | Dot
  | Colon
  | Semicolon
  | Slash
  | Backslash
  | Star
  | Mod
  | Hashtag
  | Newline
  | ListIndexer
  | MapIndexer
  | GridIndexer
  | ArrayIndexer
  | Minus
  | Plus
  | Incrementer
  | Decrementer
  | Bang
  | Hook
  | LogicalAnd
  | LogicalOr
  | LogicalXor
  | BitAnd
  | BitOr
  | BitXor
  | BitLeft
  | BitRight
  | BangEqual
  | Equal
  | EqualEqual
  | Greater
  | GreaterEqual
  | Less
  | LessEqual
  | Macro
  | RegionBegin
  | RegionEnd
  | Define
  | Var
  | If
  | Else
  | Return
  | For
  | Repeat
  | While
  | Do
  | Until
  | Switch
  | Case
  | DefaultCase
  | Break
  | Exit
  | True
  | False
  | Enum
  | AndAlias
  | OrAlias
  | XorAlias
  | NotAlias
  | ModAlias
  | Div
  | Identifier (lexeme : String)
  | String (lexeme : String)
  | Number (lexeme : String)
  | Comment (lexeme : String)
  | MultilineComment (lexeme : String)
  | UnidentifiedInput (lexeme : String)
  | EOF
  -- The categories below appear only in parser.rs (not in lex_token.rs).
  | With
  | PlusEquals
  | MinusEquals
  | StarEquals
  | SlashEquals
  | BitXorEquals
  | BitOrEquals
  | BitAndEquals
  | ModEquals
  | NumberStartDot (lexeme : String)
  | NumberEndDot (lexeme : String)

set_option maxHeartbeats 1600000 in
/-- Constructor discriminant of a `TokenType` (supporting the decidable
equality instance below; Rust derives `PartialEq` for TokenType). -/
def ttCode : TokenType → Nat
  | .LeftParen => 0
  | .RightParen => 1
  | .LeftBrace => 2
  | .RightBrace => 3
  | .LeftBracket => 4
  | .RightBracket => 5
  | .Comma => 6
  | .Dot => 7
  | .Colon => 8
  | .Semicolon => 9
  | .Slash => 10
  | .Backslash => 11
  | .Star => 12
  | .Mod => 13
  | .Hashtag => 14
  | .Newline => 15
  | .ListIndexer => 16
  | .MapIndexer => 17
  | .GridIndexer => 18
  | .ArrayIndexer => 19
  | .Minus => 20
  | .Plus => 21
  | .Incrementer => 22
  | .Decrementer => 23
  | .Bang => 24
  | .Hook => 25
  | .LogicalAnd => 26
  | .LogicalOr => 27
  | .LogicalXor => 28
  | .BitAnd => 29
  | .BitOr => 30
  | .BitXor => 31
  | .BitLeft => 32
  | .BitRight => 33
  | .BangEqual => 34
  | .Equal => 35
  | .EqualEqual => 36
  | .Greater => 37
  | .GreaterEqual => 38
  | .Less => 39
  | .LessEqual => 40
  | .Macro => 41
  | .RegionBegin => 42
  | .RegionEnd => 43
  | .Define => 44
  | .Var => 45
  | .If => 46
  | .Else => 47
  | .Return => 48
  | .For => 49
  | .Repeat => 50
  | .While => 51
  | .Do => 52
  | .Until => 53
  | .Switch => 54
  | .Case => 55
  | .DefaultCase => 56
  | .Break => 57
  | .Exit => 58
  | .True => 59
  | .False => 60
  | .Enum => 61
  | .AndAlias => 62
  | .OrAlias => 63
  | .XorAlias => 64
  | .NotAlias => 65
  | .ModAlias => 66
  | .Div => 67
  | .Identifier _ => 68
  | .String _ => 69
  | .Number _ => 70
  | .Comment _ => 71
  | .MultilineComment _ => 72
  | .UnidentifiedInput _ => 73
  | .EOF => 74
  | .With => 75
  | .PlusEquals => 76
  | .MinusEquals => 77
  | .StarEquals => 78
  | .SlashEquals => 79
  | .BitXorEquals => 80
  | .BitOrEquals => 81
  | .BitAndEquals => 82
  | .ModEquals => 83
  | .NumberStartDot _ => 84
  | .NumberEndDot _ => 85

set_option maxHeartbeats 1600000 in
/-- The borrowed-lexeme payload of a `TokenType` (empty for the
fixed-lexeme categories). -/
def ttPayload : TokenType → Lexeme
  | .Identifier s => s
  | .String s => s
  | .Number s => s
  | .Comment s => s
  | .MultilineComment s => s
  | .UnidentifiedInput s => s
  | .NumberStartDot s => s
  | .NumberEndDot s => s
  | _ => ""

set_option maxHeartbeats 1600000 in
/-- All `TokenType` constructors in declaration order, payload-bearing
ones applied to `s`: the retraction witnessing that `code` and `payload`
together determine a `TokenType`. -/
def ttCtorList (s : Lexeme) : List TokenType :=
  [.LeftParen, .RightParen, .LeftBrace, .RightBrace, .LeftBracket,
   .RightBracket, .Comma, .Dot, .Colon, .Semicolon, .Slash, .Backslash,
   .Star, .Mod, .Hashtag, .Newline, .ListIndexer, .MapIndexer,
   .GridIndexer, .ArrayIndexer, .Minus, .Plus, .Incrementer, .Decrementer,
   .Bang, .Hook, .LogicalAnd, .LogicalOr, .LogicalXor, .BitAnd, .BitOr,
   .BitXor, .BitLeft, .BitRight, .BangEqual, .Equal, .EqualEqual, .Greater,
   .GreaterEqual, .Less, .LessEqual, .Macro, .RegionBegin, .RegionEnd,
   .Define, .Var, .If, .Else, .Return, .For, .Repeat, .While, .Do, .Until,
   .Switch, .Case, .DefaultCase, .Break, .Exit, .True, .False, .Enum,
   .AndAlias, .OrAlias, .XorAlias, .NotAlias, .ModAlias, .Div,
   .Identifier s, .String s, .Number s, .Comment s, .MultilineComment s,
   .UnidentifiedInput s, .EOF, .With, .PlusEquals, .MinusEquals,
   .StarEquals, .SlashEquals, .BitXorEquals, .BitOrEquals, .BitAndEquals,
   .ModEquals, .NumberStartDot s, .NumberEndDot s]

/-- `code`/`payload` decoder: a retraction of the constructors. -/
def ttDecode (n : Nat) (s : Lexeme) : TokenType :=
  (ttCtorList s).getD n TokenType.LeftParen

set_option maxHeartbeats 1600000 in
instance : DecidableEq TokenType := fun a b =>
  if h : ttCode a = ttCode b ∧ ttPayload a = ttPayload b then
    Decidable.isTrue (by
      have hdc : ∀ t : TokenType, ttDecode (ttCode t) (ttPayload t) = t := by
        intro t
        cases t <;> rfl
      have h2 : ttDecode (ttCode a) (ttPayload a)
          = ttDecode (ttCode b) (ttPayload b) := by rw [h.1, h.2]
      rwa [hdc, hdc] at h2)
  else
    Decidable.isFalse (fun he => h (by subst he; exact ⟨rfl, rfl⟩))

/-- src/lex_token.rs: `Token { token_type, line_number, column_number }`. -/
structure Token where
  token_type : TokenType
  line_number : Nat
  column_number : Nat
  deriving DecidableEq

/-- Rust `char::len_utf8`. -/
def utf8Size (c : Char) : Nat :=
  if c.val < 0x80 then 1
  else if c.val < 0x800 then 2
  else if c.val < 0x10000 then 3
  else 4

/-- The character prefix of `s` whose UTF-8 encoding occupies exactly `n`
bytes: `some` exactly when byte offset `n` is a character boundary of the
encoded string (Rust `&str` slicing panics otherwise). -/
def takeBytes : List Char → Nat → Option (List Char)
  | _, 0 => some []
  | [], _ + 1 => none
  | c :: cs, n + 1 =>
    if utf8Size c ≤ n + 1 then (takeBytes cs (n + 1 - utf8Size c)).map (c :: ·)
    else none

/-- `&input[a..b]` from scanner.rs, with `a`, `b` used as *byte* offsets
exactly as Rust does: `none` models the slice panic (offset out of range,
not on a character boundary, or `a > b`). -/
def sliceStr (inp : List Char) (a b : Nat) : Option String :=
  if a ≤ b then
    match takeBytes inp a, takeBytes inp b with
    | some pre, some preb => some (String.mk (preb.drop pre.length))
    | _, _ => none
  else none

/-- Rust `char::is_digit(10)`. -/
def isDecDigit (c : Char) : Bool := '0' ≤ c && c ≤ '9'

/-- Rust `char::is_digit(16)`. -/
def isHexDigit (c : Char) : Bool :=
  isDecDigit c || ('a' ≤ c && c ≤ 'f') || ('A' ≤ c && c ≤ 'F')

/-- The string-literal loop of `lex_input` (scanner.rs lines 76-88).
Arguments: remaining characters, index of the next character, running
`current`.  Returns the final `current`, the next index, and the
remaining characters.  A newline breaks without being consumed and sets
`current` to its own index; a closing quote is consumed and sets
`current` past itself; any other character is consumed and sets `current`
to its own index (this is the source of the off-by-one at end of input). -/
def stringScan : List Char → Nat → Nat → Nat × Nat × List Char
  | [], i, current => (current, i, [])
  | c :: rest, i, current =>
    if c = '\n' then (i, i, c :: rest)
    else if c = '"' then (i + 1, i + 1, rest)
    else stringScan rest (i + 1) i

/-- The digit-run loops of `lex_input` (decimal when `hex = false`,
hexadecimal when `hex = true`): consume while the peeked character is a
digit, setting `current` one past each consumed digit. -/
def digitsScan (hex : Bool) : List Char → Nat → Nat → Nat × Nat × List Char
  | [], i, current => (current, i, [])
  | c :: rest, i, current =>
    if (if hex then isHexDigit c else isDecDigit c) then
      digitsScan hex rest (i + 1) (i + 1)
    else (current, i, c :: rest)

/-- The line-comment loop of `lex_input` (scanner.rs lines 215-223):
consume while the peeked character is not a newline. -/
def commentScan : List Char → Nat → Nat → Nat × Nat × List Char
  | [], i, current => (current, i, [])
  | c :: rest, i, current =>
    if c ≠ '\n' then commentScan rest (i + 1) (i + 1)
    else (current, i, c :: rest)

/-- Scanner position state: `line_number` / `column_number` of Scanner. -/
structure ScanState where
  line_number : Nat
  column_number : Nat
  deriving DecidableEq

/-- `Scanner::add_multiple_token`: push a token at the current position,
then advance the column by `size`.  `add_simple_token` is `size = 1`. -/
def addToken (tt : TokenType) (size : Nat) (st : ScanState) (toks : List Token) :
    ScanState × List Token :=
  ({ st with column_number := st.column_number + size },
   toks ++ [⟨tt, st.line_number, st.column_number⟩])

/-- One iteration of the main `while let Some((i, c)) = iter.next()` loop
of `Scanner::lex_input`, one branch per Rust match arm, in source order.
`inp` is the full input (for slicing), `rest` the characters after `c`,
`i` the character index of `c`.  Returns the remaining characters, the
next index, the updated scanner state and token vector; `none` is the
byte-slice panic modelled by `sliceStr`. -/
def lexStep (inp : List Char) (c : Char) (rest : List Char) (i : Nat) (st : ScanState)
    (toks : List Token) : Option (List Char × Nat × ScanState × List Token) :=
    if c = '(' then
      let p := addToken TokenType.LeftParen 1 st toks
      some (rest, i + 1, p.1, p.2)
    else if c = ')' then
      let p := addToken TokenType.RightParen 1 st toks
      some (rest, i + 1, p.1, p.2)
    else if c = '\x7b' then
      let p := addToken TokenType.LeftBrace 1 st toks
      some (rest, i + 1, p.1, p.2)
    else if c = '\x7d' then
      let p := addToken TokenType.RightBrace 1 st toks
      some (rest, i + 1, p.1, p.2)
    else if c = ',' then
      let p := addToken TokenType.Comma 1 st toks
      some (rest, i + 1, p.1, p.2)
    else if c = '-' then
      let p := addToken TokenType.Minus 1 st toks
      some (rest, i + 1, p.1, p.2)
    else if c = '+' then
      let p := addToken TokenType.Plus 1 st toks
      some (rest, i + 1, p.1, p.2)
    else if c = ';' then
      let p := addToken TokenType.Semicolon 1 st toks
      some (rest, i + 1, p.1, p.2)
    else if c = '*' then
      let p := addToken TokenType.Star 1 st toks
      some (rest, i + 1, p.1, p.2)
    else if c = '!' then
      -- peek_and_check_consume(iter, '=')
      if rest.head? = some '=' then
        let p := addToken TokenType.BangEqual 2 st toks
        some (rest.tail, i + 2, p.1, p.2)
      else
        let p := addToken TokenType.Bang 1 st toks
        some (rest, i + 1, p.1, p.2)
    else if c = '=' then
      if rest.head? = some '=' then
        let p := addToken TokenType.EqualEqual 2 st toks
        some (rest.tail, i + 2, p.1, p.2)
      else
        let p := addToken TokenType.Equal 1 st toks
        some (rest, i + 1, p.1, p.2)
    else if c = '<' then
      if rest.head? = some '=' then
        let p := addToken TokenType.LessEqual 2 st toks
        some (rest.tail, i + 2, p.1, p.2)
      else
        let p := addToken TokenType.Less 1 st toks
        some (rest, i + 1, p.1, p.2)
    else if c = '>' then
      if rest.head? = some '=' then
        let p := addToken TokenType.GreaterEqual 2 st toks
        some (rest.tail, i + 2, p.1, p.2)
      else
        let p := addToken TokenType.Greater 1 st toks
        some (rest, i + 1, p.1, p.2)
    else if c = '"' then
      -- string literal: start = i, current = start, then the peek loop
      let r := stringScan rest (i + 1) i
      (sliceStr inp i r.1).bind fun lexeme =>
        let p := addToken (TokenType.String lexeme) (r.1 - i) st toks
        some (r.2.2, r.2.1, p.1, p.2)
    else if c = '.' then
      if (rest.head?.map isDecDigit).getD false then
        -- leading-dot number: start = i, current = start.  The iter.next()
        -- under scanner.rs's `eat the "."` comment actually consumes the
        -- FIRST DIGIT (the dot itself was already consumed by the outer
        -- loop) without updating current; the digit loop then records
        -- digits from the second one onward, so a one-digit fractional
        -- like .5 yields the empty lexeme.
        let r := digitsScan false rest.tail (i + 2) i
        (sliceStr inp i r.1).bind fun lexeme =>
          let p := addToken (TokenType.Number lexeme) (r.1 - i) st toks
          some (r.2.2, r.2.1, p.1, p.2)
      else
        let p := addToken TokenType.Dot 1 st toks
        some (rest, i + 1, p.1, p.2)
    else if isDecDigit c then
      -- number literal: start = i, current = start + 1
      if c = '0' ∧ rest.head? = some 'x' then
        -- hexadecimal: consume the 'x', then the hex-digit loop
        let r := digitsScan true rest.tail (i + 2) (i + 1)
        (sliceStr inp i r.1).bind fun lexeme =>
          let p := addToken (TokenType.Number lexeme) (r.1 - i) st toks
          some (r.2.2, r.2.1, p.1, p.2)
      else
        let r1 := digitsScan false rest (i + 1) (i + 1)
        if r1.2.2.head? = some '.' then
          -- is_fractional: eat the ".", current = its index + 1, digit loop
          let r2 := digitsScan false r1.2.2.tail (r1.2.1 + 1) (r1.2.1 + 1)
          (sliceStr inp i r2.1).bind fun lexeme =>
            let p := addToken (TokenType.Number lexeme) (r2.1 - i) st toks
            some (r2.2.2, r2.2.1, p.1, p.2)
        else
          (sliceStr inp i r1.1).bind fun lexeme =>
            let p := addToken (TokenType.Number lexeme) (r1.1 - i) st toks
            some (r1.2.2, r1.2.1, p.1, p.2)
    else if c = '$' then
      -- secondary hex: start = i, current = start, hex-digit loop
      let r := digitsScan true rest (i + 1) i
      (sliceStr inp i r.1).bind fun lexeme =>
        let p := addToken (TokenType.Number lexeme) (r.1 - i) st toks
        some (r.2.2, r.2.1, p.1, p.2)
    else if c = '/' then
      if rest.head? = some '/' then
        -- line comment: start = i, current = start, comment loop
        let r := commentScan rest.tail (i + 2) i
        (sliceStr inp i r.1).bind fun lexeme =>
          let p := addToken (TokenType.Comment lexeme) (r.1 - i) st toks
          some (r.2.2, r.2.1, p.1, p.2)
      else
        let p := addToken TokenType.Slash 1 st toks
        some (rest, i + 1, p.1, p.2)
    else if c = ' ' ∨ c = '\t' then
      some (rest, i + 1, { st with column_number := st.column_number + 1 }, toks)
    else if c = '\n' then
      -- next_line(): line + 1, column = 0
      some (rest, i + 1, { st with line_number := st.line_number + 1, column_number := 0 }, toks)
    else if c = '\r' then
      some (rest, i + 1, st, toks)
    else if 'A' ≤ c ∧ c ≤ 'z' then
      -- println!("A wild character appeared! {}", c): no token, no
      -- column advance
      some (rest, i + 1, st, toks)
    else
      -- println!("Unexpected character {}", c); column + 1, no token
      some (rest, i + 1, { st with column_number := st.column_number + 1 }, toks)

/-- The main loop of `Scanner::lex_input`: iterate `lexStep` until the
input is exhausted, then append the EOF token.  The fuel argument only
guards Lean-side termination: every step consumes at least one
character, so `inp.length + 1` fuel can never run out; `none` arises
only from the byte-slice panic inside `lexStep`. -/
def lexLoop (inp : List Char) : Nat → List Char → Nat → ScanState → List Token →
    Option (List Token)
  | 0, _, _, _, _ => none
  | _ + 1, [], _, st, toks =>
    -- after the loop: self.add_simple_token(TokenType::EOF, tokens)
    some (toks ++ [⟨TokenType.EOF, st.line_number, st.column_number⟩])
  | fuel + 1, c :: rest, i, st, toks =>
    (lexStep inp c rest i st toks).bind fun a =>
      lexLoop inp fuel a.1 a.2.1 a.2.2.1 a.2.2.2

/-- `Scanner::lex_input` run on a fresh scanner (gml_fmt always lexes a
whole file into a fresh token vector): `none` models the Rust slice
panic, `some` the `Ok` result. -/
def lex_input (inp : List Char) : Option (List Token) :=
  lexLoop inp (inp.length + 1) inp 0 ⟨0, 0⟩ []

/-- Inputs whose characters are all ASCII (for these, the character
offsets the scanner computes agree with Rust's byte offsets). -/
def asciiOnly (inp : List Char) : Prop := ∀ x ∈ inp, x.val < 128

/-- The token categories `lex_input` can actually emit (scanner.rs):
everything else in `TokenType` is never produced by the scanner. -/
def producedB : TokenType → Bool
  | .LeftParen | .RightParen | .LeftBrace | .RightBrace | .Comma | .Minus
  | .Plus | .Semicolon | .Star | .Bang | .BangEqual | .Equal | .EqualEqual
  | .Less | .LessEqual | .Greater | .GreaterEqual | .Dot | .Slash
  | .String _ | .Number _ | .Comment _ | .EOF => true
  | _ => false

/-- The token categories the claim about wild characters says the
scanner never produces: Identifier, every keyword/directive category,
LeftBracket, RightBracket, Newline, MultilineComment, UnidentifiedInput. -/
def c10Forbidden : TokenType → Bool
  | .Identifier _ => true
  | .LeftBracket | .RightBracket | .Newline => true
  | .MultilineComment _ | .UnidentifiedInput _ => true
  | .Macro | .RegionBegin | .RegionEnd | .Define => true
  | .Var | .If | .Else | .Return | .For | .Repeat | .While | .Do | .Until
  | .Switch | .Case | .DefaultCase | .Break | .Exit | .True | .False | .Enum
  | .AndAlias | .OrAlias | .XorAlias | .NotAlias | .ModAlias | .Div | .With => true
  | _ => false

/-
Parser embedding (src/parser.rs).  The AST node types are not among the
staged files (expressions.rs / statements.rs are only imported): they are
modelled from the spec's data model (spec sections 3) and from every
construction site in parser.rs.  `ExprBox` is Rust's
`Box<(Expr, CommentsAndNewlines)>`, i.e. an expression paired with its
trailing trivia; `StmtBox` is `StatementWrapper { statement,
has_semicolon }`.
-/

/-- Modelled from the spec: the expression nodes of expressions.rs
(tagged variant, each bundled with trailing trivia via `Expr × List
Token`), with exactly the fields parser.rs constructs. -/
inductive Expr where
  | Assign (left : Expr × List Token) (operator : Token)
      (comments_and_newlines_between_op_and_r : List Token)
      (right : Expr × List Token)
  | Ternary (conditional : Expr × List Token)
      (comments_and_newlines_after_q : List Token) (left : Expr × List Token)
      (comments_and_newlines_after_colon : List Token) (right : Expr × List Token)
  | Binary (left : Expr × List Token) (operator : Token)
      (comments_and_newlines_between_op_and_r : List Token)
      (right : Expr × List Token)
  | Unary (operator : Token) (comments_and_newlines_between : List Token)
      (right : Expr × List Token)
  | Postfix (operator : Token) (comments_and_newlines_between : List Token)
      (expr : Expr × List Token)
  | Call (procedure_name : Expr × List Token)
      (arguments : List (List Token × (Expr × List Token) × List Token))
      (comments_and_newlines_after_lparen : List Token)
  | DotAccess (object_name : Expr × List Token)
      (instance_variable : Expr × List Token)
  | DataStructureAccess (ds_name : Expr × List Token) (access_type : Token)
      (access_exprs : List (List Token × (Expr × List Token)))
  | Grouping (expressions : List (Expr × List Token))
      (comments_and_newlines_after_lparen : List Token)
      (comments_and_newlines_after_rparen : List Token)
  | ArrayLiteral (comments_and_newlines_after_lbracket : List Token)
      (arguments : List (List Token × (Expr × List Token) × List Token))
  | Literal (literal_token : Token) (comments : List Token)
  | NumberStartDot (literal_token : Token) (comments : List Token)
  | NumberEndDot (literal_token : Token) (comments : List Token)
  | Identifier (name : Token) (comments : List Token)
  | Newline
  | UnidentifiedAsLiteral (literal_token : Token)
  | UnexpectedEnd

/-- `ExprBox<'a> = Box<(Expr<'a>, CommentsAndNewlines<'a>)>`. -/
abbrev ExprBox : Type := Expr × List Token

/-- `Arguments<'a>`: per argument, leading trivia, the expression, and
trailing trivia. -/
abbrev Arguments : Type := List (List Token × ExprBox × List Token)

/-- Modelled from the spec: a variable declaration (statements.rs). -/
structure VariableDecl where
  var_expr : ExprBox
  assignment : Option (List Token × ExprBox)
  say_var : Bool

/-- Modelled from the spec: a switch case label. -/
inductive CaseType where
  | case (constant : ExprBox)
  | defaultCase

/-- Modelled from the spec: one element of an enum's delimited member
list. -/
structure DelimitedLine where
  expr : ExprBox
  trailing_comment : Option (List Token)

/-- Modelled from the spec: the statement nodes of statements.rs with
exactly the fields parser.rs constructs.  A `Statement × Bool` is a
`StmtBox` (statement plus `has_semicolon`); a switch case is the tuple
(comments_after_case, case_type, comments_after_colon, statements). -/
inductive Statement where
  | Comment (comment : Token)
  | MultilineComment (multiline_comment : Token)
  | RegionBegin (multi_word_name : List Token)
  | RegionEnd (multi_word_name : List Token)
  | Macro (macro_body : List Token)
  | Define (script_name : Expr × List Token) (body : List (Statement × Bool))
  | VariableDeclList (var_decl : List VariableDecl)
  | EnumDeclaration (name : Expr × List Token)
      (comments_after_lbrace : List Token) (members : List DelimitedLine)
  | If (condition : Expr × List Token) (then_branch : Statement × Bool)
      (comments_between : List Token) (else_branch : Option (Statement × Bool))
  | WhileWithRepeat (token : Token) (condition : Expr × List Token)
      (body : Statement × Bool)
  | DoUntil (comments_between : List Token) (condition : Expr × List Token)
      (body : Statement × Bool)
  | Switch (comments_after_lbrace : List Token)
      (cases : List (List Token × CaseType × List Token × List (Statement × Bool)))
      (condition : Expr × List Token)
  | For (initializer : Option (Statement × Bool)) (condition : Option (Expr × List Token))
      (increment : Option (Expr × List Token)) (body : Statement × Bool)
  | Return (expression : Option (Expr × List Token))
  | Break
  | Exit
  | Block (statements : List (Statement × Bool)) (comments_after_lbrace : List Token)
  | ExpresssionStatement (expression : Expr × List Token)
  | EOF

/-- `StmtBox<'a> = Box<StatementWrapper<'a>>`: the statement and
`has_semicolon`. -/
abbrev StmtBox : Type := Statement × Bool

/-- A switch case (statements.rs `Case`). -/
abbrev Case : Type := List Token × CaseType × List Token × List StmtBox

/-- The parser's single diagnostic slot (`success: Option<String>`),
abstracted to the two message shapes parser.rs ever writes:
`format!("Error parsing {}", token)` (parser.rs line 991) and
`"Unexpected end."` (line 999).  Distinct constructor arguments give
distinct Rust strings, since the token display includes its category and
position. -/
inductive Diagnostic where
  | errorParsing (t : Token)
  | unexpectedEnd
  deriving DecidableEq

/-- The `Parser` struct state: the borrowed token vector with the
peekable iterator's position, the `success` diagnostic slot, and the two
mode flags.  `errorLog` is ghost instrumentation recording every write
to `success` in order (the Rust code holds only the latest write). -/
structure PState where
  tokens : List Token
  pos : Nat
  success : Option Diagnostic
  errorLog : List Diagnostic
  allow_unidentified : Bool
  do_not_pair : Bool

/-- `self.iter.peek()`. -/
def PState.peekT (s : PState) : Option Token := s.tokens.get? s.pos

/-- `self.iter.next()` / `consume_next` (position advance; the consumed
token itself is the one just peeked). -/
def PState.advance (s : PState) : PState := { s with pos := s.pos + 1 }

/-- A write to the `success` slot (unconditional assignment in the Rust
code), also appended to the ghost log. -/
def PState.setError (s : PState) (d : Diagnostic) : PState :=
  { s with success := some d, errorLog := s.errorLog ++ [d] }

/-- `Parser::check_next`. -/
def check_next (s : PState) (tt : TokenType) : Bool :=
  match s.peekT with
  | some t => decide (t.token_type = tt)
  | none => false

/-- `Parser::check_next_either`. -/
def check_next_either (s : PState) (t1 t2 : TokenType) : Bool :=
  match s.peekT with
  | some t => decide (t.token_type = t1) || decide (t.token_type = t2)
  | none => false

/-- `Parser::check_next_consume`. -/
def check_next_consume (s : PState) (tt : TokenType) : Bool × PState :=
  if check_next s tt then (true, s.advance) else (false, s)

/-- The loop of `Parser::get_newlines_and_comments`, driven by the exact
number of tokens left (it consumes one token per iteration, so the
countdown never runs out before the peek fails). -/
def gnacAux : Nat → PState → List Token × PState
  | 0, s => ([], s)
  | n + 1, s =>
    match s.peekT with
    | some t =>
      match t.token_type with
      | TokenType.Newline | TokenType.Comment _ | TokenType.MultilineComment _ =>
        let r := gnacAux n s.advance
        (t :: r.1, r.2)
      | _ => ([], s)
    | none => ([], s)

/-- `Parser::get_newlines_and_comments`. -/
def get_newlines_and_comments (s : PState) : List Token × PState :=
  gnacAux (s.tokens.length - s.pos) s

/-- The loop of `Parser::get_remaining_tokens_on_line`. -/
def grtolAux : Nat → PState → List Token × PState
  | 0, s => ([], s)
  | n + 1, s =>
    match s.peekT with
    | some t =>
      match t.token_type with
      | TokenType.Newline | TokenType.EOF => ([], s)
      | _ =>
        let r := grtolAux n s.advance
        (t :: r.1, r.2)
    | none => ([], s)

/-- `Parser::get_remaining_tokens_on_line`. -/
def get_remaining_tokens_on_line (s : PState) : List Token × PState :=
  grtolAux (s.tokens.length - s.pos) s

/-- The loop of `Parser::macro_statement` (backslash-continuation aware). -/
def macroLoop : Nat → PState → Bool → List Token × PState
  | 0, s, _ => ([], s)
  | n + 1, s, ignore_newline =>
    match s.peekT with
    | some t =>
      match t.token_type with
      | TokenType.Newline =>
        if ignore_newline then
          let r := macroLoop n s.advance ignore_newline
          (t :: r.1, r.2)
        else ([], s)
      | TokenType.Backslash =>
        let r := macroLoop n s.advance true
        (t :: r.1, r.2)
      | TokenType.EOF => ([], s)
      | _ =>
        let r := macroLoop n s.advance false
        (t :: r.1, r.2)
    | none => ([], s)

/-- `Parser::macro_statement` (called after the Macro token was consumed). -/
def macro_statement (s : PState) : StmtBox × PState :=
  let r := macroLoop (s.tokens.length - s.pos) s false
  ((Statement.Macro r.1, false), r.2)

/-- `Parser::break_statement`. -/
def break_statement (s : PState) : StmtBox × PState :=
  let r := check_next_consume s TokenType.Semicolon
  ((Statement.Break, r.1), r.2)

/-- `Parser::exit_statment` (sic). -/
def exit_statment (s : PState) : StmtBox × PState :=
  let r := check_next_consume s TokenType.Semicolon
  ((Statement.Exit, r.1), r.2)

/-- `Parser::create_comment_expr_box`: pair the expression with a fresh
drain of trailing trivia. -/
def create_comment_expr_box (s : PState) (e : Expr) : ExprBox × PState :=
  let r := get_newlines_and_comments s
  ((e, r.1), r.2)

/-- `Parser::create_expr_box_no_comment`. -/
def create_expr_box_no_comment (e : Expr) : ExprBox := (e, [])

/-
The recursive-descent parser itself: one Lean function per Rust method
of `Parser`, mutually recursive, each taking a fuel argument decremented
on every entry.  Fuel is required because the Rust parser is genuinely
partial: the grouping loop in `primary` (parser.rs lines 959-961)
repeatedly calls `expression` on an exhausted iterator, which consumes
nothing, so no well-founded measure exists.  `none` means the
computation did not finish within the given fuel.
-/
mutual

/-- `Parser::build_ast`'s `while let Some(t) = self.iter.peek()` loop;
`acc` is `self.ast`. -/
def pBuildAstLoop : Nat → PState → List StmtBox → Option (List StmtBox × PState)
  | 0, _, _ => none
  | fuel + 1, s, acc =>
    match s.peekT with
    | none => some (acc, s)
    | some t =>
      if s.success.isSome then some (acc, s)
      else
        let s := { s with do_not_pair := false }
        match t.token_type with
        | TokenType.EOF => some (acc ++ [(Statement.EOF, false)], s)
        | _ =>
          (pStatement fuel s).bind fun r =>
            pBuildAstLoop fuel r.2 (acc ++ [r.1])

/-- `Parser::statement`: dispatch on the peeked token's category. -/
def pStatement : Nat → PState → Option (StmtBox × PState)
  | 0, _ => none
  | fuel + 1, s =>
    match s.peekT with
    | some token =>
      match token.token_type with
      | TokenType.Comment _ => some ((Statement.Comment token, false), s.advance)
      | TokenType.MultilineComment _ =>
        some ((Statement.MultilineComment token, false), s.advance)
      | TokenType.RegionBegin =>
        let r := get_remaining_tokens_on_line s.advance
        some ((Statement.RegionBegin r.1, false), r.2)
      | TokenType.RegionEnd =>
        let r := get_remaining_tokens_on_line s.advance
        some ((Statement.RegionEnd r.1, false), r.2)
      | TokenType.Macro => some (macro_statement s.advance)
      | TokenType.Define => pDefineStatement fuel s.advance
      | TokenType.Var => pSeriesVarDeclaration fuel s
      | TokenType.Enum => pEnumDeclaration fuel s.advance
      | TokenType.If => pIfStatement fuel s.advance
      | TokenType.Return => pReturnStatement fuel s.advance
      | TokenType.Break => some (break_statement s.advance)
      | TokenType.Exit => some (exit_statment s.advance)
      | TokenType.Do => pDoUntilStatement fuel s.advance
      | TokenType.While => pWhileWithRepeat fuel token s.advance
      | TokenType.With => pWhileWithRepeat fuel token s.advance
      | TokenType.Repeat => pWhileWithRepeat fuel token s.advance
      | TokenType.Switch => pSwitchStatement fuel s.advance
      | TokenType.For => pForStatement fuel s.advance
      | TokenType.LeftBrace => pBlock fuel s.advance
      | _ => pExpressionStatement fuel s
    | none => pExpressionStatement fuel s

/-- `Parser::define_statement` (after the Define token was consumed). -/
def pDefineStatement : Nat → PState → Option (StmtBox × PState)
  | 0, _ => none
  | fuel + 1, s =>
    (pExpression fuel s).bind fun rn =>
      (pDefineLoop fuel [] rn.2).bind fun rb =>
        some ((Statement.Define rn.1 rb.1, false), rb.2)

/-- The body loop of `define_statement` (until EOF or the next Define). -/
def pDefineLoop : Nat → List StmtBox → PState → Option (List StmtBox × PState)
  | 0, _, _ => none
  | fuel + 1, acc, s =>
    match s.peekT with
    | some token =>
      match token.token_type with
      | TokenType.EOF | TokenType.Define => some (acc, s)
      | _ =>
        (pStatement fuel s).bind fun r =>
          pDefineLoop fuel (acc ++ [r.1]) r.2
    | none => some (acc, s)

/-- `Parser::series_var_declaration`. -/
def pSeriesVarDeclaration : Nat → PState → Option (StmtBox × PState)
  | 0, _ => none
  | fuel + 1, s =>
    let r0 := check_next_consume s TokenType.Var
    (pVarDeclaration fuel r0.2).bind fun r1 =>
      (pSeriesVarLoop fuel [r1.1] r1.2).bind fun r2 =>
        let r3 := check_next_consume r2.2 TokenType.Semicolon
        some ((Statement.VariableDeclList r2.1, r3.1), r3.2)

/-- The comma loop of `series_var_declaration`. -/
def pSeriesVarLoop : Nat → List VariableDecl → PState → Option (List VariableDecl × PState)
  | 0, _, _ => none
  | fuel + 1, acc, s =>
    match s.peekT with
    | some _ =>
      let r := check_next_consume s TokenType.Comma
      if r.1 then
        (pVarDeclaration fuel r.2).bind fun r2 =>
          pSeriesVarLoop fuel (acc ++ [r2.1]) r2.2
      else some (acc, r.2)
    | none => some (acc, s)

/-- `Parser::var_declaration`. -/
def pVarDeclaration : Nat → PState → Option (VariableDecl × PState)
  | 0, _ => none
  | fuel + 1, s =>
    let r0 := check_next_consume s TokenType.Var
    (pExpression fuel r0.2).bind fun r1 =>
      if check_next r1.2 TokenType.Equal then
        let s2 := r1.2.advance
        let rc := get_newlines_and_comments s2
        (pExpression fuel rc.2).bind fun r2 =>
          some (⟨r1.1, some (rc.1, r2.1), r0.1⟩, r2.2)
      else some (⟨r1.1, none, r0.1⟩, r1.2)

/-- `Parser::block` (after the LeftBrace was consumed). -/
def pBlock : Nat → PState → Option (StmtBox × PState)
  | 0, _ => none
  | fuel + 1, s =>
    let rc := get_newlines_and_comments s
    (pBlockLoop fuel [] rc.2).bind fun r =>
      let rs := check_next_consume r.2 TokenType.Semicolon
      some ((Statement.Block r.1 rc.1, rs.1), rs.2)

/-- The statement loop of `block`. -/
def pBlockLoop : Nat → List StmtBox → PState → Option (List StmtBox × PState)
  | 0, _, _ => none
  | fuel + 1, acc, s =>
    match s.peekT with
    | some _ =>
      let r := check_next_consume s TokenType.RightBrace
      if r.1 then some (acc, r.2)
      else
        (pStatement fuel r.2).bind fun r2 =>
          pBlockLoop fuel (acc ++ [r2.1]) r2.2
    | none => some (acc, s)

/-- `Parser::if_statement` (after the If token was consumed). -/
def pIfStatement : Nat → PState → Option (StmtBox × PState)
  | 0, _ => none
  | fuel + 1, s =>
    (pExpression fuel s).bind fun rc =>
      (pStatement fuel rc.2).bind fun rt =>
        let rcb := get_newlines_and_comments rt.2
        let re := check_next_consume rcb.2 TokenType.Else
        if re.1 then
          (pStatement fuel re.2).bind fun relse =>
            let rs := check_next_consume relse.2 TokenType.Semicolon
            some ((Statement.If rc.1 rt.1 rcb.1 (some relse.1), rs.1), rs.2)
        else
          let rs := check_next_consume re.2 TokenType.Semicolon
          some ((Statement.If rc.1 rt.1 rcb.1 none, rs.1), rs.2)

/-- `Parser::while_with_repeat`. -/
def pWhileWithRepeat : Nat → Token → PState → Option (StmtBox × PState)
  | 0, _, _ => none
  | fuel + 1, token, s =>
    (pExpression fuel s).bind fun rc =>
      (pStatement fuel rc.2).bind fun rb =>
        let rs := check_next_consume rb.2 TokenType.Semicolon
        some ((Statement.WhileWithRepeat token rc.1 rb.1, rs.1), rs.2)

/-- `Parser::do_until_statement` (after the Do token was consumed). -/
def pDoUntilStatement : Nat → PState → Option (StmtBox × PState)
  | 0, _ => none
  | fuel + 1, s =>
    (pStatement fuel s).bind fun rb =>
      let rc := get_newlines_and_comments rb.2
      let ru := check_next_consume rc.2 TokenType.Until
      (pExpression fuel ru.2).bind fun rcon =>
        let rs := check_next_consume rcon.2 TokenType.Semicolon
        some ((Statement.DoUntil rc.1 rcon.1 rb.1, rs.1), rs.2)

/-- `Parser::switch_statement` (after the Switch token was consumed). -/
def pSwitchStatement : Nat → PState → Option (StmtBox × PState)
  | 0, _ => none
  | fuel + 1, s =>
    (pExpression fuel s).bind fun rc =>
      let rl := check_next_consume rc.2 TokenType.LeftBrace
      let rcb := get_newlines_and_comments rl.2
      (pSwitchLoop fuel [] rcb.2).bind fun rcases =>
        let rr := check_next_consume rcases.2 TokenType.RightBrace
        let rs := check_next_consume rr.2 TokenType.Semicolon
        some ((Statement.Switch rcb.1 rcases.1 rc.1, rs.1), rs.2)

/-- The `while let Some(token) = self.iter.next()` loop of
`switch_statement` (note: it consumes the peeked token up front). -/
def pSwitchLoop : Nat → List Case → PState → Option (List Case × PState)
  | 0, _, _ => none
  | fuel + 1, acc, s =>
    match s.peekT with
    | none => some (acc, s)
    | some token =>
      let s := s.advance
      match token.token_type with
      | TokenType.Case =>
        (pExpression fuel s).bind fun rconst =>
          let rca := get_newlines_and_comments rconst.2
          let rcolon := check_next_consume rca.2 TokenType.Colon
          let rcc := get_newlines_and_comments rcolon.2
          (pCaseStmts fuel [] rcc.2).bind fun rstmts =>
            pSwitchLoop fuel
              (acc ++ [(rca.1, CaseType.case rconst.1, rcc.1, rstmts.1)]) rstmts.2
      | TokenType.DefaultCase =>
        let rca := get_newlines_and_comments s
        let rcolon := check_next_consume rca.2 TokenType.Colon
        let rcc := get_newlines_and_comments rcolon.2
        (pCaseStmts fuel [] rcc.2).bind fun rstmts =>
          pSwitchLoop fuel
            (acc ++ [(rca.1, CaseType.defaultCase, rcc.1, rstmts.1)]) rstmts.2
      | _ => some (acc, s)

/-- The per-case statement loop of `switch_statement`. -/
def pCaseStmts : Nat → List StmtBox → PState → Option (List StmtBox × PState)
  | 0, _, _ => none
  | fuel + 1, acc, s =>
    match s.peekT with
    | some token =>
      match token.token_type with
      | TokenType.DefaultCase | TokenType.Case | TokenType.RightBrace => some (acc, s)
      | _ =>
        (pStatement fuel s).bind fun r =>
          pCaseStmts fuel (acc ++ [r.1]) r.2
    | none => some (acc, s)

/-- `Parser::for_statement` (after the For token was consumed). -/
def pForStatement : Nat → PState → Option (StmtBox × PState)
  | 0, _ => none
  | fuel + 1, s =>
    let rl := check_next_consume s TokenType.LeftParen
    let ri := check_next_consume rl.2 TokenType.Semicolon
    (if ri.1 then some ((none : Option StmtBox), ri.2)
     else if check_next ri.2 TokenType.Var then
       (pSeriesVarDeclaration fuel ri.2).map fun r => (some r.1, r.2)
     else (pExpressionStatement fuel ri.2).map fun r => (some r.1, r.2)).bind fun rinit =>
      let rc1 := check_next_consume rinit.2 TokenType.Semicolon
      (if rc1.1 then some ((none : Option ExprBox), rc1.2)
       else (pExpression fuel rc1.2).map fun r => (some r.1, r.2)).bind fun rcond =>
        let rc2 := check_next_consume rcond.2 TokenType.Semicolon
        (if check_next rc2.2 TokenType.RightParen then some ((none : Option ExprBox), rc2.2)
         else (pExpression fuel rc2.2).map fun r => (some r.1, r.2)).bind fun rincr =>
          let rr := check_next_consume rincr.2 TokenType.RightParen
          (pStatement fuel rr.2).bind fun rbody =>
            let rs := check_next_consume rbody.2 TokenType.Semicolon
            some ((Statement.For rinit.1 rcond.1 rincr.1 rbody.1, rs.1), rs.2)

/-- `Parser::return_statement` (after the Return token was consumed). -/
def pReturnStatement : Nat → PState → Option (StmtBox × PState)
  | 0, _ => none
  | fuel + 1, s =>
    (if check_next s TokenType.Semicolon then some ((none : Option ExprBox), s)
     else (pExpression fuel s).map fun r => (some r.1, r.2)).bind fun re =>
      let rs := check_next_consume re.2 TokenType.Semicolon
      some ((Statement.Return re.1, rs.1), rs.2)

/-- `Parser::enum_declaration` (after the Enum token was consumed). -/
def pEnumDeclaration : Nat → PState → Option (StmtBox × PState)
  | 0, _ => none
  | fuel + 1, s =>
    (pExpression fuel s).bind fun rn =>
      let rl := check_next_consume rn.2 TokenType.LeftBrace
      let rcb := get_newlines_and_comments rl.2
      (pFinishDelimited fuel TokenType.RightBrace TokenType.Comma rcb.2).bind fun rm =>
        let rs := check_next_consume rm.2 TokenType.Semicolon
        some ((Statement.EnumDeclaration rn.1 rcb.1 rm.1, rs.1), rs.2)

/-- `Parser::finish_call_delimited_expression`. -/
def pFinishDelimited : Nat → TokenType → TokenType → PState →
    Option (List DelimitedLine × PState)
  | 0, _, _, _ => none
  | fuel + 1, endT, delimT, s =>
    (if check_next s endT then some ([], s)
     else pFCDLoop fuel endT delimT [] s).bind fun r =>
      let re := check_next_consume r.2 endT
      some (r.1, re.2)

/-- The loop of `finish_call_delimited_expression`. -/
def pFCDLoop : Nat → TokenType → TokenType → List DelimitedLine → PState →
    Option (List DelimitedLine × PState)
  | 0, _, _, _, _ => none
  | fuel + 1, endT, delimT, acc, s =>
    if check_next s endT then some (acc, s)
    else
      (pExpression fuel s).bind fun re =>
        let rd := check_next_consume re.2 delimT
        if rd.1 then
          let rt := get_newlines_and_comments rd.2
          pFCDLoop fuel endT delimT (acc ++ [⟨re.1, some rt.1⟩]) rt.2
        else some (acc ++ [⟨re.1, none⟩], rd.2)

/-- `Parser::expression_statement`. -/
def pExpressionStatement : Nat → PState → Option (StmtBox × PState)
  | 0, _ => none
  | fuel + 1, s =>
    (pExpression fuel s).bind fun r =>
      let rs := check_next_consume r.2 TokenType.Semicolon
      some ((Statement.ExpresssionStatement r.1, rs.1), rs.2)

/-- `Parser::expression`: set `allow_unidentified`, parse an
assignment, reset the flag. -/
def pExpression : Nat → PState → Option (ExprBox × PState)
  | 0, _ => none
  | fuel + 1, s =>
    (pAssignment fuel { s with allow_unidentified := true }).bind fun r =>
      some (r.1, { r.2 with allow_unidentified := false })

/-- `Parser::assignment` (right-associative). -/
def pAssignment : Nat → PState → Option (ExprBox × PState)
  | 0, _ => none
  | fuel + 1, s =>
    (pTernary fuel s).bind fun r =>
      match r.2.peekT with
      | some token =>
        match token.token_type with
        | TokenType.Equal | TokenType.PlusEquals | TokenType.MinusEquals
        | TokenType.StarEquals | TokenType.SlashEquals | TokenType.BitXorEquals
        | TokenType.BitOrEquals | TokenType.BitAndEquals | TokenType.ModEquals =>
          let s2 := r.2.advance
          let rc := get_newlines_and_comments s2
          (pAssignment fuel rc.2).bind fun ra =>
            some (create_expr_box_no_comment (Expr.Assign r.1 token rc.1 ra.1), ra.2)
        | _ => some r
      | none => some r

/-- `Parser::ternary`. -/
def pTernary : Nat → PState → Option (ExprBox × PState)
  | 0, _ => none
  | fuel + 1, s =>
    (pOr fuel s).bind fun r =>
      let rh := check_next_consume r.2 TokenType.Hook
      if rh.1 then
        let rcq := get_newlines_and_comments rh.2
        (pTernary fuel rcq.2).bind fun rl =>
          let rcolon := check_next_consume rl.2 TokenType.Colon
          let rcc := get_newlines_and_comments rcolon.2
          (pTernary fuel rcc.2).bind fun rr =>
            some (create_expr_box_no_comment
              (Expr.Ternary r.1 rcq.1 rl.1 rcc.1 rr.1), rr.2)
      else some (r.1, rh.2)

/-- `Parser::or` (single-shot `if`; note the right operand comes from
`equality`, exactly as in the Rust source). -/
def pOr : Nat → PState → Option (ExprBox × PState)
  | 0, _ => none
  | fuel + 1, s =>
    (pAnd fuel s).bind fun r =>
      if check_next r.2 TokenType.LogicalOr || check_next r.2 TokenType.OrAlias then
        match r.2.peekT with
        | some token =>
          let s2 := r.2.advance
          let rc := get_newlines_and_comments s2
          (pEquality fuel rc.2).bind fun rr =>
            some (create_expr_box_no_comment (Expr.Binary r.1 token rc.1 rr.1), rr.2)
        | none => some r  -- unreachable: check_next succeeded, so a peek exists
      else some r

/-- `Parser::and` (single-shot `if`). -/
def pAnd : Nat → PState → Option (ExprBox × PState)
  | 0, _ => none
  | fuel + 1, s =>
    (pXor fuel s).bind fun r =>
      if check_next_either r.2 TokenType.LogicalAnd TokenType.AndAlias then
        match r.2.peekT with
        | some token =>
          let s2 := r.2.advance
          let rc := get_newlines_and_comments s2
          (pXor fuel rc.2).bind fun rr =>
            some (create_expr_box_no_comment (Expr.Binary r.1 token rc.1 rr.1), rr.2)
        | none => some r  -- unreachable
      else some r

/-- `Parser::xor` (single-shot `if`). -/
def pXor : Nat → PState → Option (ExprBox × PState)
  | 0, _ => none
  | fuel + 1, s =>
    (pEquality fuel s).bind fun r =>
      if check_next_either r.2 TokenType.LogicalXor TokenType.XorAlias then
        match r.2.peekT with
        | some token =>
          let s2 := r.2.advance
          let rc := get_newlines_and_comments s2
          (pEquality fuel rc.2).bind fun rr =>
            some (create_expr_box_no_comment (Expr.Binary r.1 token rc.1 rr.1), rr.2)
        | none => some r  -- unreachable
      else some r

/-- `Parser::equality` (a `while` loop). -/
def pEquality : Nat → PState → Option (ExprBox × PState)
  | 0, _ => none
  | fuel + 1, s =>
    (pComparison fuel s).bind fun r =>
      pEqualityLoop fuel r.1 r.2

/-- The loop of `equality`. -/
def pEqualityLoop : Nat → ExprBox → PState → Option (ExprBox × PState)
  | 0, _, _ => none
  | fuel + 1, e, s =>
    match s.peekT with
    | some t =>
      if t.token_type = TokenType.EqualEqual ∨ t.token_type = TokenType.BangEqual then
        let s2 := s.advance
        let rc := get_newlines_and_comments s2
        (pComparison fuel rc.2).bind fun rr =>
          pEqualityLoop fuel
            (create_expr_box_no_comment (Expr.Binary e t rc.1 rr.1)) rr.2
      else some (e, s)
    | none => some (e, s)

/-- `Parser::comparison` (a `while` loop). -/
def pComparison : Nat → PState → Option (ExprBox × PState)
  | 0, _ => none
  | fuel + 1, s =>
    (pBinary fuel s).bind fun r =>
      pComparisonLoop fuel r.1 r.2

/-- The loop of `comparison`. -/
def pComparisonLoop : Nat → ExprBox → PState → Option (ExprBox × PState)
  | 0, _, _ => none
  | fuel + 1, e, s =>
    match s.peekT with
    | some t =>
      match t.token_type with
      | TokenType.Greater | TokenType.GreaterEqual
      | TokenType.Less | TokenType.LessEqual =>
        let s2 := s.advance
        let rc := get_newlines_and_comments s2
        (pBinary fuel rc.2).bind fun rr =>
          pComparisonLoop fuel
            (create_expr_box_no_comment (Expr.Binary e t rc.1 rr.1)) rr.2
      | _ => some (e, s)
    | none => some (e, s)

/-- `Parser::binary` (bitwise `&`, `|`, `^`; a `while` loop). -/
def pBinary : Nat → PState → Option (ExprBox × PState)
  | 0, _ => none
  | fuel + 1, s =>
    (pBitshift fuel s).bind fun r =>
      pBinaryLoop fuel r.1 r.2

/-- The loop of `binary`. -/
def pBinaryLoop : Nat → ExprBox → PState → Option (ExprBox × PState)
  | 0, _, _ => none
  | fuel + 1, e, s =>
    match s.peekT with
    | some t =>
      match t.token_type with
      | TokenType.BitAnd | TokenType.BitOr | TokenType.BitXor =>
        let s2 := s.advance
        let rc := get_newlines_and_comments s2
        (pBitshift fuel rc.2).bind fun rr =>
          pBinaryLoop fuel
            (create_expr_box_no_comment (Expr.Binary e t rc.1 rr.1)) rr.2
      | _ => some (e, s)
    | none => some (e, s)

/-- `Parser::bitshift` (a `while` loop). -/
def pBitshift : Nat → PState → Option (ExprBox × PState)
  | 0, _ => none
  | fuel + 1, s =>
    (pAddition fuel s).bind fun r =>
      pBitshiftLoop fuel r.1 r.2

/-- The loop of `bitshift`. -/
def pBitshiftLoop : Nat → ExprBox → PState → Option (ExprBox × PState)
  | 0, _, _ => none
  | fuel + 1, e, s =>
    match s.peekT with
    | some t =>
      match t.token_type with
      | TokenType.BitLeft | TokenType.BitRight =>
        let s2 := s.advance
        let rc := get_newlines_and_comments s2
        (pAddition fuel rc.2).bind fun rr =>
          pBitshiftLoop fuel
            (create_expr_box_no_comment (Expr.Binary e t rc.1 rr.1)) rr.2
      | _ => some (e, s)
    | none => some (e, s)

/-- `Parser::addition` (a `while` loop). -/
def pAddition : Nat → PState → Option (ExprBox × PState)
  | 0, _ => none
  | fuel + 1, s =>
    (pMultiplication fuel s).bind fun r =>
      pAdditionLoop fuel r.1 r.2

/-- The loop of `addition`. -/
def pAdditionLoop : Nat → ExprBox → PState → Option (ExprBox × PState)
  | 0, _, _ => none
  | fuel + 1, e, s =>
    match s.peekT with
    | some t =>
      match t.token_type with
      | TokenType.Minus | TokenType.Plus =>
        let s2 := s.advance
        let rc := get_newlines_and_comments s2
        (pMultiplication fuel rc.2).bind fun rr =>
          pAdditionLoop fuel
            (create_expr_box_no_comment (Expr.Binary e t rc.1 rr.1)) rr.2
      | _ => some (e, s)
    | none => some (e, s)

/-- `Parser::multiplication` (a `while` loop). -/
def pMultiplication : Nat → PState → Option (ExprBox × PState)
  | 0, _ => none
  | fuel + 1, s =>
    (pUnary fuel s).bind fun r =>
      pMultiplicationLoop fuel r.1 r.2

/-- The loop of `multiplication`. -/
def pMultiplicationLoop : Nat → ExprBox → PState → Option (ExprBox × PState)
  | 0, _, _ => none
  | fuel + 1, e, s =>
    match s.peekT with
    | some t =>
      match t.token_type with
      | TokenType.Slash | TokenType.Star | TokenType.Mod
      | TokenType.ModAlias | TokenType.Div =>
        let s2 := s.advance
        let rc := get_newlines_and_comments s2
        (pUnary fuel rc.2).bind fun rr =>
          pMultiplicationLoop fuel
            (create_expr_box_no_comment (Expr.Binary e t rc.1 rr.1)) rr.2
      | _ => some (e, s)
    | none => some (e, s)

/-- `Parser::unary` (prefix operators, recursive). -/
def pUnary : Nat → PState → Option (ExprBox × PState)
  | 0, _ => none
  | fuel + 1, s =>
    match s.peekT with
    | some t =>
      match t.token_type with
      | TokenType.Bang | TokenType.Minus | TokenType.Plus =>
        let s2 := s.advance
        let rc := get_newlines_and_comments s2
        (pUnary fuel rc.2).bind fun rr =>
          some (create_expr_box_no_comment (Expr.Unary t rc.1 rr.1), rr.2)
      | TokenType.Incrementer | TokenType.Decrementer =>
        let s2 := s.advance
        let rc := get_newlines_and_comments s2
        (pUnary fuel rc.2).bind fun rr =>
          some (create_expr_box_no_comment (Expr.Unary t rc.1 rr.1), rr.2)
      | _ => pPostfixExpr fuel s
    | none => pPostfixExpr fuel s

/-- `Parser::postfix` (suppressed by the `do_not_pair` flag). -/
def pPostfixExpr : Nat → PState → Option (ExprBox × PState)
  | 0, _ => none
  | fuel + 1, s =>
    (pCall fuel s).bind fun r =>
      if r.2.do_not_pair = false ∧
          check_next_either r.2 TokenType.Incrementer TokenType.Decrementer = true then
        match r.2.peekT with
        | some t =>
          let s2 := r.2.advance
          let rc := get_newlines_and_comments s2
          some (create_expr_box_no_comment (Expr.Postfix t rc.1 r.1), rc.2)
        | none => some r  -- unreachable: check_next_either succeeded
      else some r

/-- `Parser::call`: primary, an optional argument list, then the
`.`/indexer chain. -/
def pCall : Nat → PState → Option (ExprBox × PState)
  | 0, _ => none
  | fuel + 1, s =>
    (pPrimary fuel s).bind fun r =>
      let rl := check_next_consume r.2 TokenType.LeftParen
      if rl.1 then
        let rc := get_newlines_and_comments rl.2
        (pFinishCall fuel TokenType.RightParen TokenType.Comma rc.2).bind fun ra =>
          pCallLoop fuel (create_expr_box_no_comment (Expr.Call r.1 ra.1 rc.1)) ra.2
      else pCallLoop fuel r.1 rl.2

/-- The `while` loop of `call`: DotAccess and DataStructureAccess. -/
def pCallLoop : Nat → ExprBox → PState → Option (ExprBox × PState)
  | 0, _, _ => none
  | fuel + 1, e, s =>
    match s.peekT with
    | some token =>
      match token.token_type with
      | TokenType.Dot =>
        let s2 := s.advance
        match s2.peekT with
        | some t2 =>
          match t2.token_type with
          | TokenType.Identifier _ =>
            (pExpression fuel s2).bind fun riv =>
              pCallLoop fuel
                (create_expr_box_no_comment (Expr.DotAccess e riv.1)) riv.2
          | _ => pCallLoop fuel e s2
        | none => pCallLoop fuel e s2
      | TokenType.LeftBracket | TokenType.ArrayIndexer | TokenType.MapIndexer
      | TokenType.ListIndexer | TokenType.GridIndexer =>
        let s2 := s.advance
        (pAccessLoop fuel [] s2).bind fun racc =>
          let rr := check_next_consume racc.2 TokenType.RightBracket
          pCallLoop fuel
            (create_expr_box_no_comment
              (Expr.DataStructureAccess e token racc.1)) rr.2
      | _ => some (e, s)
    | none => some (e, s)

/-- The access-expression loop of the DataStructureAccess arm. -/
def pAccessLoop : Nat → List (List Token × ExprBox) → PState →
    Option (List (List Token × ExprBox) × PState)
  | 0, _, _ => none
  | fuel + 1, acc, s =>
    match s.peekT with
    | some token =>
      if token.token_type = TokenType.RightBracket then some (acc, s)
      else
        let rc := get_newlines_and_comments s
        (pExpression fuel rc.2).bind fun re =>
          let rd := check_next_consume re.2 TokenType.Comma
          if rd.1 then pAccessLoop fuel (acc ++ [(rc.1, re.1)]) rd.2
          else some (acc ++ [(rc.1, re.1)], rd.2)
    | none => some (acc, s)

/-- `Parser::finish_call`. -/
def pFinishCall : Nat → TokenType → TokenType → PState → Option (Arguments × PState)
  | 0, _, _, _ => none
  | fuel + 1, endT, delimT, s =>
    (if check_next s endT then some ([], s)
     else pFinishCallLoop fuel endT delimT [] s).bind fun r =>
      let re := check_next_consume r.2 endT
      some (r.1, re.2)

/-- The loop of `finish_call`. -/
def pFinishCallLoop : Nat → TokenType → TokenType → Arguments → PState →
    Option (Arguments × PState)
  | 0, _, _, _, _ => none
  | fuel + 1, endT, delimT, acc, s =>
    if check_next s endT then some (acc, s)
    else
      let rc1 := get_newlines_and_comments s
      (pExpression fuel rc1.2).bind fun re =>
        let rc2 := get_newlines_and_comments re.2
        let rd := check_next_consume rc2.2 delimT
        if rd.1 then pFinishCallLoop fuel endT delimT (acc ++ [(rc1.1, re.1, rc2.1)]) rd.2
        else some (acc ++ [(rc1.1, re.1, rc2.1)], rd.2)

/-- `Parser::primary`.  The `_` arm wraps the unrecognized token as an
error-recovery literal, setting the diagnostic slot only when
`allow_unidentified` is false; an exhausted iterator writes the
"Unexpected end." diagnostic. -/
def pPrimary : Nat → PState → Option (ExprBox × PState)
  | 0, _ => none
  | fuel + 1, s =>
    match s.peekT with
    | some t =>
      match t.token_type with
      | TokenType.False | TokenType.True =>
        let s2 := s.advance
        let rc := get_newlines_and_comments s2
        some (create_comment_expr_box rc.2 (Expr.Literal t rc.1))
      | TokenType.Number _ | TokenType.String _ =>
        let s2 := s.advance
        let rc := get_newlines_and_comments s2
        some (create_comment_expr_box rc.2 (Expr.Literal t rc.1))
      | TokenType.NumberStartDot _ =>
        let s2 := s.advance
        let rc := get_newlines_and_comments s2
        some (create_comment_expr_box rc.2 (Expr.NumberStartDot t rc.1))
      | TokenType.NumberEndDot _ =>
        let s2 := s.advance
        let rc := get_newlines_and_comments s2
        some (create_comment_expr_box rc.2 (Expr.NumberEndDot t rc.1))
      | TokenType.Identifier _ =>
        let s2 := s.advance
        let rc := get_newlines_and_comments s2
        some (create_comment_expr_box rc.2 (Expr.Identifier t rc.1))
      | TokenType.LeftParen =>
        let s2 := s.advance
        let rcl := get_newlines_and_comments s2
        (pExpression fuel rcl.2).bind fun re1 =>
          (pGroupingLoop fuel [re1.1] re1.2).bind fun res =>
            let rcr := get_newlines_and_comments res.2
            some (create_comment_expr_box rcr.2 (Expr.Grouping res.1 rcl.1 rcr.1))
      | TokenType.LeftBracket =>
        let s2 := s.advance
        let rcl := get_newlines_and_comments s2
        (pFinishCall fuel TokenType.RightBracket TokenType.Comma rcl.2).bind fun ra =>
          some (create_expr_box_no_comment (Expr.ArrayLiteral rcl.1 ra.1), ra.2)
      | TokenType.Newline =>
        let s2 := s.advance
        some (create_expr_box_no_comment Expr.Newline, { s2 with do_not_pair := true })
      | _ =>
        let s2 := s.advance
        let s3 := if s2.allow_unidentified = false
          then s2.setError (Diagnostic.errorParsing t) else s2
        some (create_comment_expr_box s3 (Expr.UnidentifiedAsLiteral t))
    | none =>
      some (create_expr_box_no_comment Expr.UnexpectedEnd,
        s.setError Diagnostic.unexpectedEnd)

/-- The `while self.check_next_consume(RightParen) == false` loop of the
grouping arm of `primary` (parser.rs lines 959-961): the loop that never
terminates once the token sequence is exhausted. -/
def pGroupingLoop : Nat → List ExprBox → PState → Option (List ExprBox × PState)
  | 0, _, _ => none
  | fuel + 1, acc, s =>
    let rr := check_next_consume s TokenType.RightParen
    if rr.1 then some (acc, rr.2)
    else
      (pExpression fuel rr.2).bind fun re =>
        pGroupingLoop fuel (acc ++ [re.1]) re.2

end

/-- `Parser::new` plus `build_ast`: parse a token vector from a fresh
parser state, returning the statement forest and the final parser state
(with the `success` diagnostic slot). -/
def build_ast (fuel : Nat) (tokens : List Token) : Option (List StmtBox × PState) :=
  pBuildAstLoop fuel ⟨tokens, 0, none, [], false, false⟩ []

/-- A parser computation that, run on state `s`, either runs out of fuel
or returns without having moved the token position (so an exhausted
iterator stays exhausted). -/
abbrev stays {α : Type} (o : Option (α × PState)) (s : PState) : Prop :=
  o = none ∨ ∃ v s2, o = some (v, s2) ∧ s2.tokens = s.tokens ∧ s2.pos = s.pos

/-- The token sequence the scanner produces for the input `(1`. -/
def c3Tokens : List Token :=
  [⟨TokenType.LeftParen, 0, 0⟩, ⟨TokenType.Number "1", 0, 1⟩, ⟨TokenType.EOF, 0, 2⟩]

/-- Parser state for `(1` just after the LeftParen was consumed, inside
the grouping arm of `primary` (allow_unidentified set by `expression`). -/
def c3sA : PState := ⟨c3Tokens, 1, none, [], true, false⟩

/-- State after the literal `1` was consumed (flag still set). -/
def c3sB : PState := ⟨c3Tokens, 2, none, [], true, false⟩

/-- Same position after `expression` reset the flag. -/
def c3sBr : PState := ⟨c3Tokens, 2, none, [], false, false⟩

/-- State after the grouping loop's second `expression` call consumed
the EOF token as an error-recovery literal (flag still set). -/
def c3sC : PState := ⟨c3Tokens, 3, none, [], true, false⟩

/-- Same position after `expression` reset the flag: the token sequence
is exhausted here. -/
def c3sCr : PState := ⟨c3Tokens, 3, none, [], false, false⟩

/-- The literal expression `1` as parsed inside the grouping. -/
def c3lit : ExprBox := (Expr.Literal ⟨TokenType.Number "1", 0, 1⟩ [], [])

/-- The EOF token wrapped as an error-recovery literal by the grouping
loop's second iteration. -/
def c3unid : ExprBox := (Expr.UnidentifiedAsLiteral ⟨TokenType.EOF, 0, 2⟩, [])

/-- Initial expression-ladder state for `(1` (after `expression` set the
flag at position 0). -/
def c3s1 : PState := ⟨c3Tokens, 0, none, [], true, false⟩

/-- The fresh parser state for `(1`. -/
def c3s0 : PState := ⟨c3Tokens, 0, none, [], false, false⟩

/-- The token sequence the scanner produces for
`x = 1 // note` newline `y = 2` (the identifiers `x` and `y` are
dropped by the scanner's wild-char arm). -/
def c9Tokens : List Token :=
  [⟨TokenType.Equal, 0, 1⟩, ⟨TokenType.Number "1", 0, 3⟩,
   ⟨TokenType.Comment "// note", 0, 5⟩, ⟨TokenType.Equal, 1, 1⟩,
   ⟨TokenType.Number "2", 1, 3⟩, ⟨TokenType.EOF, 1, 4⟩]

/-- Fresh parser state for `c9Tokens`. -/
def c9s0 : PState := ⟨c9Tokens, 0, none, [], false, false⟩

/-- Parser state after the first statement (the stray `=`). -/
def c9sA : PState := ⟨c9Tokens, 1, none, [], false, false⟩

/-- Parser state after the second statement (the `1 = 2` assignment). -/
def c9sB : PState := ⟨c9Tokens, 5, none, [], false, false⟩

/-- First statement: the `=` at 0:1 wrapped as an error-recovery
literal (no identifier token precedes it). -/
def c9b1 : StmtBox :=
  (Statement.ExpresssionStatement (Expr.UnidentifiedAsLiteral ⟨TokenType.Equal, 0, 1⟩, []), false)

/-- Second statement: `1 = 2`, with the comment `// note` attached to
the literal `1` node. -/
def c9b2 : StmtBox :=
  (Statement.ExpresssionStatement
    (Expr.Assign
      (Expr.Literal ⟨TokenType.Number "1", 0, 3⟩ [⟨TokenType.Comment "// note", 0, 5⟩], [])
      ⟨TokenType.Equal, 1, 1⟩ []
      (Expr.Literal ⟨TokenType.Number "2", 1, 3⟩ [], []), []), false)

/-- The full AST for `c9Tokens`. -/
def c9Ast : List StmtBox := [c9b1, c9b2, (Statement.EOF, false)]

/-
Concrete evaluation of the parse of `1(2)*` RightBrace `*` RightBrace,
decomposed into per-call lemmas (states and fuels made explicit).
-/

/-- Token sequence for the input `1(2)*` `}` `*` `}`. -/
def c8Tokens : List Token :=
  [⟨TokenType.Number "1", 0, 0⟩, ⟨TokenType.LeftParen, 0, 1⟩, ⟨TokenType.Number "2", 0, 2⟩,
   ⟨TokenType.RightParen, 0, 3⟩, ⟨TokenType.Star, 0, 4⟩, ⟨TokenType.RightBrace, 0, 5⟩,
   ⟨TokenType.Star, 0, 6⟩, ⟨TokenType.RightBrace, 0, 7⟩, ⟨TokenType.EOF, 0, 8⟩]

/-- The first diagnostic written: the RightBrace at 0:5. -/
def c8d1 : Diagnostic := Diagnostic.errorParsing ⟨TokenType.RightBrace, 0, 5⟩

/-- The second diagnostic written: the RightBrace at 0:7, which
overwrites `c8d1` in the success slot. -/
def c8d2 : Diagnostic := Diagnostic.errorParsing ⟨TokenType.RightBrace, 0, 7⟩

def c8s0 : PState := ⟨c8Tokens, 0, none, [], false, false⟩

def c8m1 : PState := ⟨c8Tokens, 0, none, [], true, false⟩

def c8mP1 : PState := ⟨c8Tokens, 1, none, [], true, false⟩

def c8mP2 : PState := ⟨c8Tokens, 2, none, [], true, false⟩

def c8mP3F : PState := ⟨c8Tokens, 3, none, [], false, false⟩

def c8mP4F : PState := ⟨c8Tokens, 4, none, [], false, false⟩

def c8mP5F : PState := ⟨c8Tokens, 5, none, [], false, false⟩

def c8sE1 : PState := ⟨c8Tokens, 6, some c8d1, [c8d1], false, false⟩

def c8sE1b : PState := ⟨c8Tokens, 7, some c8d1, [c8d1], false, false⟩

def c8sE2 : PState := ⟨c8Tokens, 8, some c8d2, [c8d1, c8d2], false, false⟩

def c8lit1 : ExprBox := (Expr.Literal ⟨TokenType.Number "1", 0, 0⟩ [], [])

def c8lit2 : ExprBox := (Expr.Literal ⟨TokenType.Number "2", 0, 2⟩ [], [])

def c8call : ExprBox := (Expr.Call c8lit1 [([], c8lit2, [])] [], [])

def c8unid5 : ExprBox := (Expr.UnidentifiedAsLiteral ⟨TokenType.RightBrace, 0, 5⟩, [])

def c8unid7 : ExprBox := (Expr.UnidentifiedAsLiteral ⟨TokenType.RightBrace, 0, 7⟩, [])

def c8bin1 : ExprBox := (Expr.Binary c8call ⟨TokenType.Star, 0, 4⟩ [] c8unid5, [])

def c8bin2 : ExprBox := (Expr.Binary c8bin1 ⟨TokenType.Star, 0, 6⟩ [] c8unid7, [])

/-- The single statement the parse of `c8Tokens` produces. -/
def c8stmt : StmtBox := (Statement.ExpresssionStatement c8bin2, false)

/-
The input `if (a) b = 1;`: the scanner drops `if`, `a` and `b`
entirely (wild-char arm), so the parser sees `( ) = 1 ;` and enters the
grouping loop, which diverges once the token sequence is exhausted.
-/

/-- Token sequence the scanner produces for `if (a) b = 1;`. -/
def c1Tokens : List Token :=
  [⟨TokenType.LeftParen, 0, 1⟩, ⟨TokenType.RightParen, 0, 2⟩, ⟨TokenType.Equal, 0, 5⟩,
   ⟨TokenType.Number "1", 0, 7⟩, ⟨TokenType.Semicolon, 0, 8⟩, ⟨TokenType.EOF, 0, 9⟩]

def c1r0 : PState := ⟨c1Tokens, 0, none, [], false, false⟩

def c1r1 : PState := ⟨c1Tokens, 0, none, [], true, false⟩

def c1rA : PState := ⟨c1Tokens, 1, none, [], true, false⟩

def c1rB : PState := ⟨c1Tokens, 2, none, [], true, false⟩

def c1rC : PState := ⟨c1Tokens, 3, none, [], true, false⟩

def c1rD : PState := ⟨c1Tokens, 4, none, [], true, false⟩

def c1rDr : PState := ⟨c1Tokens, 4, none, [], false, false⟩

def c1rE : PState := ⟨c1Tokens, 5, none, [], true, false⟩

def c1rEr : PState := ⟨c1Tokens, 5, none, [], false, false⟩

def c1rF : PState := ⟨c1Tokens, 6, none, [], true, false⟩

def c1rFr : PState := ⟨c1Tokens, 6, none, [], false, false⟩

def c1vRP : ExprBox := (Expr.UnidentifiedAsLiteral ⟨TokenType.RightParen, 0, 2⟩, [])

def c1vL1 : ExprBox := (Expr.Literal ⟨TokenType.Number "1", 0, 7⟩ [], [])

def c1vAs : ExprBox :=
  (Expr.Assign c1vRP ⟨TokenType.Equal, 0, 5⟩ [] c1vL1, [])

def c1vSe : ExprBox := (Expr.UnidentifiedAsLiteral ⟨TokenType.Semicolon, 0, 8⟩, [])

def c1vEn : ExprBox := (Expr.UnidentifiedAsLiteral ⟨TokenType.EOF, 0, 9⟩, [])

/-- Token sequence for `1+2*3`. -/
def c7Tokens : List Token :=
  [⟨TokenType.Number "1", 0, 0⟩, ⟨TokenType.Plus, 0, 1⟩, ⟨TokenType.Number "2", 0, 2⟩,
   ⟨TokenType.Star, 0, 3⟩, ⟨TokenType.Number "3", 0, 4⟩, ⟨TokenType.EOF, 0, 5⟩]

/-- The AST for `1+2*3`: the outer Binary is `+`, its right operand the
Binary `*` over the literals 2 and 3. -/
def c7Ast : List StmtBox :=
  [(Statement.ExpresssionStatement
      (Expr.Binary (Expr.Literal ⟨TokenType.Number "1", 0, 0⟩ [], []) ⟨TokenType.Plus, 0, 1⟩ []
        (Expr.Binary (Expr.Literal ⟨TokenType.Number "2", 0, 2⟩ [], []) ⟨TokenType.Star, 0, 3⟩ []
          (Expr.Literal ⟨TokenType.Number "3", 0, 4⟩ [], []), []), []), false),
   (Statement.EOF, false)]

/-
Theorems.
-/

/-
Scanner lemmas.
-/
theorem drop_cons_succ {inp : List Char} {i : Nat} {c : Char} {rest : List Char}
    (h : inp.drop i = c :: rest) : inp.drop (i + 1) = rest := by
  have h2 : inp.drop (i + 1) = (inp.drop i).drop 1 := by rw [List.drop_drop]
  rw [h2, h]; rfl

theorem lt_of_drop_cons {inp : List Char} {i : Nat} {c : Char} {rest : List Char}
    (h : inp.drop i = c :: rest) : i < inp.length := by
  by_contra hn
  push_neg at hn
  rw [List.drop_eq_nil_of_le hn] at h
  exact List.noConfusion h

theorem utf8Size_ascii {c : Char} (h : c.val < 128) : utf8Size c = 1 := by
  simp only [utf8Size, if_pos (show c.val < 0x80 from h)]

theorem takeBytes_ascii {inp : List Char} (h : asciiOnly inp) :
    ∀ n, n ≤ inp.length → takeBytes inp n = some (inp.take n) := by
  induction inp with
  | nil =>
    intro n hn
    have : n = 0 := Nat.le_zero.mp hn
    subst this
    rfl
  | cons c cs ih =>
    intro n hn
    cases n with
    | zero => rfl
    | succ m =>
      have hc : c.val < 128 := h c (List.mem_cons_self c cs)
      have hcs : asciiOnly cs := fun x hx => h x (List.mem_cons_of_mem c hx)
      have h1 : utf8Size c = 1 := utf8Size_ascii hc
      have hm : m ≤ cs.length := Nat.succ_le_succ_iff.mp hn
      simp only [takeBytes, h1, if_pos (show 1 ≤ m + 1 by omega),
        show m + 1 - 1 = m by omega, ih hcs m hm, Option.map_some]
      rfl

theorem sliceStr_ascii {inp : List Char} (h : asciiOnly inp) {a b : Nat}
    (hab : a ≤ b) (hb : b ≤ inp.length) : ∃ s, sliceStr inp a b = some s := by
  refine ⟨String.mk ((inp.take b).drop (inp.take a).length), ?_⟩
  simp only [sliceStr, if_pos hab, takeBytes_ascii h a (le_trans hab hb),
    takeBytes_ascii h b hb]

/-- Spec of the string-literal loop: starting aligned with `inp.drop i`,
it stays aligned, moves forward, and keeps `current` within bounds. -/
theorem stringScan_spec {inp : List Char} :
    ∀ (rem : List Char) (i cur : Nat), inp.drop i = rem → i ≤ inp.length → cur ≤ i →
      inp.drop (stringScan rem i cur).2.1 = (stringScan rem i cur).2.2 ∧
      i ≤ (stringScan rem i cur).2.1 ∧
      (stringScan rem i cur).2.1 ≤ inp.length ∧
      cur ≤ (stringScan rem i cur).1 ∧
      (stringScan rem i cur).1 ≤ inp.length := by
  intro rem
  induction rem with
  | nil =>
    intro i cur h hi hci
    exact ⟨h, le_refl i, hi, le_refl cur, le_trans hci hi⟩
  | cons c rest ih =>
    intro i cur h hi hci
    have hlt : i < inp.length := lt_of_drop_cons h
    by_cases hc : c = '\n'
    · simp only [stringScan, if_pos hc]
      exact ⟨h, le_refl i, hi, hci, hlt.le⟩
    · by_cases hq : c = '"'
      · simp only [stringScan, if_neg hc, if_pos hq]
        exact ⟨drop_cons_succ h, Nat.le_succ i, hlt, le_trans hci (Nat.le_succ i), hlt⟩
      · simp only [stringScan, if_neg hc, if_neg hq]
        have hr := ih (i + 1) i (drop_cons_succ h) hlt (Nat.le_succ i)
        exact ⟨hr.1, le_trans (Nat.le_succ i) hr.2.1, hr.2.2.1,
          le_trans hci hr.2.2.2.1, hr.2.2.2.2⟩

theorem digitsScan_spec {inp : List Char} (hex : Bool) :
    ∀ (rem : List Char) (i cur : Nat), inp.drop i = rem → i ≤ inp.length → cur ≤ i →
      inp.drop (digitsScan hex rem i cur).2.1 = (digitsScan hex rem i cur).2.2 ∧
      i ≤ (digitsScan hex rem i cur).2.1 ∧
      (digitsScan hex rem i cur).2.1 ≤ inp.length ∧
      cur ≤ (digitsScan hex rem i cur).1 ∧
      (digitsScan hex rem i cur).1 ≤ inp.length := by
  intro rem
  induction rem with
  | nil =>
    intro i cur h hi hci
    exact ⟨h, le_refl i, hi, le_refl cur, le_trans hci hi⟩
  | cons c rest ih =>
    intro i cur h hi hci
    have hlt : i < inp.length := lt_of_drop_cons h
    by_cases hc : (if hex then isHexDigit c else isDecDigit c) = true
    · simp only [digitsScan, if_pos hc]
      have hr := ih (i + 1) (i + 1) (drop_cons_succ h) hlt (le_refl (i + 1))
      exact ⟨hr.1, le_trans (Nat.le_succ i) hr.2.1, hr.2.2.1,
        le_trans (le_trans hci (Nat.le_succ i)) hr.2.2.2.1, hr.2.2.2.2⟩
    · simp only [digitsScan, if_neg hc]
      exact ⟨h, le_refl i, hi, le_refl cur, le_trans hci hi⟩

/-- Spec of the line-comment loop, mirroring `stringScan_spec`. -/
theorem commentScan_spec {inp : List Char} :
    ∀ (rem : List Char) (i cur : Nat), inp.drop i = rem → i ≤ inp.length → cur ≤ i →
      inp.drop (commentScan rem i cur).2.1 = (commentScan rem i cur).2.2 ∧
      i ≤ (commentScan rem i cur).2.1 ∧
      (commentScan rem i cur).2.1 ≤ inp.length ∧
      cur ≤ (commentScan rem i cur).1 ∧
      (commentScan rem i cur).1 ≤ inp.length := by
  intro rem
  induction rem with
  | nil =>
    intro i cur h hi hci
    exact ⟨h, le_refl i, hi, le_refl cur, le_trans hci hi⟩
  | cons c rest ih =>
    intro i cur h hi hci
    have hlt : i < inp.length := lt_of_drop_cons h
    by_cases hc : c = '\n'
    · simp only [commentScan, if_neg (show ¬ c ≠ '\n' by simp [hc])]
      exact ⟨h, le_refl i, hi, le_refl cur, le_trans hci hi⟩
    · simp only [commentScan, if_pos (show c ≠ '\n' from hc)]
      have hr := ih (i + 1) (i + 1) (drop_cons_succ h) hlt (le_refl (i + 1))
      exact ⟨hr.1, le_trans (Nat.le_succ i) hr.2.1, hr.2.2.1,
        le_trans (le_trans hci (Nat.le_succ i)) hr.2.2.2.1, hr.2.2.2.2⟩

theorem drop_head_tail {inp rest : List Char} {j : Nat} {x : Char}
    (hd : inp.drop j = rest) (hx : rest.head? = some x) :
    inp.drop (j + 1) = rest.tail ∧ j < inp.length := by
  have hr : x :: rest.tail = rest := List.cons_head?_tail hx
  exact ⟨drop_cons_succ (hd.trans hr.symm), lt_of_drop_cons (hd.trans hr.symm)⟩

set_option maxHeartbeats 2000000 in
/-- On an all-ASCII input, every `lexStep` succeeds, stays aligned with
the input, and makes strict forward progress. -/
theorem lexStep_ascii {inp : List Char} (hA : asciiOnly inp) (c : Char)
    (rest : List Char) (i : Nat) (st : ScanState) (toks : List Token)
    (h : inp.drop i = c :: rest) :
    ∃ a, lexStep inp c rest i st toks = some a ∧
      inp.drop a.2.1 = a.1 ∧ i < a.2.1 ∧ a.2.1 ≤ inp.length := by
  have hlt : i < inp.length := lt_of_drop_cons h
  have hdrop1 : inp.drop (i + 1) = rest := drop_cons_succ h
  simp only [lexStep]
  by_cases h1 : c = '('
  · simp only [if_pos h1]
    exact ⟨_, rfl, hdrop1, Nat.lt_succ_self i, hlt⟩
  simp only [if_neg h1]
  by_cases h2 : c = ')'
  · simp only [if_pos h2]
    exact ⟨_, rfl, hdrop1, Nat.lt_succ_self i, hlt⟩
  simp only [if_neg h2]
  by_cases h3 : c = '\x7b'
  · simp only [if_pos h3]
    exact ⟨_, rfl, hdrop1, Nat.lt_succ_self i, hlt⟩
  simp only [if_neg h3]
  by_cases h4 : c = '\x7d'
  · simp only [if_pos h4]
    exact ⟨_, rfl, hdrop1, Nat.lt_succ_self i, hlt⟩
  simp only [if_neg h4]
  by_cases h5 : c = ','
  · simp only [if_pos h5]
    exact ⟨_, rfl, hdrop1, Nat.lt_succ_self i, hlt⟩
  simp only [if_neg h5]
  by_cases h6 : c = '-'
  · simp only [if_pos h6]
    exact ⟨_, rfl, hdrop1, Nat.lt_succ_self i, hlt⟩
  simp only [if_neg h6]
  by_cases h7 : c = '+'
  · simp only [if_pos h7]
    exact ⟨_, rfl, hdrop1, Nat.lt_succ_self i, hlt⟩
  simp only [if_neg h7]
  by_cases h8 : c = ';'
  · simp only [if_pos h8]
    exact ⟨_, rfl, hdrop1, Nat.lt_succ_self i, hlt⟩
  simp only [if_neg h8]
  by_cases h9 : c = '*'
  · simp only [if_pos h9]
    exact ⟨_, rfl, hdrop1, Nat.lt_succ_self i, hlt⟩
  simp only [if_neg h9]
  by_cases h10 : c = '!'
  · simp only [if_pos h10]
    by_cases h10a : rest.head? = some '='
    · simp only [if_pos h10a]
      obtain ⟨hd2, hl2⟩ := drop_head_tail hdrop1 h10a
      exact ⟨_, rfl, hd2, show i < i + 2 by omega, show i + 2 ≤ inp.length from hl2⟩
    · simp only [if_neg h10a]
      exact ⟨_, rfl, hdrop1, Nat.lt_succ_self i, hlt⟩
  simp only [if_neg h10]
  by_cases h11 : c = '='
  · simp only [if_pos h11]
    by_cases h11a : rest.head? = some '='
    · simp only [if_pos h11a]
      obtain ⟨hd2, hl2⟩ := drop_head_tail hdrop1 h11a
      exact ⟨_, rfl, hd2, show i < i + 2 by omega, show i + 2 ≤ inp.length from hl2⟩
    · simp only [if_neg h11a]
      exact ⟨_, rfl, hdrop1, Nat.lt_succ_self i, hlt⟩
  simp only [if_neg h11]
  by_cases h12 : c = '<'
  · simp only [if_pos h12]
    by_cases h12a : rest.head? = some '='
    · simp only [if_pos h12a]
      obtain ⟨hd2, hl2⟩ := drop_head_tail hdrop1 h12a
      exact ⟨_, rfl, hd2, show i < i + 2 by omega, show i + 2 ≤ inp.length from hl2⟩
    · simp only [if_neg h12a]
      exact ⟨_, rfl, hdrop1, Nat.lt_succ_self i, hlt⟩
  simp only [if_neg h12]
  by_cases h13 : c = '>'
  · simp only [if_pos h13]
    by_cases h13a : rest.head? = some '='
    · simp only [if_pos h13a]
      obtain ⟨hd2, hl2⟩ := drop_head_tail hdrop1 h13a
      exact ⟨_, rfl, hd2, show i < i + 2 by omega, show i + 2 ≤ inp.length from hl2⟩
    · simp only [if_neg h13a]
      exact ⟨_, rfl, hdrop1, Nat.lt_succ_self i, hlt⟩
  simp only [if_neg h13]
  by_cases h14 : c = '"'
  · simp only [if_pos h14]
    have hs := @stringScan_spec inp rest (i + 1) i hdrop1 hlt (Nat.le_succ i)
    obtain ⟨s, hsl⟩ := sliceStr_ascii hA hs.2.2.2.1 hs.2.2.2.2
    rw [hsl]
    exact ⟨_, rfl, hs.1,
      show i < (stringScan rest (i + 1) i).2.1 by have := hs.2.1; omega,
      show (stringScan rest (i + 1) i).2.1 ≤ inp.length from hs.2.2.1⟩
  simp only [if_neg h14]
  by_cases h15 : c = '.'
  · simp only [if_pos h15]
    by_cases h15a : (rest.head?.map isDecDigit).getD false = true
    · simp only [if_pos h15a]
      obtain ⟨d, hd⟩ : ∃ d, rest.head? = some d := by
        cases hr : rest.head? with
        | none => rw [hr] at h15a; simp at h15a
        | some d => exact ⟨d, rfl⟩
      obtain ⟨hd2, hl2⟩ := drop_head_tail hdrop1 hd
      have hs := @digitsScan_spec inp false rest.tail (i + 2) i hd2 hl2 (by omega)
      obtain ⟨s, hsl⟩ := sliceStr_ascii hA hs.2.2.2.1 hs.2.2.2.2
      rw [hsl]
      exact ⟨_, rfl, hs.1,
        show i < (digitsScan false rest.tail (i + 2) i).2.1 by have := hs.2.1; omega,
        show (digitsScan false rest.tail (i + 2) i).2.1 ≤ inp.length from hs.2.2.1⟩
    · simp only [if_neg h15a]
      exact ⟨_, rfl, hdrop1, Nat.lt_succ_self i, hlt⟩
  simp only [if_neg h15]
  by_cases h16 : isDecDigit c = true
  · simp only [if_pos h16]
    by_cases h16a : c = '0' ∧ rest.head? = some 'x'
    · simp only [if_pos h16a]
      obtain ⟨hd2, hl2⟩ := drop_head_tail hdrop1 h16a.2
      have hs := @digitsScan_spec inp true rest.tail (i + 2) (i + 1) hd2 hl2
        (Nat.le_succ (i + 1))
      obtain ⟨s, hsl⟩ := sliceStr_ascii hA (show i ≤ (digitsScan true rest.tail (i + 2) (i + 1)).1
          by have := hs.2.2.2.1; omega) hs.2.2.2.2
      rw [hsl]
      exact ⟨_, rfl, hs.1,
        show i < (digitsScan true rest.tail (i + 2) (i + 1)).2.1 by have := hs.2.1; omega,
        show (digitsScan true rest.tail (i + 2) (i + 1)).2.1 ≤ inp.length from hs.2.2.1⟩
    · simp only [if_neg h16a]
      have hs1 := @digitsScan_spec inp false rest (i + 1) (i + 1) hdrop1 hlt
        (le_refl (i + 1))
      by_cases h16b : (digitsScan false rest (i + 1) (i + 1)).2.2.head? = some '.'
      · simp only [if_pos h16b]
        obtain ⟨hd2, hl2⟩ := drop_head_tail hs1.1 h16b
        have hs2 := @digitsScan_spec inp false
          (digitsScan false rest (i + 1) (i + 1)).2.2.tail
          ((digitsScan false rest (i + 1) (i + 1)).2.1 + 1)
          ((digitsScan false rest (i + 1) (i + 1)).2.1 + 1) hd2 hl2
          (le_refl _)
        obtain ⟨s, hsl⟩ := sliceStr_ascii hA
          (show i ≤ (digitsScan false (digitsScan false rest (i + 1) (i + 1)).2.2.tail
              ((digitsScan false rest (i + 1) (i + 1)).2.1 + 1)
              ((digitsScan false rest (i + 1) (i + 1)).2.1 + 1)).1
            by have := hs1.2.1; have := hs2.2.2.2.1; omega) hs2.2.2.2.2
        rw [hsl]
        exact ⟨_, rfl, hs2.1,
          show i < (digitsScan false (digitsScan false rest (i + 1) (i + 1)).2.2.tail
              ((digitsScan false rest (i + 1) (i + 1)).2.1 + 1)
              ((digitsScan false rest (i + 1) (i + 1)).2.1 + 1)).2.1
            by have := hs1.2.1; have := hs2.2.1; omega,
          show (digitsScan false (digitsScan false rest (i + 1) (i + 1)).2.2.tail
              ((digitsScan false rest (i + 1) (i + 1)).2.1 + 1)
              ((digitsScan false rest (i + 1) (i + 1)).2.1 + 1)).2.1 ≤ inp.length
            from hs2.2.2.1⟩
      · simp only [if_neg h16b]
        obtain ⟨s, hsl⟩ := sliceStr_ascii hA
          (show i ≤ (digitsScan false rest (i + 1) (i + 1)).1
            by have := hs1.2.2.2.1; omega) hs1.2.2.2.2
        rw [hsl]
        exact ⟨_, rfl, hs1.1,
          show i < (digitsScan false rest (i + 1) (i + 1)).2.1 by have := hs1.2.1; omega,
          show (digitsScan false rest (i + 1) (i + 1)).2.1 ≤ inp.length from hs1.2.2.1⟩
  simp only [if_neg h16]
  by_cases h17 : c = '$'
  · simp only [if_pos h17]
    have hs := @digitsScan_spec inp true rest (i + 1) i hdrop1 hlt (Nat.le_succ i)
    obtain ⟨s, hsl⟩ := sliceStr_ascii hA hs.2.2.2.1 hs.2.2.2.2
    rw [hsl]
    exact ⟨_, rfl, hs.1,
      show i < (digitsScan true rest (i + 1) i).2.1 by have := hs.2.1; omega,
      show (digitsScan true rest (i + 1) i).2.1 ≤ inp.length from hs.2.2.1⟩
  simp only [if_neg h17]
  by_cases h18 : c = '/'
  · simp only [if_pos h18]
    by_cases h18a : rest.head? = some '/'
    · simp only [if_pos h18a]
      obtain ⟨hd2, hl2⟩ := drop_head_tail hdrop1 h18a
      have hs := @commentScan_spec inp rest.tail (i + 2) i hd2 hl2 (by omega)
      obtain ⟨s, hsl⟩ := sliceStr_ascii hA hs.2.2.2.1 hs.2.2.2.2
      rw [hsl]
      exact ⟨_, rfl, hs.1,
        show i < (commentScan rest.tail (i + 2) i).2.1 by have := hs.2.1; omega,
        show (commentScan rest.tail (i + 2) i).2.1 ≤ inp.length from hs.2.2.1⟩
    · simp only [if_neg h18a]
      exact ⟨_, rfl, hdrop1, Nat.lt_succ_self i, hlt⟩
  simp only [if_neg h18]
  by_cases h19 : c = ' ' ∨ c = '\t'
  · simp only [if_pos h19]
    exact ⟨_, rfl, hdrop1, Nat.lt_succ_self i, hlt⟩
  simp only [if_neg h19]
  by_cases h20 : c = '\n'
  · simp only [if_pos h20]
    exact ⟨_, rfl, hdrop1, Nat.lt_succ_self i, hlt⟩
  simp only [if_neg h20]
  by_cases h21 : c = '\r'
  · simp only [if_pos h21]
    exact ⟨_, rfl, hdrop1, Nat.lt_succ_self i, hlt⟩
  simp only [if_neg h21]
  by_cases h22 : 'A' ≤ c ∧ c ≤ 'z'
  · simp only [if_pos h22]
    exact ⟨_, rfl, hdrop1, Nat.lt_succ_self i, hlt⟩
  simp only [if_neg h22]
  exact ⟨_, rfl, hdrop1, Nat.lt_succ_self i, hlt⟩

theorem mem_single_tok {tt : TokenType} (htt : producedB tt = true) (ln col : Nat) :
    ∀ t ∈ [Token.mk tt ln col], producedB t.token_type = true := by
  intro t ht
  rw [List.mem_singleton.mp ht]
  exact htt

set_option maxHeartbeats 2000000 in
/-- Whatever `lexStep` appends to the token vector is a category the
scanner can produce (`producedB`). -/
theorem lexStep_toks {inp : List Char} (c : Char) (rest : List Char) (i : Nat)
    (st : ScanState) (toks : List Token) (a : List Char × Nat × ScanState × List Token)
    (h : lexStep inp c rest i st toks = some a) :
    ∃ nt, a.2.2.2 = toks ++ nt ∧ ∀ t ∈ nt, producedB t.token_type = true := by
  simp only [lexStep] at h
  by_cases hc1 : c = '('
  · simp only [if_pos hc1] at h
    injection h with hEq
    subst hEq
    refine ⟨_, rfl, mem_single_tok ?_ _ _⟩
    rfl
  simp only [if_neg hc1] at h
  by_cases hc2 : c = ')'
  · simp only [if_pos hc2] at h
    injection h with hEq
    subst hEq
    refine ⟨_, rfl, mem_single_tok ?_ _ _⟩
    rfl
  simp only [if_neg hc2] at h
  by_cases hc3 : c = '\x7b'
  · simp only [if_pos hc3] at h
    injection h with hEq
    subst hEq
    refine ⟨_, rfl, mem_single_tok ?_ _ _⟩
    rfl
  simp only [if_neg hc3] at h
  by_cases hc4 : c = '\x7d'
  · simp only [if_pos hc4] at h
    injection h with hEq
    subst hEq
    refine ⟨_, rfl, mem_single_tok ?_ _ _⟩
    rfl
  simp only [if_neg hc4] at h
  by_cases hc5 : c = ','
  · simp only [if_pos hc5] at h
    injection h with hEq
    subst hEq
    refine ⟨_, rfl, mem_single_tok ?_ _ _⟩
    rfl
  simp only [if_neg hc5] at h
  by_cases hc6 : c = '-'
  · simp only [if_pos hc6] at h
    injection h with hEq
    subst hEq
    refine ⟨_, rfl, mem_single_tok ?_ _ _⟩
    rfl
  simp only [if_neg hc6] at h
  by_cases hc7 : c = '+'
  · simp only [if_pos hc7] at h
    injection h with hEq
    subst hEq
    refine ⟨_, rfl, mem_single_tok ?_ _ _⟩
    rfl
  simp only [if_neg hc7] at h
  by_cases hc8 : c = ';'
  · simp only [if_pos hc8] at h
    injection h with hEq
    subst hEq
    refine ⟨_, rfl, mem_single_tok ?_ _ _⟩
    rfl
  simp only [if_neg hc8] at h
  by_cases hc9 : c = '*'
  · simp only [if_pos hc9] at h
    injection h with hEq
    subst hEq
    refine ⟨_, rfl, mem_single_tok ?_ _ _⟩
    rfl
  simp only [if_neg hc9] at h
  by_cases hc10 : c = '!'
  · simp only [if_pos hc10] at h
    by_cases hc10a : rest.head? = some '='
    · simp only [if_pos hc10a] at h
      injection h with hEq
      subst hEq
      refine ⟨_, rfl, mem_single_tok ?_ _ _⟩
      rfl
    · simp only [if_neg hc10a] at h
      injection h with hEq
      subst hEq
      refine ⟨_, rfl, mem_single_tok ?_ _ _⟩
      rfl
  simp only [if_neg hc10] at h
  by_cases hc11 : c = '='
  · simp only [if_pos hc11] at h
    by_cases hc11a : rest.head? = some '='
    · simp only [if_pos hc11a] at h
      injection h with hEq
      subst hEq
      refine ⟨_, rfl, mem_single_tok ?_ _ _⟩
      rfl
    · simp only [if_neg hc11a] at h
      injection h with hEq
      subst hEq
      refine ⟨_, rfl, mem_single_tok ?_ _ _⟩
      rfl
  simp only [if_neg hc11] at h
  by_cases hc12 : c = '<'
  · simp only [if_pos hc12] at h
    by_cases hc12a : rest.head? = some '='
    · simp only [if_pos hc12a] at h
      injection h with hEq
      subst hEq
      refine ⟨_, rfl, mem_single_tok ?_ _ _⟩
      rfl
    · simp only [if_neg hc12a] at h
      injection h with hEq
      subst hEq
      refine ⟨_, rfl, mem_single_tok ?_ _ _⟩
      rfl
  simp only [if_neg hc12] at h
  by_cases hc13 : c = '>'
  · simp only [if_pos hc13] at h
    by_cases hc13a : rest.head? = some '='
    · simp only [if_pos hc13a] at h
      injection h with hEq
      subst hEq
      refine ⟨_, rfl, mem_single_tok ?_ _ _⟩
      rfl
    · simp only [if_neg hc13a] at h
      injection h with hEq
      subst hEq
      refine ⟨_, rfl, mem_single_tok ?_ _ _⟩
      rfl
  simp only [if_neg hc13] at h
  by_cases hc14 : c = '"'
  · simp only [if_pos hc14] at h
    cases hsl : sliceStr inp i (stringScan rest (i + 1) i).1 with
    | none => rw [hsl] at h; exact absurd h (by simp)
    | some s =>
      rw [hsl] at h
      simp only [Option.some_bind] at h
      injection h with hEq
      subst hEq
      refine ⟨_, rfl, mem_single_tok ?_ _ _⟩
      rfl
  simp only [if_neg hc14] at h
  by_cases hc15 : c = '.'
  · simp only [if_pos hc15] at h
    by_cases hc15a : (rest.head?.map isDecDigit).getD false = true
    · simp only [if_pos hc15a] at h
      cases hsl : sliceStr inp i (digitsScan false rest.tail (i + 2) i).1 with
      | none => rw [hsl] at h; exact absurd h (by simp)
      | some s =>
        rw [hsl] at h
        simp only [Option.some_bind] at h
        injection h with hEq
        subst hEq
        refine ⟨_, rfl, mem_single_tok ?_ _ _⟩
        rfl
    · simp only [if_neg hc15a] at h
      injection h with hEq
      subst hEq
      refine ⟨_, rfl, mem_single_tok ?_ _ _⟩
      rfl
  simp only [if_neg hc15] at h
  by_cases hc16 : isDecDigit c = true
  · simp only [if_pos hc16] at h
    by_cases hc16a : c = '0' ∧ rest.head? = some 'x'
    · simp only [if_pos hc16a] at h
      cases hsl : sliceStr inp i (digitsScan true rest.tail (i + 2) (i + 1)).1 with
      | none => rw [hsl] at h; exact absurd h (by simp)
      | some s =>
        rw [hsl] at h
        simp only [Option.some_bind] at h
        injection h with hEq
        subst hEq
        refine ⟨_, rfl, mem_single_tok ?_ _ _⟩
        rfl
    · simp only [if_neg hc16a] at h
      by_cases hc16b : (digitsScan false rest (i + 1) (i + 1)).2.2.head? = some '.'
      · simp only [if_pos hc16b] at h
        cases hsl : sliceStr inp i (digitsScan false (digitsScan false rest (i + 1) (i + 1)).2.2.tail ((digitsScan false rest (i + 1) (i + 1)).2.1 + 1) ((digitsScan false rest (i + 1) (i + 1)).2.1 + 1)).1 with
        | none => rw [hsl] at h; exact absurd h (by simp)
        | some s =>
          rw [hsl] at h
          simp only [Option.some_bind] at h
          injection h with hEq
          subst hEq
          refine ⟨_, rfl, mem_single_tok ?_ _ _⟩
          rfl
      · simp only [if_neg hc16b] at h
        cases hsl : sliceStr inp i (digitsScan false rest (i + 1) (i + 1)).1 with
        | none => rw [hsl] at h; exact absurd h (by simp)
        | some s =>
          rw [hsl] at h
          simp only [Option.some_bind] at h
          injection h with hEq
          subst hEq
          refine ⟨_, rfl, mem_single_tok ?_ _ _⟩
          rfl
  simp only [if_neg hc16] at h
  by_cases hc17 : c = '$'
  · simp only [if_pos hc17] at h
    cases hsl : sliceStr inp i (digitsScan true rest (i + 1) i).1 with
    | none => rw [hsl] at h; exact absurd h (by simp)
    | some s =>
      rw [hsl] at h
      simp only [Option.some_bind] at h
      injection h with hEq
      subst hEq
      refine ⟨_, rfl, mem_single_tok ?_ _ _⟩
      rfl
  simp only [if_neg hc17] at h
  by_cases hc18 : c = '/'
  · simp only [if_pos hc18] at h
    by_cases hc18a : rest.head? = some '/'
    · simp only [if_pos hc18a] at h
      cases hsl : sliceStr inp i (commentScan rest.tail (i + 2) i).1 with
      | none => rw [hsl] at h; exact absurd h (by simp)
      | some s =>
        rw [hsl] at h
        simp only [Option.some_bind] at h
        injection h with hEq
        subst hEq
        refine ⟨_, rfl, mem_single_tok ?_ _ _⟩
        rfl
    · simp only [if_neg hc18a] at h
      injection h with hEq
      subst hEq
      refine ⟨_, rfl, mem_single_tok ?_ _ _⟩
      rfl
  simp only [if_neg hc18] at h
  by_cases hc19 : c = ' ' ∨ c = '\t'
  · simp only [if_pos hc19] at h
    injection h with hEq
    subst hEq
    exact ⟨[], (List.append_nil toks).symm, fun t ht => absurd ht (List.not_mem_nil t)⟩
  simp only [if_neg hc19] at h
  by_cases hc20 : c = '\n'
  · simp only [if_pos hc20] at h
    injection h with hEq
    subst hEq
    exact ⟨[], (List.append_nil toks).symm, fun t ht => absurd ht (List.not_mem_nil t)⟩
  simp only [if_neg hc20] at h
  by_cases hc21 : c = '\r'
  · simp only [if_pos hc21] at h
    injection h with hEq
    subst hEq
    exact ⟨[], (List.append_nil toks).symm, fun t ht => absurd ht (List.not_mem_nil t)⟩
  simp only [if_neg hc21] at h
  by_cases hc22 : 'A' ≤ c ∧ c ≤ 'z'
  · simp only [if_pos hc22] at h
    injection h with hEq
    subst hEq
    exact ⟨[], (List.append_nil toks).symm, fun t ht => absurd ht (List.not_mem_nil t)⟩
  simp only [if_neg hc22] at h
  injection h with hEq
  subst hEq
  exact ⟨[], (List.append_nil toks).symm, fun t ht => absurd ht (List.not_mem_nil t)⟩

set_option maxHeartbeats 2000000 in
/-- scanner.rs lines 238-240: a character in the Rust range
`'A'..='z'` only triggers a `println!`; no token is pushed, the column
counter is not advanced, and the scanner simply moves on. -/
theorem lexStep_wild (inp : List Char) (c : Char) (rest : List Char) (i : Nat)
    (st : ScanState) (toks : List Token) (h1 : 'A' ≤ c) (h2 : c ≤ 'z') :
    lexStep inp c rest i st toks = some (rest, i + 1, st, toks) := by
  have nlow : ∀ d : Char, d < 'A' → c ≠ d := fun d hd he => (not_le.mpr hd) (he ▸ h1)
  have nhigh : ∀ d : Char, 'z' < d → c ≠ d := fun d hd he => (not_le.mpr hd) (he ▸ h2)
  have hdig : isDecDigit c = false := by
    have h9 : ¬ (c ≤ '9') := fun hle => absurd (le_trans h1 hle) (by decide)
    simp only [isDecDigit, decide_eq_false h9, Bool.and_false]
  simp only [lexStep]
  rw [if_neg (nlow '(' (by decide)), if_neg (nlow ')' (by decide)),
    if_neg (nhigh '\x7b' (by decide)), if_neg (nhigh '\x7d' (by decide)),
    if_neg (nlow ',' (by decide)), if_neg (nlow '-' (by decide)),
    if_neg (nlow '+' (by decide)), if_neg (nlow ';' (by decide)),
    if_neg (nlow '*' (by decide)), if_neg (nlow '!' (by decide)),
    if_neg (nlow '=' (by decide)), if_neg (nlow '<' (by decide)),
    if_neg (nlow '>' (by decide)), if_neg (nlow '"' (by decide)),
    if_neg (nlow '.' (by decide)),
    if_neg (show ¬ isDecDigit c = true by rw [hdig]; exact Bool.false_ne_true),
    if_neg (nlow '$' (by decide)), if_neg (nlow '/' (by decide)),
    if_neg (show ¬ (c = ' ' ∨ c = '\t') from fun hor =>
      hor.elim (fun he => nlow ' ' (by decide) he) (fun he => nlow '\t' (by decide) he)),
    if_neg (nlow '\n' (by decide)), if_neg (nlow '\r' (by decide)),
    if_pos (And.intro h1 h2)]

/-- Any `some` result of the scanner loop ends in the EOF token, and
(when the accumulator is clean) holds only `producedB` categories. -/
theorem lexLoop_some_inv {inp : List Char} :
    ∀ (fuel : Nat) (rem : List Char) (i : Nat) (st : ScanState) (toks res : List Token),
      lexLoop inp fuel rem i st toks = some res →
      (∃ t, res.getLast? = some t ∧ t.token_type = TokenType.EOF) ∧
      ((∀ t ∈ toks, producedB t.token_type = true) →
        ∀ t ∈ res, producedB t.token_type = true) := by
  intro fuel
  induction fuel with
  | zero =>
    intro rem i st toks res h
    exact absurd h (by simp [lexLoop])
  | succ f ih =>
    intro rem i st toks res h
    cases rem with
    | nil =>
      simp only [lexLoop] at h
      injection h with hEq
      subst hEq
      constructor
      · exact ⟨Token.mk TokenType.EOF st.line_number st.column_number, by simp, rfl⟩
      · intro hg t ht
        rcases List.mem_append.mp ht with h1 | h2
        · exact hg t h1
        · rw [List.mem_singleton.mp h2]; rfl
    | cons c rest =>
      simp only [lexLoop] at h
      cases hstep : lexStep inp c rest i st toks with
      | none => rw [hstep] at h; simp at h
      | some a =>
        rw [hstep] at h
        simp only [Option.some_bind] at h
        obtain ⟨nt, hnt, hgood⟩ := lexStep_toks c rest i st toks a hstep
        have hres := ih a.1 a.2.1 a.2.2.1 a.2.2.2 res h
        refine ⟨hres.1, fun hg => hres.2 ?_⟩
        rw [hnt]
        intro t ht
        rcases List.mem_append.mp ht with h1 | h2
        · exact hg t h1
        · exact hgood t h2

/-- On an all-ASCII input the scanner loop always succeeds. -/
theorem lexLoop_ascii {inp : List Char} (hA : asciiOnly inp) :
    ∀ (fuel : Nat) (rem : List Char) (i : Nat) (st : ScanState) (toks : List Token),
      inp.drop i = rem → inp.length - i < fuel →
      ∃ ts, lexLoop inp fuel rem i st toks = some ts := by
  intro fuel
  induction fuel with
  | zero =>
    intro rem i st toks _ hf
    omega
  | succ f ih =>
    intro rem i st toks h hf
    cases rem with
    | nil => exact ⟨_, rfl⟩
    | cons c rest =>
      obtain ⟨a, hstep, hdrop, hlt, hle⟩ := lexStep_ascii hA c rest i st toks h
      have hlen : i < inp.length := lt_of_drop_cons h
      obtain ⟨ts, hts⟩ := ih a.1 a.2.1 a.2.2.1 a.2.2.2 hdrop (by omega)
      refine ⟨ts, ?_⟩
      simp only [lexLoop, hstep, Option.some_bind]
      exact hts

/-- On an all-ASCII input `lex_input` always returns `Ok`. -/
theorem lex_input_ascii {inp : List Char} (hA : asciiOnly inp) :
    ∃ ts, lex_input inp = some ts :=
  lexLoop_ascii hA (inp.length + 1) inp 0 ⟨0, 0⟩ [] rfl (by omega)

theorem produced_not_forbidden :
    ∀ tt : TokenType, producedB tt = true → c10Forbidden tt = false := by
  intro tt
  cases tt <;> intro h <;> first | rfl | exact absurd h Bool.false_ne_true

/-- Claim C2 (corrected): `lex_input` never returns `Err`, and on
all-ASCII input it always succeeds with a non-empty token sequence
ending in the EOF token; whenever it returns at all, the sequence ends
in EOF.  (The original claim fails for non-ASCII input, see the
counterexample: character indices are used as byte offsets.) -/
theorem c2_scanner_totality_amended :
    (∀ inp : List Char, asciiOnly inp →
      ∃ ts, lex_input inp = some ts ∧ ts ≠ [] ∧
        ∃ t, ts.getLast? = some t ∧ t.token_type = TokenType.EOF) ∧
    (∀ (inp : List Char) (ts : List Token), lex_input inp = some ts →
      ts ≠ [] ∧ ∃ t, ts.getLast? = some t ∧ t.token_type = TokenType.EOF) := by
  have last_part : ∀ (inp : List Char) (ts : List Token), lex_input inp = some ts →
      ts ≠ [] ∧ ∃ t, ts.getLast? = some t ∧ t.token_type = TokenType.EOF := by
    intro inp ts h
    obtain ⟨⟨t, hlast, heof⟩, -⟩ := @lexLoop_some_inv inp _ _ _ _ _ _ h
    refine ⟨?_, t, hlast, heof⟩
    intro he
    rw [he] at hlast
    simp at hlast
  constructor
  · intro inp hA
    obtain ⟨ts, hts⟩ := lex_input_ascii hA
    obtain ⟨hne, hl⟩ := last_part inp ts hts
    exact ⟨ts, hts, hne, hl⟩
  · exact last_part

theorem c2_scanner_totality_amended_witness :
    ∃ ts, lex_input "1+2".toList = some ts ∧ ts ≠ [] ∧
      ∃ t, ts.getLast? = some t ∧ t.token_type = TokenType.EOF :=
  c2_scanner_totality_amended.1 "1+2".toList
    (by show ∀ x ∈ "1+2".toList, x.val < 128; decide)

/-- Claim C2 counterexample: on the well-formed UTF-8 input `é1` the
scanner's digit branch slices `input[1..2]`, but byte offset 1 falls
inside the two-byte encoding of `é`: the Rust slice panics (modelled as
`none`), so `lex_input` is not total on arbitrary UTF-8 input. -/
theorem c2_scanner_not_total_counterexample :
    lex_input [Char.ofNat 233, '1'] = none := rfl

/-- Claim C4 (code_bug evaluation): `"abc"` lexes to one String token
with both quotes; the unterminated `"abc` lexes to lexeme `"ab` — the
final character before EOF is dropped (the claim/spec say the lexeme
spans to end of input); the newline-bounded case keeps every character,
exclusive of the newline. -/
theorem c4_string_lexing_eval :
    lex_input "\"abc\"".toList =
      some [⟨TokenType.String "\"abc\"", 0, 0⟩, ⟨TokenType.EOF, 0, 5⟩] ∧
    lex_input "\"abc".toList =
      some [⟨TokenType.String "\"ab", 0, 0⟩, ⟨TokenType.EOF, 0, 3⟩] ∧
    lex_input "\"ab\n".toList =
      some [⟨TokenType.String "\"ab", 0, 0⟩, ⟨TokenType.EOF, 1, 0⟩] :=
  ⟨rfl, rfl, rfl⟩

/-- Claim C5 (corrected): `// hi` followed by a newline lexes to a
Comment token with lexeme `// hi` (newline excluded) — but the next
token is EOF, not Newline: the scanner never emits Newline tokens
(scanner.rs line 235 only calls `next_line`). -/
theorem c5_comment_lexing_amended :
    lex_input "// hi\n".toList =
      some [⟨TokenType.Comment "// hi", 0, 0⟩, ⟨TokenType.EOF, 1, 0⟩] := rfl

/-- Claim C5 counterexample: the token after the Comment token for
`"// hi\n"` is the EOF token, not a Newline token. -/
theorem c5_comment_newline_counterexample :
    lex_input "// hi\n".toList =
      some [⟨TokenType.Comment "// hi", 0, 0⟩, ⟨TokenType.EOF, 1, 0⟩] ∧
    TokenType.EOF ≠ TokenType.Newline :=
  ⟨rfl, by decide⟩

/-- Claim C6 counterexample: `.5` does NOT lex to a Number token with
lexeme `.5`.  In the leading-dot branch of scanner.rs the `iter.next()`
under the `eat the "."` comment consumes the first digit (the dot was
already consumed by the outer loop) without updating `current`, so for
`.5` the emitted token is `Number("")` — the slice `[0..0]` — with
size 0, and the EOF token's column stays 0. -/
theorem c6_leading_dot_counterexample :
    lex_input ".5".toList =
      some [⟨TokenType.Number "", 0, 0⟩, ⟨TokenType.EOF, 0, 0⟩] ∧
    (TokenType.Number "" : TokenType) ≠ TokenType.Number ".5" :=
  ⟨rfl, by decide⟩

/-- Claim C6 amended: `0x1A` and `5.25` lex to single Number tokens
with the full lexeme, and a `.` not followed by a decimal digit yields
a Dot token, as claimed; but a leading-dot fractional loses its first
digit from the recorded span, so `.5` lexes to `Number ""` (empty
lexeme, column advance 0) while `.55` lexes to `Number ".55"` (the
digit loop records digits from the second one onward, and the final
`current = i + 1` update then covers the whole span). -/
theorem c6_numeric_lexing_amended :
    lex_input "0x1A".toList =
      some [⟨TokenType.Number "0x1A", 0, 0⟩, ⟨TokenType.EOF, 0, 4⟩] ∧
    lex_input "5.25".toList =
      some [⟨TokenType.Number "5.25", 0, 0⟩, ⟨TokenType.EOF, 0, 4⟩] ∧
    lex_input ".5".toList =
      some [⟨TokenType.Number "", 0, 0⟩, ⟨TokenType.EOF, 0, 0⟩] ∧
    lex_input ".55".toList =
      some [⟨TokenType.Number ".55", 0, 0⟩, ⟨TokenType.EOF, 0, 3⟩] ∧
    ∀ (inp : List Char) (c2 : Char) (rest : List Char) (i : Nat) (st : ScanState)
      (toks : List Token), isDecDigit c2 = false →
      lexStep inp '.' (c2 :: rest) i st toks =
        some (c2 :: rest, i + 1, (addToken TokenType.Dot 1 st toks).1,
          (addToken TokenType.Dot 1 st toks).2) := by
  refine ⟨rfl, rfl, rfl, rfl, ?_⟩
  intro inp c2 rest i st toks h
  simp [lexStep, h]

theorem c6_numeric_lexing_amended_witness :
    isDecDigit 'a' = false ∧
    lexStep [] '.' ['a'] 0 ⟨0, 0⟩ [] =
      some (['a'], 1, (addToken TokenType.Dot 1 ⟨0, 0⟩ []).1,
        (addToken TokenType.Dot 1 ⟨0, 0⟩ []).2) :=
  ⟨by decide, c6_numeric_lexing_amended.2.2.2.2 [] 'a' [] 0 ⟨0, 0⟩ [] (by decide)⟩

/-- Claim C10 (confirmed): a character in `'A'..='z'` (letters plus
`[`, backslash, `]`, `^`, `_`, backtick) outside a string or comment
produces no token and leaves the column counter untouched, and no run
of the scanner ever emits an Identifier, keyword, LeftBracket,
RightBracket, Newline, MultilineComment, or UnidentifiedInput token. -/
theorem c10_wild_char_skip :
    (∀ (inp : List Char) (c : Char) (rest : List Char) (i : Nat) (st : ScanState)
        (toks : List Token), 'A' ≤ c → c ≤ 'z' →
        lexStep inp c rest i st toks = some (rest, i + 1, st, toks)) ∧
    (∀ (inp : List Char) (res : List Token), lex_input inp = some res →
        ∀ t ∈ res, c10Forbidden t.token_type = false) := by
  constructor
  · exact fun inp c rest i st toks h1 h2 => lexStep_wild inp c rest i st toks h1 h2
  · intro inp res h t ht
    have hg := (@lexLoop_some_inv inp _ _ _ _ _ _ h).2
      (fun u hu => absurd hu (List.not_mem_nil u)) t ht
    exact produced_not_forbidden t.token_type hg

theorem c10_wild_char_skip_witness :
    lexStep [] 'f' [] 0 ⟨0, 0⟩ [] = some ([], 1, ⟨0, 0⟩, []) ∧
    (∀ t ∈ [Token.mk TokenType.Dot 0 0, Token.mk TokenType.EOF 0 1],
      c10Forbidden t.token_type = false) :=
  ⟨c10_wild_char_skip.1 [] 'f' [] 0 ⟨0, 0⟩ [] (by decide) (by decide),
   c10_wild_char_skip.2 ".".toList [Token.mk TokenType.Dot 0 0, Token.mk TokenType.EOF 0 1] rfl⟩

/-
Lemmas about the parser on an exhausted token sequence (the iterator
yields nothing).  These drive the divergence proof for the grouping
loop.
-/
theorem peekT_exh {s : PState} (h : s.tokens.length ≤ s.pos) : s.peekT = none :=
  List.get?_eq_none.mpr h

theorem check_next_exh {s : PState} (h : s.tokens.length ≤ s.pos) (tt : TokenType) :
    check_next s tt = false := by
  simp [check_next, peekT_exh h]

theorem check_next_either_exh {s : PState} (h : s.tokens.length ≤ s.pos)
    (t1 t2 : TokenType) : check_next_either s t1 t2 = false := by
  simp [check_next_either, peekT_exh h]

theorem cnc_exh {s : PState} (h : s.tokens.length ≤ s.pos) (tt : TokenType) :
    check_next_consume s tt = (false, s) := by
  simp [check_next_consume, check_next_exh h]

theorem gnac_exh {s : PState} (h : s.tokens.length ≤ s.pos) :
    get_newlines_and_comments s = ([], s) := by
  unfold get_newlines_and_comments
  rw [show s.tokens.length - s.pos = 0 by omega]
  rfl

/-- On an exhausted token sequence, every function of the expression
ladder either runs out of fuel or returns at the same position: no
progress is ever made (the key ingredient of the divergence of the
grouping loop). -/
theorem exh_all : ∀ f : Nat,
    (∀ s, s.tokens.length ≤ s.pos → stays (pExpression f s) s) ∧
    (∀ s, s.tokens.length ≤ s.pos → stays (pAssignment f s) s) ∧
    (∀ s, s.tokens.length ≤ s.pos → stays (pTernary f s) s) ∧
    (∀ s, s.tokens.length ≤ s.pos → stays (pOr f s) s) ∧
    (∀ s, s.tokens.length ≤ s.pos → stays (pAnd f s) s) ∧
    (∀ s, s.tokens.length ≤ s.pos → stays (pXor f s) s) ∧
    (∀ s, s.tokens.length ≤ s.pos → stays (pEquality f s) s) ∧
    (∀ e s, s.tokens.length ≤ s.pos → stays (pEqualityLoop f e s) s) ∧
    (∀ s, s.tokens.length ≤ s.pos → stays (pComparison f s) s) ∧
    (∀ e s, s.tokens.length ≤ s.pos → stays (pComparisonLoop f e s) s) ∧
    (∀ s, s.tokens.length ≤ s.pos → stays (pBinary f s) s) ∧
    (∀ e s, s.tokens.length ≤ s.pos → stays (pBinaryLoop f e s) s) ∧
    (∀ s, s.tokens.length ≤ s.pos → stays (pBitshift f s) s) ∧
    (∀ e s, s.tokens.length ≤ s.pos → stays (pBitshiftLoop f e s) s) ∧
    (∀ s, s.tokens.length ≤ s.pos → stays (pAddition f s) s) ∧
    (∀ e s, s.tokens.length ≤ s.pos → stays (pAdditionLoop f e s) s) ∧
    (∀ s, s.tokens.length ≤ s.pos → stays (pMultiplication f s) s) ∧
    (∀ e s, s.tokens.length ≤ s.pos → stays (pMultiplicationLoop f e s) s) ∧
    (∀ s, s.tokens.length ≤ s.pos → stays (pUnary f s) s) ∧
    (∀ s, s.tokens.length ≤ s.pos → stays (pPostfixExpr f s) s) ∧
    (∀ s, s.tokens.length ≤ s.pos → stays (pCall f s) s) ∧
    (∀ e s, s.tokens.length ≤ s.pos → stays (pCallLoop f e s) s) ∧
    (∀ s, s.tokens.length ≤ s.pos → stays (pPrimary f s) s) := by
  intro f
  induction f with
  | zero =>
    exact ⟨fun s h => Or.inl rfl, fun s h => Or.inl rfl, fun s h => Or.inl rfl,
      fun s h => Or.inl rfl, fun s h => Or.inl rfl, fun s h => Or.inl rfl,
      fun s h => Or.inl rfl, fun e s h => Or.inl rfl, fun s h => Or.inl rfl,
      fun e s h => Or.inl rfl, fun s h => Or.inl rfl, fun e s h => Or.inl rfl,
      fun s h => Or.inl rfl, fun e s h => Or.inl rfl, fun s h => Or.inl rfl,
      fun e s h => Or.inl rfl, fun s h => Or.inl rfl, fun e s h => Or.inl rfl,
      fun s h => Or.inl rfl, fun s h => Or.inl rfl, fun s h => Or.inl rfl,
      fun e s h => Or.inl rfl, fun s h => Or.inl rfl⟩
  | succ f ih =>
    obtain ⟨ihExpr, ihAssign, ihTern, ihOr, ihAnd, ihXor, ihEq, ihEqL, ihCmp,
      ihCmpL, ihBin, ihBinL, ihBs, ihBsL, ihAdd, ihAddL, ihMul, ihMulL, ihUn,
      ihPf, ihCall, ihCallL, ihPrim⟩ := ih
    refine ⟨?_, ?_, ?_, ?_, ?_, ?_, ?_, ?_, ?_, ?_, ?_, ?_, ?_, ?_, ?_, ?_,
      ?_, ?_, ?_, ?_, ?_, ?_, ?_⟩
    -- pExpression
    · intro s h
      simp only [pExpression]
      rcases ihAssign { s with allow_unidentified := true } h with h1 | ⟨v, s2, h1, ht, hp⟩ <;>
        rw [h1]
      · exact Or.inl rfl
      · exact Or.inr ⟨v, { s2 with allow_unidentified := false }, rfl, ht, hp⟩
    -- pAssignment
    · intro s h
      simp only [pAssignment]
      rcases ihTern s h with h1 | ⟨v, s2, h1, ht, hp⟩ <;> rw [h1]
      · exact Or.inl rfl
      · have hx2 : s2.tokens.length ≤ s2.pos := by rw [ht, hp]; exact h
        simp only [Option.some_bind, peekT_exh hx2]
        exact Or.inr ⟨v, s2, rfl, ht, hp⟩
    -- pTernary
    · intro s h
      simp only [pTernary]
      rcases ihOr s h with h1 | ⟨v, s2, h1, ht, hp⟩ <;> rw [h1]
      · exact Or.inl rfl
      · have hx2 : s2.tokens.length ≤ s2.pos := by rw [ht, hp]; exact h
        simp only [Option.some_bind, cnc_exh hx2]
        exact Or.inr ⟨v, s2, rfl, ht, hp⟩
    -- pOr
    · intro s h
      simp only [pOr]
      rcases ihAnd s h with h1 | ⟨v, s2, h1, ht, hp⟩ <;> rw [h1]
      · exact Or.inl rfl
      · have hx2 : s2.tokens.length ≤ s2.pos := by rw [ht, hp]; exact h
        simp only [Option.some_bind, check_next_exh hx2, Bool.or_false,
          Bool.false_eq_true, if_false]
        exact Or.inr ⟨v, s2, rfl, ht, hp⟩
    -- pAnd
    · intro s h
      simp only [pAnd]
      rcases ihXor s h with h1 | ⟨v, s2, h1, ht, hp⟩ <;> rw [h1]
      · exact Or.inl rfl
      · have hx2 : s2.tokens.length ≤ s2.pos := by rw [ht, hp]; exact h
        simp only [Option.some_bind, check_next_either_exh hx2,
          Bool.false_eq_true, if_false]
        exact Or.inr ⟨v, s2, rfl, ht, hp⟩
    -- pXor
    · intro s h
      simp only [pXor]
      rcases ihEq s h with h1 | ⟨v, s2, h1, ht, hp⟩ <;> rw [h1]
      · exact Or.inl rfl
      · have hx2 : s2.tokens.length ≤ s2.pos := by rw [ht, hp]; exact h
        simp only [Option.some_bind, check_next_either_exh hx2,
          Bool.false_eq_true, if_false]
        exact Or.inr ⟨v, s2, rfl, ht, hp⟩
    -- pEquality
    · intro s h
      simp only [pEquality]
      rcases ihCmp s h with h1 | ⟨v, s2, h1, ht, hp⟩ <;> rw [h1]
      · exact Or.inl rfl
      · have hx2 : s2.tokens.length ≤ s2.pos := by rw [ht, hp]; exact h
        simp only [Option.some_bind]
        rcases ihEqL v s2 hx2 with h2 | ⟨w, s3, h2, ht3, hp3⟩ <;> rw [h2]
        · exact Or.inl rfl
        · exact Or.inr ⟨w, s3, rfl, ht3.trans ht, hp3.trans hp⟩
    -- pEqualityLoop
    · intro e s h
      simp only [pEqualityLoop, peekT_exh h]
      exact Or.inr ⟨e, s, rfl, rfl, rfl⟩
    -- pComparison
    · intro s h
      simp only [pComparison]
      rcases ihBin s h with h1 | ⟨v, s2, h1, ht, hp⟩ <;> rw [h1]
      · exact Or.inl rfl
      · have hx2 : s2.tokens.length ≤ s2.pos := by rw [ht, hp]; exact h
        simp only [Option.some_bind]
        rcases ihCmpL v s2 hx2 with h2 | ⟨w, s3, h2, ht3, hp3⟩ <;> rw [h2]
        · exact Or.inl rfl
        · exact Or.inr ⟨w, s3, rfl, ht3.trans ht, hp3.trans hp⟩
    -- pComparisonLoop
    · intro e s h
      simp only [pComparisonLoop, peekT_exh h]
      exact Or.inr ⟨e, s, rfl, rfl, rfl⟩
    -- pBinary
    · intro s h
      simp only [pBinary]
      rcases ihBs s h with h1 | ⟨v, s2, h1, ht, hp⟩ <;> rw [h1]
      · exact Or.inl rfl
      · have hx2 : s2.tokens.length ≤ s2.pos := by rw [ht, hp]; exact h
        simp only [Option.some_bind]
        rcases ihBinL v s2 hx2 with h2 | ⟨w, s3, h2, ht3, hp3⟩ <;> rw [h2]
        · exact Or.inl rfl
        · exact Or.inr ⟨w, s3, rfl, ht3.trans ht, hp3.trans hp⟩
    -- pBinaryLoop
    · intro e s h
      simp only [pBinaryLoop, peekT_exh h]
      exact Or.inr ⟨e, s, rfl, rfl, rfl⟩
    -- pBitshift
    · intro s h
      simp only [pBitshift]
      rcases ihAdd s h with h1 | ⟨v, s2, h1, ht, hp⟩ <;> rw [h1]
      · exact Or.inl rfl
      · have hx2 : s2.tokens.length ≤ s2.pos := by rw [ht, hp]; exact h
        simp only [Option.some_bind]
        rcases ihBsL v s2 hx2 with h2 | ⟨w, s3, h2, ht3, hp3⟩ <;> rw [h2]
        · exact Or.inl rfl
        · exact Or.inr ⟨w, s3, rfl, ht3.trans ht, hp3.trans hp⟩
    -- pBitshiftLoop
    · intro e s h
      simp only [pBitshiftLoop, peekT_exh h]
      exact Or.inr ⟨e, s, rfl, rfl, rfl⟩
    -- pAddition
    · intro s h
      simp only [pAddition]
      rcases ihMul s h with h1 | ⟨v, s2, h1, ht, hp⟩ <;> rw [h1]
      · exact Or.inl rfl
      · have hx2 : s2.tokens.length ≤ s2.pos := by rw [ht, hp]; exact h
        simp only [Option.some_bind]
        rcases ihAddL v s2 hx2 with h2 | ⟨w, s3, h2, ht3, hp3⟩ <;> rw [h2]
        · exact Or.inl rfl
        · exact Or.inr ⟨w, s3, rfl, ht3.trans ht, hp3.trans hp⟩
    -- pAdditionLoop
    · intro e s h
      simp only [pAdditionLoop, peekT_exh h]
      exact Or.inr ⟨e, s, rfl, rfl, rfl⟩
    -- pMultiplication
    · intro s h
      simp only [pMultiplication]
      rcases ihUn s h with h1 | ⟨v, s2, h1, ht, hp⟩ <;> rw [h1]
      · exact Or.inl rfl
      · have hx2 : s2.tokens.length ≤ s2.pos := by rw [ht, hp]; exact h
        simp only [Option.some_bind]
        rcases ihMulL v s2 hx2 with h2 | ⟨w, s3, h2, ht3, hp3⟩ <;> rw [h2]
        · exact Or.inl rfl
        · exact Or.inr ⟨w, s3, rfl, ht3.trans ht, hp3.trans hp⟩
    -- pMultiplicationLoop
    · intro e s h
      simp only [pMultiplicationLoop, peekT_exh h]
      exact Or.inr ⟨e, s, rfl, rfl, rfl⟩
    -- pUnary
    · intro s h
      simp only [pUnary, peekT_exh h]
      exact ihPf s h
    -- pPostfixExpr
    · intro s h
      simp only [pPostfixExpr]
      rcases ihCall s h with h1 | ⟨v, s2, h1, ht, hp⟩ <;> rw [h1]
      · exact Or.inl rfl
      · have hx2 : s2.tokens.length ≤ s2.pos := by rw [ht, hp]; exact h
        simp only [Option.some_bind, check_next_either_exh hx2,
          Bool.false_eq_true, and_false, if_false]
        exact Or.inr ⟨v, s2, rfl, ht, hp⟩
    -- pCall
    · intro s h
      simp only [pCall]
      rcases ihPrim s h with h1 | ⟨v, s2, h1, ht, hp⟩ <;> rw [h1]
      · exact Or.inl rfl
      · have hx2 : s2.tokens.length ≤ s2.pos := by rw [ht, hp]; exact h
        simp only [Option.some_bind, cnc_exh hx2, Bool.false_eq_true, if_false]
        rcases ihCallL v s2 hx2 with h2 | ⟨w, s3, h2, ht3, hp3⟩ <;> rw [h2]
        · exact Or.inl rfl
        · exact Or.inr ⟨w, s3, rfl, ht3.trans ht, hp3.trans hp⟩
    -- pCallLoop
    · intro e s h
      simp only [pCallLoop, peekT_exh h]
      exact Or.inr ⟨e, s, rfl, rfl, rfl⟩
    -- pPrimary
    · intro s h
      simp only [pPrimary, peekT_exh h]
      exact Or.inr ⟨_, s.setError Diagnostic.unexpectedEnd, rfl, rfl, rfl⟩

/-- The grouping loop of `primary` never returns once the token sequence
is exhausted, no matter how much fuel it is given: `check_next_consume`
never sees a RightParen, `expression` consumes nothing, and the loop
repeats in the same position (parser.rs lines 959-961). -/
theorem pGroupingLoop_exh_diverges :
    ∀ (f : Nat) (acc : List ExprBox) (s : PState),
      s.tokens.length ≤ s.pos → pGroupingLoop f acc s = none := by
  intro f
  induction f with
  | zero => intro acc s h; rfl
  | succ f ih =>
    intro acc s h
    simp only [pGroupingLoop, cnc_exh h, Bool.false_eq_true, if_false]
    rcases (exh_all f).1 s h with h1 | ⟨v, s2, h1, ht, hp⟩ <;> rw [h1]
    · rfl
    · simp only [Option.some_bind]
      exact ih (acc ++ [v]) s2 (by rw [ht, hp]; exact h)

theorem cA_primary : ∀ f, pPrimary f c3sA = none ∨ pPrimary f c3sA = some (c3lit, c3sB) := by
  intro f
  cases f with
  | zero => exact Or.inl rfl
  | succ f => exact Or.inr rfl

theorem cA_callLoop : ∀ f, pCallLoop f c3lit c3sB = none ∨
    pCallLoop f c3lit c3sB = some (c3lit, c3sB) := by
  intro f
  cases f with
  | zero => exact Or.inl rfl
  | succ f => exact Or.inr rfl

theorem cA_call : ∀ f, pCall f c3sA = none ∨ pCall f c3sA = some (c3lit, c3sB) := by
  intro f
  cases f with
  | zero => exact Or.inl rfl
  | succ f =>
    simp only [pCall]
    rcases cA_primary f with h | h <;> rw [h]
    · exact Or.inl rfl
    · show pCallLoop f c3lit c3sB = none ∨ pCallLoop f c3lit c3sB = some (c3lit, c3sB)
      exact cA_callLoop f

theorem cA_postfix : ∀ f, pPostfixExpr f c3sA = none ∨
    pPostfixExpr f c3sA = some (c3lit, c3sB) := by
  intro f
  cases f with
  | zero => exact Or.inl rfl
  | succ f =>
    simp only [pPostfixExpr]
    rcases cA_call f with h | h <;> rw [h]
    · exact Or.inl rfl
    · exact Or.inr rfl

theorem cA_unary : ∀ f, pUnary f c3sA = none ∨ pUnary f c3sA = some (c3lit, c3sB) := by
  intro f
  cases f with
  | zero => exact Or.inl rfl
  | succ f => exact cA_postfix f

theorem cA_mulLoop : ∀ f, pMultiplicationLoop f c3lit c3sB = none ∨
    pMultiplicationLoop f c3lit c3sB = some (c3lit, c3sB) := by
  intro f
  cases f with
  | zero => exact Or.inl rfl
  | succ f => exact Or.inr rfl

theorem cA_mult : ∀ f, pMultiplication f c3sA = none ∨ pMultiplication f c3sA = some (c3lit, c3sB) := by
  intro f
  cases f with
  | zero => exact Or.inl rfl
  | succ f =>
    simp only [pMultiplication]
    rcases cA_unary f with h | h <;> rw [h]
    · exact Or.inl rfl
    · show pMultiplicationLoop f c3lit c3sB = none ∨ pMultiplicationLoop f c3lit c3sB = some (c3lit, c3sB)
      exact cA_mulLoop f

theorem cA_addLoop : ∀ f, pAdditionLoop f c3lit c3sB = none ∨
    pAdditionLoop f c3lit c3sB = some (c3lit, c3sB) := by
  intro f
  cases f with
  | zero => exact Or.inl rfl
  | succ f => exact Or.inr rfl

theorem cA_add : ∀ f, pAddition f c3sA = none ∨ pAddition f c3sA = some (c3lit, c3sB) := by
  intro f
  cases f with
  | zero => exact Or.inl rfl
  | succ f =>
    simp only [pAddition]
    rcases cA_mult f with h | h <;> rw [h]
    · exact Or.inl rfl
    · show pAdditionLoop f c3lit c3sB = none ∨ pAdditionLoop f c3lit c3sB = some (c3lit, c3sB)
      exact cA_addLoop f

theorem cA_bsLoop : ∀ f, pBitshiftLoop f c3lit c3sB = none ∨
    pBitshiftLoop f c3lit c3sB = some (c3lit, c3sB) := by
  intro f
  cases f with
  | zero => exact Or.inl rfl
  | succ f => exact Or.inr rfl

theorem cA_bitshift : ∀ f, pBitshift f c3sA = none ∨ pBitshift f c3sA = some (c3lit, c3sB) := by
  intro f
  cases f with
  | zero => exact Or.inl rfl
  | succ f =>
    simp only [pBitshift]
    rcases cA_add f with h | h <;> rw [h]
    · exact Or.inl rfl
    · show pBitshiftLoop f c3lit c3sB = none ∨ pBitshiftLoop f c3lit c3sB = some (c3lit, c3sB)
      exact cA_bsLoop f

theorem cA_binLoop : ∀ f, pBinaryLoop f c3lit c3sB = none ∨
    pBinaryLoop f c3lit c3sB = some (c3lit, c3sB) := by
  intro f
  cases f with
  | zero => exact Or.inl rfl
  | succ f => exact Or.inr rfl

theorem cA_binary : ∀ f, pBinary f c3sA = none ∨ pBinary f c3sA = some (c3lit, c3sB) := by
  intro f
  cases f with
  | zero => exact Or.inl rfl
  | succ f =>
    simp only [pBinary]
    rcases cA_bitshift f with h | h <;> rw [h]
    · exact Or.inl rfl
    · show pBinaryLoop f c3lit c3sB = none ∨ pBinaryLoop f c3lit c3sB = some (c3lit, c3sB)
      exact cA_binLoop f

theorem cA_cmpLoop : ∀ f, pComparisonLoop f c3lit c3sB = none ∨
    pComparisonLoop f c3lit c3sB = some (c3lit, c3sB) := by
  intro f
  cases f with
  | zero => exact Or.inl rfl
  | succ f => exact Or.inr rfl

theorem cA_comparison : ∀ f, pComparison f c3sA = none ∨ pComparison f c3sA = some (c3lit, c3sB) := by
  intro f
  cases f with
  | zero => exact Or.inl rfl
  | succ f =>
    simp only [pComparison]
    rcases cA_binary f with h | h <;> rw [h]
    · exact Or.inl rfl
    · show pComparisonLoop f c3lit c3sB = none ∨ pComparisonLoop f c3lit c3sB = some (c3lit, c3sB)
      exact cA_cmpLoop f

theorem cA_eqLoop : ∀ f, pEqualityLoop f c3lit c3sB = none ∨
    pEqualityLoop f c3lit c3sB = some (c3lit, c3sB) := by
  intro f
  cases f with
  | zero => exact Or.inl rfl
  | succ f => exact Or.inr rfl

theorem cA_equality : ∀ f, pEquality f c3sA = none ∨ pEquality f c3sA = some (c3lit, c3sB) := by
  intro f
  cases f with
  | zero => exact Or.inl rfl
  | succ f =>
    simp only [pEquality]
    rcases cA_comparison f with h | h <;> rw [h]
    · exact Or.inl rfl
    · show pEqualityLoop f c3lit c3sB = none ∨ pEqualityLoop f c3lit c3sB = some (c3lit, c3sB)
      exact cA_eqLoop f

theorem cA_xor : ∀ f, pXor f c3sA = none ∨ pXor f c3sA = some (c3lit, c3sB) := by
  intro f
  cases f with
  | zero => exact Or.inl rfl
  | succ f =>
    simp only [pXor]
    rcases cA_equality f with h | h <;> rw [h]
    · exact Or.inl rfl
    · exact Or.inr rfl

theorem cA_and : ∀ f, pAnd f c3sA = none ∨ pAnd f c3sA = some (c3lit, c3sB) := by
  intro f
  cases f with
  | zero => exact Or.inl rfl
  | succ f =>
    simp only [pAnd]
    rcases cA_xor f with h | h <;> rw [h]
    · exact Or.inl rfl
    · exact Or.inr rfl

theorem cA_or : ∀ f, pOr f c3sA = none ∨ pOr f c3sA = some (c3lit, c3sB) := by
  intro f
  cases f with
  | zero => exact Or.inl rfl
  | succ f =>
    simp only [pOr]
    rcases cA_and f with h | h <;> rw [h]
    · exact Or.inl rfl
    · exact Or.inr rfl

theorem cA_ternary : ∀ f, pTernary f c3sA = none ∨ pTernary f c3sA = some (c3lit, c3sB) := by
  intro f
  cases f with
  | zero => exact Or.inl rfl
  | succ f =>
    simp only [pTernary]
    rcases cA_or f with h | h <;> rw [h]
    · exact Or.inl rfl
    · exact Or.inr rfl

theorem cA_assign : ∀ f, pAssignment f c3sA = none ∨ pAssignment f c3sA = some (c3lit, c3sB) := by
  intro f
  cases f with
  | zero => exact Or.inl rfl
  | succ f =>
    simp only [pAssignment]
    rcases cA_ternary f with h | h <;> rw [h]
    · exact Or.inl rfl
    · exact Or.inr rfl

theorem cA_expr : ∀ f, pExpression f c3sA = none ∨
    pExpression f c3sA = some (c3lit, c3sBr) := by
  intro f
  cases f with
  | zero => exact Or.inl rfl
  | succ f =>
    simp only [pExpression]
    have hs : { c3sA with allow_unidentified := true } = c3sA := rfl
    rw [hs]
    rcases cA_assign f with h | h <;> rw [h]
    · exact Or.inl rfl
    · exact Or.inr rfl

theorem cB_primary : ∀ f, pPrimary f c3sB = none ∨ pPrimary f c3sB = some (c3unid, c3sC) := by
  intro f
  cases f with
  | zero => exact Or.inl rfl
  | succ f => exact Or.inr rfl

theorem cB_callLoop : ∀ f, pCallLoop f c3unid c3sC = none ∨
    pCallLoop f c3unid c3sC = some (c3unid, c3sC) := by
  intro f
  cases f with
  | zero => exact Or.inl rfl
  | succ f => exact Or.inr rfl

theorem cB_call : ∀ f, pCall f c3sB = none ∨ pCall f c3sB = some (c3unid, c3sC) := by
  intro f
  cases f with
  | zero => exact Or.inl rfl
  | succ f =>
    simp only [pCall]
    rcases cB_primary f with h | h <;> rw [h]
    · exact Or.inl rfl
    · show pCallLoop f c3unid c3sC = none ∨ pCallLoop f c3unid c3sC = some (c3unid, c3sC)
      exact cB_callLoop f

theorem cB_postfix : ∀ f, pPostfixExpr f c3sB = none ∨
    pPostfixExpr f c3sB = some (c3unid, c3sC) := by
  intro f
  cases f with
  | zero => exact Or.inl rfl
  | succ f =>
    simp only [pPostfixExpr]
    rcases cB_call f with h | h <;> rw [h]
    · exact Or.inl rfl
    · exact Or.inr rfl

theorem cB_unary : ∀ f, pUnary f c3sB = none ∨ pUnary f c3sB = some (c3unid, c3sC) := by
  intro f
  cases f with
  | zero => exact Or.inl rfl
  | succ f => exact cB_postfix f

theorem cB_mulLoop : ∀ f, pMultiplicationLoop f c3unid c3sC = none ∨
    pMultiplicationLoop f c3unid c3sC = some (c3unid, c3sC) := by
  intro f
  cases f with
  | zero => exact Or.inl rfl
  | succ f => exact Or.inr rfl

theorem cB_mult : ∀ f, pMultiplication f c3sB = none ∨ pMultiplication f c3sB = some (c3unid, c3sC) := by
  intro f
  cases f with
  | zero => exact Or.inl rfl
  | succ f =>
    simp only [pMultiplication]
    rcases cB_unary f with h | h <;> rw [h]
    · exact Or.inl rfl
    · show pMultiplicationLoop f c3unid c3sC = none ∨ pMultiplicationLoop f c3unid c3sC = some (c3unid, c3sC)
      exact cB_mulLoop f

theorem cB_addLoop : ∀ f, pAdditionLoop f c3unid c3sC = none ∨
    pAdditionLoop f c3unid c3sC = some (c3unid, c3sC) := by
  intro f
  cases f with
  | zero => exact Or.inl rfl
  | succ f => exact Or.inr rfl

theorem cB_add : ∀ f, pAddition f c3sB = none ∨ pAddition f c3sB = some (c3unid, c3sC) := by
  intro f
  cases f with
  | zero => exact Or.inl rfl
  | succ f =>
    simp only [pAddition]
    rcases cB_mult f with h | h <;> rw [h]
    · exact Or.inl rfl
    · show pAdditionLoop f c3unid c3sC = none ∨ pAdditionLoop f c3unid c3sC = some (c3unid, c3sC)
      exact cB_addLoop f

theorem cB_bsLoop : ∀ f, pBitshiftLoop f c3unid c3sC = none ∨
    pBitshiftLoop f c3unid c3sC = some (c3unid, c3sC) := by
  intro f
  cases f with
  | zero => exact Or.inl rfl
  | succ f => exact Or.inr rfl

theorem cB_bitshift : ∀ f, pBitshift f c3sB = none ∨ pBitshift f c3sB = some (c3unid, c3sC) := by
  intro f
  cases f with
  | zero => exact Or.inl rfl
  | succ f =>
    simp only [pBitshift]
    rcases cB_add f with h | h <;> rw [h]
    · exact Or.inl rfl
    · show pBitshiftLoop f c3unid c3sC = none ∨ pBitshiftLoop f c3unid c3sC = some (c3unid, c3sC)
      exact cB_bsLoop f

theorem cB_binLoop : ∀ f, pBinaryLoop f c3unid c3sC = none ∨
    pBinaryLoop f c3unid c3sC = some (c3unid, c3sC) := by
  intro f
  cases f with
  | zero => exact Or.inl rfl
  | succ f => exact Or.inr rfl

theorem cB_binary : ∀ f, pBinary f c3sB = none ∨ pBinary f c3sB = some (c3unid, c3sC) := by
  intro f
  cases f with
  | zero => exact Or.inl rfl
  | succ f =>
    simp only [pBinary]
    rcases cB_bitshift f with h | h <;> rw [h]
    · exact Or.inl rfl
    · show pBinaryLoop f c3unid c3sC = none ∨ pBinaryLoop f c3unid c3sC = some (c3unid, c3sC)
      exact cB_binLoop f

theorem cB_cmpLoop : ∀ f, pComparisonLoop f c3unid c3sC = none ∨
    pComparisonLoop f c3unid c3sC = some (c3unid, c3sC) := by
  intro f
  cases f with
  | zero => exact Or.inl rfl
  | succ f => exact Or.inr rfl

theorem cB_comparison : ∀ f, pComparison f c3sB = none ∨ pComparison f c3sB = some (c3unid, c3sC) := by
  intro f
  cases f with
  | zero => exact Or.inl rfl
  | succ f =>
    simp only [pComparison]
    rcases cB_binary f with h | h <;> rw [h]
    · exact Or.inl rfl
    · show pComparisonLoop f c3unid c3sC = none ∨ pComparisonLoop f c3unid c3sC = some (c3unid, c3sC)
      exact cB_cmpLoop f

theorem cB_eqLoop : ∀ f, pEqualityLoop f c3unid c3sC = none ∨
    pEqualityLoop f c3unid c3sC = some (c3unid, c3sC) := by
  intro f
  cases f with
  | zero => exact Or.inl rfl
  | succ f => exact Or.inr rfl

theorem cB_equality : ∀ f, pEquality f c3sB = none ∨ pEquality f c3sB = some (c3unid, c3sC) := by
  intro f
  cases f with
  | zero => exact Or.inl rfl
  | succ f =>
    simp only [pEquality]
    rcases cB_comparison f with h | h <;> rw [h]
    · exact Or.inl rfl
    · show pEqualityLoop f c3unid c3sC = none ∨ pEqualityLoop f c3unid c3sC = some (c3unid, c3sC)
      exact cB_eqLoop f

theorem cB_xor : ∀ f, pXor f c3sB = none ∨ pXor f c3sB = some (c3unid, c3sC) := by
  intro f
  cases f with
  | zero => exact Or.inl rfl
  | succ f =>
    simp only [pXor]
    rcases cB_equality f with h | h <;> rw [h]
    · exact Or.inl rfl
    · exact Or.inr rfl

theorem cB_and : ∀ f, pAnd f c3sB = none ∨ pAnd f c3sB = some (c3unid, c3sC) := by
  intro f
  cases f with
  | zero => exact Or.inl rfl
  | succ f =>
    simp only [pAnd]
    rcases cB_xor f with h | h <;> rw [h]
    · exact Or.inl rfl
    · exact Or.inr rfl

theorem cB_or : ∀ f, pOr f c3sB = none ∨ pOr f c3sB = some (c3unid, c3sC) := by
  intro f
  cases f with
  | zero => exact Or.inl rfl
  | succ f =>
    simp only [pOr]
    rcases cB_and f with h | h <;> rw [h]
    · exact Or.inl rfl
    · exact Or.inr rfl

theorem cB_ternary : ∀ f, pTernary f c3sB = none ∨ pTernary f c3sB = some (c3unid, c3sC) := by
  intro f
  cases f with
  | zero => exact Or.inl rfl
  | succ f =>
    simp only [pTernary]
    rcases cB_or f with h | h <;> rw [h]
    · exact Or.inl rfl
    · exact Or.inr rfl

theorem cB_assign : ∀ f, pAssignment f c3sB = none ∨ pAssignment f c3sB = some (c3unid, c3sC) := by
  intro f
  cases f with
  | zero => exact Or.inl rfl
  | succ f =>
    simp only [pAssignment]
    rcases cB_ternary f with h | h <;> rw [h]
    · exact Or.inl rfl
    · exact Or.inr rfl

theorem cB_expr : ∀ f, pExpression f c3sBr = none ∨
    pExpression f c3sBr = some (c3unid, c3sCr) := by
  intro f
  cases f with
  | zero => exact Or.inl rfl
  | succ f =>
    simp only [pExpression]
    have hs : { c3sBr with allow_unidentified := true } = c3sB := rfl
    rw [hs]
    rcases cB_assign f with h | h <;> rw [h]
    · exact Or.inl rfl
    · exact Or.inr rfl

/-- The grouping loop for `(1`: its second iteration consumes the EOF
token, after which the sequence is exhausted and the loop diverges. -/
theorem cG : ∀ (f : Nat) (acc : List ExprBox), pGroupingLoop f acc c3sBr = none := by
  intro f
  cases f with
  | zero => intro acc; rfl
  | succ f =>
    intro acc
    have hunf : pGroupingLoop (f + 1) acc c3sBr =
        (pExpression f c3sBr).bind fun re =>
          pGroupingLoop f (acc ++ [re.1]) re.2 := rfl
    rw [hunf]
    rcases cB_expr f with h | h <;> rw [h]
    · rfl
    · simp only [Option.some_bind]
      exact pGroupingLoop_exh_diverges f (acc ++ [c3unid]) c3sCr (by decide)

theorem n1_primary : ∀ f, pPrimary f c3s1 = none := by
  intro f
  cases f with
  | zero => rfl
  | succ f =>
    have hunf : pPrimary (f + 1) c3s1 =
        (pExpression f c3sA).bind fun re1 =>
          (pGroupingLoop f [re1.1] re1.2).bind fun res =>
            some (create_comment_expr_box (get_newlines_and_comments res.2).2
              (Expr.Grouping res.1 [] (get_newlines_and_comments res.2).1)) := rfl
    rw [hunf]
    rcases cA_expr f with h | h <;> rw [h]
    · rfl
    · simp only [Option.some_bind]
      rw [cG f [c3lit]]
      rfl

theorem n1_call : ∀ f, pCall f c3s1 = none := by
  intro f
  cases f with
  | zero => rfl
  | succ f =>
    simp only [pCall]
    rw [n1_primary f]
    rfl

theorem n1_postfix : ∀ f, pPostfixExpr f c3s1 = none := by
  intro f
  cases f with
  | zero => rfl
  | succ f =>
    simp only [pPostfixExpr]
    rw [n1_call f]
    rfl

theorem n1_unary : ∀ f, pUnary f c3s1 = none := by
  intro f
  cases f with
  | zero => rfl
  | succ f => exact n1_postfix f

theorem n1_mult : ∀ f, pMultiplication f c3s1 = none := by
  intro f
  cases f with
  | zero => rfl
  | succ f =>
    simp only [pMultiplication]
    rw [n1_unary f]
    rfl

theorem n1_add : ∀ f, pAddition f c3s1 = none := by
  intro f
  cases f with
  | zero => rfl
  | succ f =>
    simp only [pAddition]
    rw [n1_mult f]
    rfl

theorem n1_bitshift : ∀ f, pBitshift f c3s1 = none := by
  intro f
  cases f with
  | zero => rfl
  | succ f =>
    simp only [pBitshift]
    rw [n1_add f]
    rfl

theorem n1_binary : ∀ f, pBinary f c3s1 = none := by
  intro f
  cases f with
  | zero => rfl
  | succ f =>
    simp only [pBinary]
    rw [n1_bitshift f]
    rfl

theorem n1_comparison : ∀ f, pComparison f c3s1 = none := by
  intro f
  cases f with
  | zero => rfl
  | succ f =>
    simp only [pComparison]
    rw [n1_binary f]
    rfl

theorem n1_equality : ∀ f, pEquality f c3s1 = none := by
  intro f
  cases f with
  | zero => rfl
  | succ f =>
    simp only [pEquality]
    rw [n1_comparison f]
    rfl

theorem n1_xor : ∀ f, pXor f c3s1 = none := by
  intro f
  cases f with
  | zero => rfl
  | succ f =>
    simp only [pXor]
    rw [n1_equality f]
    rfl

theorem n1_and : ∀ f, pAnd f c3s1 = none := by
  intro f
  cases f with
  | zero => rfl
  | succ f =>
    simp only [pAnd]
    rw [n1_xor f]
    rfl

theorem n1_or : ∀ f, pOr f c3s1 = none := by
  intro f
  cases f with
  | zero => rfl
  | succ f =>
    simp only [pOr]
    rw [n1_and f]
    rfl

theorem n1_ternary : ∀ f, pTernary f c3s1 = none := by
  intro f
  cases f with
  | zero => rfl
  | succ f =>
    simp only [pTernary]
    rw [n1_or f]
    rfl

theorem n1_assign : ∀ f, pAssignment f c3s1 = none := by
  intro f
  cases f with
  | zero => rfl
  | succ f =>
    simp only [pAssignment]
    rw [n1_ternary f]
    rfl

theorem n0_expr : ∀ f, pExpression f c3s0 = none := by
  intro f
  cases f with
  | zero => rfl
  | succ f =>
    simp only [pExpression]
    have hs : { c3s0 with allow_unidentified := true } = c3s1 := rfl
    rw [hs, n1_assign f]
    rfl

theorem n0_exprStmt : ∀ f, pExpressionStatement f c3s0 = none := by
  intro f
  cases f with
  | zero => rfl
  | succ f =>
    simp only [pExpressionStatement]
    rw [n0_expr f]
    rfl

theorem n0_stmt : ∀ f, pStatement f c3s0 = none := by
  intro f
  cases f with
  | zero => rfl
  | succ f => exact n0_exprStmt f

theorem n0_buildLoop : ∀ f, pBuildAstLoop f c3s0 [] = none := by
  intro f
  cases f with
  | zero => rfl
  | succ f =>
    have hunf : pBuildAstLoop (f + 1) c3s0 [] =
        (pStatement f c3s0).bind fun r =>
          pBuildAstLoop f r.2 ([] ++ [r.1]) := rfl
    rw [hunf, n0_stmt f]
    rfl

theorem c9_stmt1 : pStatement 99 c9s0 = some (c9b1, c9sA) := rfl

theorem c9_stmt2 : pStatement 98 c9sA = some (c9b2, c9sB) := rfl

theorem c9_eval_build : build_ast 100 c9Tokens = some (c9Ast, c9sB) := by
  have e1 : build_ast 100 c9Tokens =
      (pStatement 99 c9s0).bind fun r => pBuildAstLoop 99 r.2 ([] ++ [r.1]) := rfl
  rw [e1, c9_stmt1]
  show pBuildAstLoop 99 c9sA [c9b1] = some (c9Ast, c9sB)
  have e2 : pBuildAstLoop 99 c9sA [c9b1] =
      (pStatement 98 c9sA).bind fun r => pBuildAstLoop 98 r.2 ([c9b1] ++ [r.1]) := rfl
  rw [e2, c9_stmt2]
  show pBuildAstLoop 98 c9sB [c9b1, c9b2] = some (c9Ast, c9sB)
  rfl

theorem c8_argExpr : pExpression 80 c8mP2 = some (c8lit2, c8mP3F) := rfl

theorem c8_fcdLoop :
    pFinishCallLoop 81 TokenType.RightParen TokenType.Comma [] c8mP2 =
      some ([([], c8lit2, [])], c8mP3F) := by
  have e : pFinishCallLoop 81 TokenType.RightParen TokenType.Comma [] c8mP2 =
      (pExpression 80 c8mP2).bind fun re =>
        let rc2 := get_newlines_and_comments re.2
        let rd := check_next_consume rc2.2 TokenType.Comma
        if rd.1 then
          pFinishCallLoop 80 TokenType.RightParen TokenType.Comma
            ([] ++ [([], re.1, rc2.1)]) rd.2
        else some ([] ++ [([], re.1, rc2.1)], rd.2) := rfl
  rw [e, c8_argExpr]
  rfl

theorem c8_finishCall :
    pFinishCall 82 TokenType.RightParen TokenType.Comma c8mP2 =
      some ([([], c8lit2, [])], c8mP4F) := by
  have e : pFinishCall 82 TokenType.RightParen TokenType.Comma c8mP2 =
      (pFinishCallLoop 81 TokenType.RightParen TokenType.Comma [] c8mP2).bind fun r =>
        some (r.1, (check_next_consume r.2 TokenType.RightParen).2) := rfl
  rw [e, c8_fcdLoop]
  rfl

theorem c8_prim : pPrimary 82 c8m1 = some (c8lit1, c8mP1) := rfl

theorem c8_callEval : pCall 83 c8m1 = some (c8call, c8mP4F) := by
  simp only [pCall]
  rw [c8_prim]
  show (pFinishCall 82 TokenType.RightParen TokenType.Comma c8mP2).bind
      (fun ra => pCallLoop 82
        (create_expr_box_no_comment (Expr.Call c8lit1 ra.1 [])) ra.2) =
    some (c8call, c8mP4F)
  rw [c8_finishCall]
  rfl

theorem c8_postfixEval : pPostfixExpr 84 c8m1 = some (c8call, c8mP4F) := by
  simp only [pPostfixExpr]
  rw [c8_callEval]
  rfl

theorem c8_unaryEval : pUnary 85 c8m1 = some (c8call, c8mP4F) := by
  have e : pUnary 85 c8m1 = pPostfixExpr 84 c8m1 := rfl
  rw [e, c8_postfixEval]

theorem c8_unaryErr1 : pUnary 84 c8mP5F = some (c8unid5, c8sE1) := rfl

theorem c8_unaryErr2 : pUnary 83 c8sE1b = some (c8unid7, c8sE2) := rfl

theorem c8_multLoop : pMultiplicationLoop 85 c8call c8mP4F = some (c8bin2, c8sE2) := by
  have e1 : pMultiplicationLoop 85 c8call c8mP4F =
      (pUnary 84 c8mP5F).bind fun rr =>
        pMultiplicationLoop 84
          (create_expr_box_no_comment
            (Expr.Binary c8call ⟨TokenType.Star, 0, 4⟩ [] rr.1)) rr.2 := rfl
  rw [e1, c8_unaryErr1]
  show pMultiplicationLoop 84 c8bin1 c8sE1 = some (c8bin2, c8sE2)
  have e2 : pMultiplicationLoop 84 c8bin1 c8sE1 =
      (pUnary 83 c8sE1b).bind fun rr =>
        pMultiplicationLoop 83
          (create_expr_box_no_comment
            (Expr.Binary c8bin1 ⟨TokenType.Star, 0, 6⟩ [] rr.1)) rr.2 := rfl
  rw [e2, c8_unaryErr2]
  show pMultiplicationLoop 83 c8bin2 c8sE2 = some (c8bin2, c8sE2)
  rfl

theorem c8_multEval : pMultiplication 86 c8m1 = some (c8bin2, c8sE2) := by
  simp only [pMultiplication]
  rw [c8_unaryEval]
  simp only [Option.some_bind]
  exact c8_multLoop

theorem c8_addEval : pAddition 87 c8m1 = some (c8bin2, c8sE2) := by
  simp only [pAddition]
  rw [c8_multEval]
  rfl

theorem c8_bitshiftEval : pBitshift 88 c8m1 = some (c8bin2, c8sE2) := by
  simp only [pBitshift]
  rw [c8_addEval]
  rfl

theorem c8_binaryEval : pBinary 89 c8m1 = some (c8bin2, c8sE2) := by
  simp only [pBinary]
  rw [c8_bitshiftEval]
  rfl

theorem c8_comparisonEval : pComparison 90 c8m1 = some (c8bin2, c8sE2) := by
  simp only [pComparison]
  rw [c8_binaryEval]
  rfl

theorem c8_equalityEval : pEquality 91 c8m1 = some (c8bin2, c8sE2) := by
  simp only [pEquality]
  rw [c8_comparisonEval]
  rfl

theorem c8_xorEval : pXor 92 c8m1 = some (c8bin2, c8sE2) := by
  simp only [pXor]
  rw [c8_equalityEval]
  rfl

theorem c8_andEval : pAnd 93 c8m1 = some (c8bin2, c8sE2) := by
  simp only [pAnd]
  rw [c8_xorEval]
  rfl

theorem c8_orEval : pOr 94 c8m1 = some (c8bin2, c8sE2) := by
  simp only [pOr]
  rw [c8_andEval]
  rfl

theorem c8_ternaryEval : pTernary 95 c8m1 = some (c8bin2, c8sE2) := by
  have e : pTernary 95 c8m1 =
      (pOr 94 c8m1).bind fun r =>
        let rh := check_next_consume r.2 TokenType.Hook
        if rh.1 then
          let rcq := get_newlines_and_comments rh.2
          (pTernary 94 rcq.2).bind fun rl =>
            let rcolon := check_next_consume rl.2 TokenType.Colon
            let rcc := get_newlines_and_comments rcolon.2
            (pTernary 94 rcc.2).bind fun rr =>
              some (create_expr_box_no_comment
                (Expr.Ternary r.1 rcq.1 rl.1 rcc.1 rr.1), rr.2)
        else some (r.1, rh.2) := rfl
  rw [e, c8_orEval]
  rfl

theorem c8_assignEval : pAssignment 96 c8m1 = some (c8bin2, c8sE2) := by
  have e : pAssignment 96 c8m1 =
      (pTernary 95 c8m1).bind fun r =>
        match r.2.peekT with
        | some token =>
          match token.token_type with
          | TokenType.Equal | TokenType.PlusEquals | TokenType.MinusEquals
          | TokenType.StarEquals | TokenType.SlashEquals | TokenType.BitXorEquals
          | TokenType.BitOrEquals | TokenType.BitAndEquals | TokenType.ModEquals =>
            let s2 := r.2.advance
            let rc := get_newlines_and_comments s2
            (pAssignment 95 rc.2).bind fun ra =>
              some (create_expr_box_no_comment (Expr.Assign r.1 token rc.1 ra.1), ra.2)
          | _ => some r
        | none => some r := rfl
  rw [e, c8_ternaryEval]
  rfl

theorem c8_exprEval : pExpression 97 c8s0 = some (c8bin2, c8sE2) := by
  simp only [pExpression]
  have hs : { c8s0 with allow_unidentified := true } = c8m1 := rfl
  rw [hs, c8_assignEval]
  rfl

theorem c8_esEval : pExpressionStatement 98 c8s0 = some (c8stmt, c8sE2) := by
  simp only [pExpressionStatement]
  rw [c8_exprEval]
  rfl

theorem c8_stmtEval : pStatement 99 c8s0 = some (c8stmt, c8sE2) := c8_esEval

theorem c8_eval_build : build_ast 100 c8Tokens = some ([c8stmt], c8sE2) := by
  have e1 : build_ast 100 c8Tokens =
      (pStatement 99 c8s0).bind fun r => pBuildAstLoop 99 r.2 ([] ++ [r.1]) := rfl
  rw [e1, c8_stmtEval]
  show pBuildAstLoop 99 c8sE2 [c8stmt] = some ([c8stmt], c8sE2)
  rfl

theorem dR_primary : ∀ f, pPrimary f c1rC = none ∨ pPrimary f c1rC = some (c1vL1, c1rD) := by
  intro f
  cases f with
  | zero => exact Or.inl rfl
  | succ f => exact Or.inr rfl

theorem dR_callLoop : ∀ f, pCallLoop f c1vL1 c1rD = none ∨
    pCallLoop f c1vL1 c1rD = some (c1vL1, c1rD) := by
  intro f
  cases f with
  | zero => exact Or.inl rfl
  | succ f => exact Or.inr rfl

theorem dR_call : ∀ f, pCall f c1rC = none ∨ pCall f c1rC = some (c1vL1, c1rD) := by
  intro f
  cases f with
  | zero => exact Or.inl rfl
  | succ f =>
    simp only [pCall]
    rcases dR_primary f with h | h <;> rw [h]
    · exact Or.inl rfl
    · show pCallLoop f c1vL1 c1rD = none ∨ pCallLoop f c1vL1 c1rD = some (c1vL1, c1rD)
      exact dR_callLoop f

theorem dR_postfix : ∀ f, pPostfixExpr f c1rC = none ∨
    pPostfixExpr f c1rC = some (c1vL1, c1rD) := by
  intro f
  cases f with
  | zero => exact Or.inl rfl
  | succ f =>
    simp only [pPostfixExpr]
    rcases dR_call f with h | h <;> rw [h]
    · exact Or.inl rfl
    · exact Or.inr rfl

theorem dR_unary : ∀ f, pUnary f c1rC = none ∨ pUnary f c1rC = some (c1vL1, c1rD) := by
  intro f
  cases f with
  | zero => exact Or.inl rfl
  | succ f => exact dR_postfix f

theorem dR_mulLoop : ∀ f, pMultiplicationLoop f c1vL1 c1rD = none ∨
    pMultiplicationLoop f c1vL1 c1rD = some (c1vL1, c1rD) := by
  intro f
  cases f with
  | zero => exact Or.inl rfl
  | succ f => exact Or.inr rfl

theorem dR_mult : ∀ f, pMultiplication f c1rC = none ∨ pMultiplication f c1rC = some (c1vL1, c1rD) := by
  intro f
  cases f with
  | zero => exact Or.inl rfl
  | succ f =>
    simp only [pMultiplication]
    rcases dR_unary f with h | h <;> rw [h]
    · exact Or.inl rfl
    · show pMultiplicationLoop f c1vL1 c1rD = none ∨ pMultiplicationLoop f c1vL1 c1rD = some (c1vL1, c1rD)
      exact dR_mulLoop f

theorem dR_addLoop : ∀ f, pAdditionLoop f c1vL1 c1rD = none ∨
    pAdditionLoop f c1vL1 c1rD = some (c1vL1, c1rD) := by
  intro f
  cases f with
  | zero => exact Or.inl rfl
  | succ f => exact Or.inr rfl

theorem dR_add : ∀ f, pAddition f c1rC = none ∨ pAddition f c1rC = some (c1vL1, c1rD) := by
  intro f
  cases f with
  | zero => exact Or.inl rfl
  | succ f =>
    simp only [pAddition]
    rcases dR_mult f with h | h <;> rw [h]
    · exact Or.inl rfl
    · show pAdditionLoop f c1vL1 c1rD = none ∨ pAdditionLoop f c1vL1 c1rD = some (c1vL1, c1rD)
      exact dR_addLoop f

theorem dR_bsLoop : ∀ f, pBitshiftLoop f c1vL1 c1rD = none ∨
    pBitshiftLoop f c1vL1 c1rD = some (c1vL1, c1rD) := by
  intro f
  cases f with
  | zero => exact Or.inl rfl
  | succ f => exact Or.inr rfl

theorem dR_bitshift : ∀ f, pBitshift f c1rC = none ∨ pBitshift f c1rC = some (c1vL1, c1rD) := by
  intro f
  cases f with
  | zero => exact Or.inl rfl
  | succ f =>
    simp only [pBitshift]
    rcases dR_add f with h | h <;> rw [h]
    · exact Or.inl rfl
    · show pBitshiftLoop f c1vL1 c1rD = none ∨ pBitshiftLoop f c1vL1 c1rD = some (c1vL1, c1rD)
      exact dR_bsLoop f

theorem dR_binLoop : ∀ f, pBinaryLoop f c1vL1 c1rD = none ∨
    pBinaryLoop f c1vL1 c1rD = some (c1vL1, c1rD) := by
  intro f
  cases f with
  | zero => exact Or.inl rfl
  | succ f => exact Or.inr rfl

theorem dR_binary : ∀ f, pBinary f c1rC = none ∨ pBinary f c1rC = some (c1vL1, c1rD) := by
  intro f
  cases f with
  | zero => exact Or.inl rfl
  | succ f =>
    simp only [pBinary]
    rcases dR_bitshift f with h | h <;> rw [h]
    · exact Or.inl rfl
    · show pBinaryLoop f c1vL1 c1rD = none ∨ pBinaryLoop f c1vL1 c1rD = some (c1vL1, c1rD)
      exact dR_binLoop f

theorem dR_cmpLoop : ∀ f, pComparisonLoop f c1vL1 c1rD = none ∨
    pComparisonLoop f c1vL1 c1rD = some (c1vL1, c1rD) := by
  intro f
  cases f with
  | zero => exact Or.inl rfl
  | succ f => exact Or.inr rfl

theorem dR_comparison : ∀ f, pComparison f c1rC = none ∨ pComparison f c1rC = some (c1vL1, c1rD) := by
  intro f
  cases f with
  | zero => exact Or.inl rfl
  | succ f =>
    simp only [pComparison]
    rcases dR_binary f with h | h <;> rw [h]
    · exact Or.inl rfl
    · show pComparisonLoop f c1vL1 c1rD = none ∨ pComparisonLoop f c1vL1 c1rD = some (c1vL1, c1rD)
      exact dR_cmpLoop f

theorem dR_eqLoop : ∀ f, pEqualityLoop f c1vL1 c1rD = none ∨
    pEqualityLoop f c1vL1 c1rD = some (c1vL1, c1rD) := by
  intro f
  cases f with
  | zero => exact Or.inl rfl
  | succ f => exact Or.inr rfl

theorem dR_equality : ∀ f, pEquality f c1rC = none ∨ pEquality f c1rC = some (c1vL1, c1rD) := by
  intro f
  cases f with
  | zero => exact Or.inl rfl
  | succ f =>
    simp only [pEquality]
    rcases dR_comparison f with h | h <;> rw [h]
    · exact Or.inl rfl
    · show pEqualityLoop f c1vL1 c1rD = none ∨ pEqualityLoop f c1vL1 c1rD = some (c1vL1, c1rD)
      exact dR_eqLoop f

theorem dR_xor : ∀ f, pXor f c1rC = none ∨ pXor f c1rC = some (c1vL1, c1rD) := by
  intro f
  cases f with
  | zero => exact Or.inl rfl
  | succ f =>
    simp only [pXor]
    rcases dR_equality f with h | h <;> rw [h]
    · exact Or.inl rfl
    · exact Or.inr rfl

theorem dR_and : ∀ f, pAnd f c1rC = none ∨ pAnd f c1rC = some (c1vL1, c1rD) := by
  intro f
  cases f with
  | zero => exact Or.inl rfl
  | succ f =>
    simp only [pAnd]
    rcases dR_xor f with h | h <;> rw [h]
    · exact Or.inl rfl
    · exact Or.inr rfl

theorem dR_or : ∀ f, pOr f c1rC = none ∨ pOr f c1rC = some (c1vL1, c1rD) := by
  intro f
  cases f with
  | zero => exact Or.inl rfl
  | succ f =>
    simp only [pOr]
    rcases dR_and f with h | h <;> rw [h]
    · exact Or.inl rfl
    · exact Or.inr rfl

theorem dR_ternary : ∀ f, pTernary f c1rC = none ∨ pTernary f c1rC = some (c1vL1, c1rD) := by
  intro f
  cases f with
  | zero => exact Or.inl rfl
  | succ f =>
    simp only [pTernary]
    rcases dR_or f with h | h <;> rw [h]
    · exact Or.inl rfl
    · exact Or.inr rfl

theorem dR_assign : ∀ f, pAssignment f c1rC = none ∨
    pAssignment f c1rC = some (c1vL1, c1rD) := by
  intro f
  cases f with
  | zero => exact Or.inl rfl
  | succ f =>
    simp only [pAssignment]
    rcases dR_ternary f with h | h <;> rw [h]
    · exact Or.inl rfl
    · exact Or.inr rfl

theorem dA_primary : ∀ f, pPrimary f c1rA = none ∨ pPrimary f c1rA = some (c1vRP, c1rB) := by
  intro f
  cases f with
  | zero => exact Or.inl rfl
  | succ f => exact Or.inr rfl

theorem dA_callLoop : ∀ f, pCallLoop f c1vRP c1rB = none ∨
    pCallLoop f c1vRP c1rB = some (c1vRP, c1rB) := by
  intro f
  cases f with
  | zero => exact Or.inl rfl
  | succ f => exact Or.inr rfl

theorem dA_call : ∀ f, pCall f c1rA = none ∨ pCall f c1rA = some (c1vRP, c1rB) := by
  intro f
  cases f with
  | zero => exact Or.inl rfl
  | succ f =>
    simp only [pCall]
    rcases dA_primary f with h | h <;> rw [h]
    · exact Or.inl rfl
    · show pCallLoop f c1vRP c1rB = none ∨ pCallLoop f c1vRP c1rB = some (c1vRP, c1rB)
      exact dA_callLoop f

theorem dA_postfix : ∀ f, pPostfixExpr f c1rA = none ∨
    pPostfixExpr f c1rA = some (c1vRP, c1rB) := by
  intro f
  cases f with
  | zero => exact Or.inl rfl
  | succ f =>
    simp only [pPostfixExpr]
    rcases dA_call f with h | h <;> rw [h]
    · exact Or.inl rfl
    · exact Or.inr rfl

theorem dA_unary : ∀ f, pUnary f c1rA = none ∨ pUnary f c1rA = some (c1vRP, c1rB) := by
  intro f
  cases f with
  | zero => exact Or.inl rfl
  | succ f => exact dA_postfix f

theorem dA_mulLoop : ∀ f, pMultiplicationLoop f c1vRP c1rB = none ∨
    pMultiplicationLoop f c1vRP c1rB = some (c1vRP, c1rB) := by
  intro f
  cases f with
  | zero => exact Or.inl rfl
  | succ f => exact Or.inr rfl

theorem dA_mult : ∀ f, pMultiplication f c1rA = none ∨ pMultiplication f c1rA = some (c1vRP, c1rB) := by
  intro f
  cases f with
  | zero => exact Or.inl rfl
  | succ f =>
    simp only [pMultiplication]
    rcases dA_unary f with h | h <;> rw [h]
    · exact Or.inl rfl
    · show pMultiplicationLoop f c1vRP c1rB = none ∨ pMultiplicationLoop f c1vRP c1rB = some (c1vRP, c1rB)
      exact dA_mulLoop f

theorem dA_addLoop : ∀ f, pAdditionLoop f c1vRP c1rB = none ∨
    pAdditionLoop f c1vRP c1rB = some (c1vRP, c1rB) := by
  intro f
  cases f with
  | zero => exact Or.inl rfl
  | succ f => exact Or.inr rfl

theorem dA_add : ∀ f, pAddition f c1rA = none ∨ pAddition f c1rA = some (c1vRP, c1rB) := by
  intro f
  cases f with
  | zero => exact Or.inl rfl
  | succ f =>
    simp only [pAddition]
    rcases dA_mult f with h | h <;> rw [h]
    · exact Or.inl rfl
    · show pAdditionLoop f c1vRP c1rB = none ∨ pAdditionLoop f c1vRP c1rB = some (c1vRP, c1rB)
      exact dA_addLoop f

theorem dA_bsLoop : ∀ f, pBitshiftLoop f c1vRP c1rB = none ∨
    pBitshiftLoop f c1vRP c1rB = some (c1vRP, c1rB) := by
  intro f
  cases f with
  | zero => exact Or.inl rfl
  | succ f => exact Or.inr rfl

theorem dA_bitshift : ∀ f, pBitshift f c1rA = none ∨ pBitshift f c1rA = some (c1vRP, c1rB) := by
  intro f
  cases f with
  | zero => exact Or.inl rfl
  | succ f =>
    simp only [pBitshift]
    rcases dA_add f with h | h <;> rw [h]
    · exact Or.inl rfl
    · show pBitshiftLoop f c1vRP c1rB = none ∨ pBitshiftLoop f c1vRP c1rB = some (c1vRP, c1rB)
      exact dA_bsLoop f

theorem dA_binLoop : ∀ f, pBinaryLoop f c1vRP c1rB = none ∨
    pBinaryLoop f c1vRP c1rB = some (c1vRP, c1rB) := by
  intro f
  cases f with
  | zero => exact Or.inl rfl
  | succ f => exact Or.inr rfl

theorem dA_binary : ∀ f, pBinary f c1rA = none ∨ pBinary f c1rA = some (c1vRP, c1rB) := by
  intro f
  cases f with
  | zero => exact Or.inl rfl
  | succ f =>
    simp only [pBinary]
    rcases dA_bitshift f with h | h <;> rw [h]
    · exact Or.inl rfl
    · show pBinaryLoop f c1vRP c1rB = none ∨ pBinaryLoop f c1vRP c1rB = some (c1vRP, c1rB)
      exact dA_binLoop f

theorem dA_cmpLoop : ∀ f, pComparisonLoop f c1vRP c1rB = none ∨
    pComparisonLoop f c1vRP c1rB = some (c1vRP, c1rB) := by
  intro f
  cases f with
  | zero => exact Or.inl rfl
  | succ f => exact Or.inr rfl

theorem dA_comparison : ∀ f, pComparison f c1rA = none ∨ pComparison f c1rA = some (c1vRP, c1rB) := by
  intro f
  cases f with
  | zero => exact Or.inl rfl
  | succ f =>
    simp only [pComparison]
    rcases dA_binary f with h | h <;> rw [h]
    · exact Or.inl rfl
    · show pComparisonLoop f c1vRP c1rB = none ∨ pComparisonLoop f c1vRP c1rB = some (c1vRP, c1rB)
      exact dA_cmpLoop f

theorem dA_eqLoop : ∀ f, pEqualityLoop f c1vRP c1rB = none ∨
    pEqualityLoop f c1vRP c1rB = some (c1vRP, c1rB) := by
  intro f
  cases f with
  | zero => exact Or.inl rfl
  | succ f => exact Or.inr rfl

theorem dA_equality : ∀ f, pEquality f c1rA = none ∨ pEquality f c1rA = some (c1vRP, c1rB) := by
  intro f
  cases f with
  | zero => exact Or.inl rfl
  | succ f =>
    simp only [pEquality]
    rcases dA_comparison f with h | h <;> rw [h]
    · exact Or.inl rfl
    · show pEqualityLoop f c1vRP c1rB = none ∨ pEqualityLoop f c1vRP c1rB = some (c1vRP, c1rB)
      exact dA_eqLoop f

theorem dA_xor : ∀ f, pXor f c1rA = none ∨ pXor f c1rA = some (c1vRP, c1rB) := by
  intro f
  cases f with
  | zero => exact Or.inl rfl
  | succ f =>
    simp only [pXor]
    rcases dA_equality f with h | h <;> rw [h]
    · exact Or.inl rfl
    · exact Or.inr rfl

theorem dA_and : ∀ f, pAnd f c1rA = none ∨ pAnd f c1rA = some (c1vRP, c1rB) := by
  intro f
  cases f with
  | zero => exact Or.inl rfl
  | succ f =>
    simp only [pAnd]
    rcases dA_xor f with h | h <;> rw [h]
    · exact Or.inl rfl
    · exact Or.inr rfl

theorem dA_or : ∀ f, pOr f c1rA = none ∨ pOr f c1rA = some (c1vRP, c1rB) := by
  intro f
  cases f with
  | zero => exact Or.inl rfl
  | succ f =>
    simp only [pOr]
    rcases dA_and f with h | h <;> rw [h]
    · exact Or.inl rfl
    · exact Or.inr rfl

theorem dA_ternary : ∀ f, pTernary f c1rA = none ∨ pTernary f c1rA = some (c1vRP, c1rB) := by
  intro f
  cases f with
  | zero => exact Or.inl rfl
  | succ f =>
    simp only [pTernary]
    rcases dA_or f with h | h <;> rw [h]
    · exact Or.inl rfl
    · exact Or.inr rfl

theorem dA_assign : ∀ f, pAssignment f c1rA = none ∨
    pAssignment f c1rA = some (c1vAs, c1rD) := by
  intro f
  cases f with
  | zero => exact Or.inl rfl
  | succ f =>
    simp only [pAssignment]
    rcases dA_ternary f with h | h <;> rw [h]
    · exact Or.inl rfl
    · rcases dR_assign f with h2 | h2
      · refine Or.inl ?_
        show ((pAssignment f c1rC).bind fun ra =>
            some (create_expr_box_no_comment
              (Expr.Assign c1vRP ⟨TokenType.Equal, 0, 5⟩ [] ra.1), ra.2)) = none
        rw [h2]
        rfl
      · refine Or.inr ?_
        show ((pAssignment f c1rC).bind fun ra =>
            some (create_expr_box_no_comment
              (Expr.Assign c1vRP ⟨TokenType.Equal, 0, 5⟩ [] ra.1), ra.2)) =
          some (c1vAs, c1rD)
        rw [h2]
        rfl

theorem dA_expr : ∀ f, pExpression f c1rA = none ∨
    pExpression f c1rA = some (c1vAs, c1rDr) := by
  intro f
  cases f with
  | zero => exact Or.inl rfl
  | succ f =>
    simp only [pExpression]
    have hs : { c1rA with allow_unidentified := true } = c1rA := rfl
    rw [hs]
    rcases dA_assign f with h | h <;> rw [h]
    · exact Or.inl rfl
    · exact Or.inr rfl

theorem dS_primary : ∀ f, pPrimary f c1rD = none ∨ pPrimary f c1rD = some (c1vSe, c1rE) := by
  intro f
  cases f with
  | zero => exact Or.inl rfl
  | succ f => exact Or.inr rfl

theorem dS_callLoop : ∀ f, pCallLoop f c1vSe c1rE = none ∨
    pCallLoop f c1vSe c1rE = some (c1vSe, c1rE) := by
  intro f
  cases f with
  | zero => exact Or.inl rfl
  | succ f => exact Or.inr rfl

theorem dS_call : ∀ f, pCall f c1rD = none ∨ pCall f c1rD = some (c1vSe, c1rE) := by
  intro f
  cases f with
  | zero => exact Or.inl rfl
  | succ f =>
    simp only [pCall]
    rcases dS_primary f with h | h <;> rw [h]
    · exact Or.inl rfl
    · show pCallLoop f c1vSe c1rE = none ∨ pCallLoop f c1vSe c1rE = some (c1vSe, c1rE)
      exact dS_callLoop f

theorem dS_postfix : ∀ f, pPostfixExpr f c1rD = none ∨
    pPostfixExpr f c1rD = some (c1vSe, c1rE) := by
  intro f
  cases f with
  | zero => exact Or.inl rfl
  | succ f =>
    simp only [pPostfixExpr]
    rcases dS_call f with h | h <;> rw [h]
    · exact Or.inl rfl
    · exact Or.inr rfl

theorem dS_unary : ∀ f, pUnary f c1rD = none ∨ pUnary f c1rD = some (c1vSe, c1rE) := by
  intro f
  cases f with
  | zero => exact Or.inl rfl
  | succ f => exact dS_postfix f

theorem dS_mulLoop : ∀ f, pMultiplicationLoop f c1vSe c1rE = none ∨
    pMultiplicationLoop f c1vSe c1rE = some (c1vSe, c1rE) := by
  intro f
  cases f with
  | zero => exact Or.inl rfl
  | succ f => exact Or.inr rfl

theorem dS_mult : ∀ f, pMultiplication f c1rD = none ∨ pMultiplication f c1rD = some (c1vSe, c1rE) := by
  intro f
  cases f with
  | zero => exact Or.inl rfl
  | succ f =>
    simp only [pMultiplication]
    rcases dS_unary f with h | h <;> rw [h]
    · exact Or.inl rfl
    · show pMultiplicationLoop f c1vSe c1rE = none ∨ pMultiplicationLoop f c1vSe c1rE = some (c1vSe, c1rE)
      exact dS_mulLoop f

theorem dS_addLoop : ∀ f, pAdditionLoop f c1vSe c1rE = none ∨
    pAdditionLoop f c1vSe c1rE = some (c1vSe, c1rE) := by
  intro f
  cases f with
  | zero => exact Or.inl rfl
  | succ f => exact Or.inr rfl

theorem dS_add : ∀ f, pAddition f c1rD = none ∨ pAddition f c1rD = some (c1vSe, c1rE) := by
  intro f
  cases f with
  | zero => exact Or.inl rfl
  | succ f =>
    simp only [pAddition]
    rcases dS_mult f with h | h <;> rw [h]
    · exact Or.inl rfl
    · show pAdditionLoop f c1vSe c1rE = none ∨ pAdditionLoop f c1vSe c1rE = some (c1vSe, c1rE)
      exact dS_addLoop f

theorem dS_bsLoop : ∀ f, pBitshiftLoop f c1vSe c1rE = none ∨
    pBitshiftLoop f c1vSe c1rE = some (c1vSe, c1rE) := by
  intro f
  cases f with
  | zero => exact Or.inl rfl
  | succ f => exact Or.inr rfl

theorem dS_bitshift : ∀ f, pBitshift f c1rD = none ∨ pBitshift f c1rD = some (c1vSe, c1rE) := by
  intro f
  cases f with
  | zero => exact Or.inl rfl
  | succ f =>
    simp only [pBitshift]
    rcases dS_add f with h | h <;> rw [h]
    · exact Or.inl rfl
    · show pBitshiftLoop f c1vSe c1rE = none ∨ pBitshiftLoop f c1vSe c1rE = some (c1vSe, c1rE)
      exact dS_bsLoop f

theorem dS_binLoop : ∀ f, pBinaryLoop f c1vSe c1rE = none ∨
    pBinaryLoop f c1vSe c1rE = some (c1vSe, c1rE) := by
  intro f
  cases f with
  | zero => exact Or.inl rfl
  | succ f => exact Or.inr rfl

theorem dS_binary : ∀ f, pBinary f c1rD = none ∨ pBinary f c1rD = some (c1vSe, c1rE) := by
  intro f
  cases f with
  | zero => exact Or.inl rfl
  | succ f =>
    simp only [pBinary]
    rcases dS_bitshift f with h | h <;> rw [h]
    · exact Or.inl rfl
    · show pBinaryLoop f c1vSe c1rE = none ∨ pBinaryLoop f c1vSe c1rE = some (c1vSe, c1rE)
      exact dS_binLoop f

theorem dS_cmpLoop : ∀ f, pComparisonLoop f c1vSe c1rE = none ∨
    pComparisonLoop f c1vSe c1rE = some (c1vSe, c1rE) := by
  intro f
  cases f with
  | zero => exact Or.inl rfl
  | succ f => exact Or.inr rfl

theorem dS_comparison : ∀ f, pComparison f c1rD = none ∨ pComparison f c1rD = some (c1vSe, c1rE) := by
  intro f
  cases f with
  | zero => exact Or.inl rfl
  | succ f =>
    simp only [pComparison]
    rcases dS_binary f with h | h <;> rw [h]
    · exact Or.inl rfl
    · show pComparisonLoop f c1vSe c1rE = none ∨ pComparisonLoop f c1vSe c1rE = some (c1vSe, c1rE)
      exact dS_cmpLoop f

theorem dS_eqLoop : ∀ f, pEqualityLoop f c1vSe c1rE = none ∨
    pEqualityLoop f c1vSe c1rE = some (c1vSe, c1rE) := by
  intro f
  cases f with
  | zero => exact Or.inl rfl
  | succ f => exact Or.inr rfl

theorem dS_equality : ∀ f, pEquality f c1rD = none ∨ pEquality f c1rD = some (c1vSe, c1rE) := by
  intro f
  cases f with
  | zero => exact Or.inl rfl
  | succ f =>
    simp only [pEquality]
    rcases dS_comparison f with h | h <;> rw [h]
    · exact Or.inl rfl
    · show pEqualityLoop f c1vSe c1rE = none ∨ pEqualityLoop f c1vSe c1rE = some (c1vSe, c1rE)
      exact dS_eqLoop f

theorem dS_xor : ∀ f, pXor f c1rD = none ∨ pXor f c1rD = some (c1vSe, c1rE) := by
  intro f
  cases f with
  | zero => exact Or.inl rfl
  | succ f =>
    simp only [pXor]
    rcases dS_equality f with h | h <;> rw [h]
    · exact Or.inl rfl
    · exact Or.inr rfl

theorem dS_and : ∀ f, pAnd f c1rD = none ∨ pAnd f c1rD = some (c1vSe, c1rE) := by
  intro f
  cases f with
  | zero => exact Or.inl rfl
  | succ f =>
    simp only [pAnd]
    rcases dS_xor f with h | h <;> rw [h]
    · exact Or.inl rfl
    · exact Or.inr rfl

theorem dS_or : ∀ f, pOr f c1rD = none ∨ pOr f c1rD = some (c1vSe, c1rE) := by
  intro f
  cases f with
  | zero => exact Or.inl rfl
  | succ f =>
    simp only [pOr]
    rcases dS_and f with h | h <;> rw [h]
    · exact Or.inl rfl
    · exact Or.inr rfl

theorem dS_ternary : ∀ f, pTernary f c1rD = none ∨ pTernary f c1rD = some (c1vSe, c1rE) := by
  intro f
  cases f with
  | zero => exact Or.inl rfl
  | succ f =>
    simp only [pTernary]
    rcases dS_or f with h | h <;> rw [h]
    · exact Or.inl rfl
    · exact Or.inr rfl

theorem dS_assign : ∀ f, pAssignment f c1rD = none ∨
    pAssignment f c1rD = some (c1vSe, c1rE) := by
  intro f
  cases f with
  | zero => exact Or.inl rfl
  | succ f =>
    simp only [pAssignment]
    rcases dS_ternary f with h | h <;> rw [h]
    · exact Or.inl rfl
    · exact Or.inr rfl

theorem dS_expr : ∀ f, pExpression f c1rDr = none ∨
    pExpression f c1rDr = some (c1vSe, c1rEr) := by
  intro f
  cases f with
  | zero => exact Or.inl rfl
  | succ f =>
    simp only [pExpression]
    have hs : { c1rDr with allow_unidentified := true } = c1rD := rfl
    rw [hs]
    rcases dS_assign f with h | h <;> rw [h]
    · exact Or.inl rfl
    · exact Or.inr rfl

theorem dT_primary : ∀ f, pPrimary f c1rE = none ∨ pPrimary f c1rE = some (c1vEn, c1rF) := by
  intro f
  cases f with
  | zero => exact Or.inl rfl
  | succ f => exact Or.inr rfl

theorem dT_callLoop : ∀ f, pCallLoop f c1vEn c1rF = none ∨
    pCallLoop f c1vEn c1rF = some (c1vEn, c1rF) := by
  intro f
  cases f with
  | zero => exact Or.inl rfl
  | succ f => exact Or.inr rfl

theorem dT_call : ∀ f, pCall f c1rE = none ∨ pCall f c1rE = some (c1vEn, c1rF) := by
  intro f
  cases f with
  | zero => exact Or.inl rfl
  | succ f =>
    simp only [pCall]
    rcases dT_primary f with h | h <;> rw [h]
    · exact Or.inl rfl
    · show pCallLoop f c1vEn c1rF = none ∨ pCallLoop f c1vEn c1rF = some (c1vEn, c1rF)
      exact dT_callLoop f

theorem dT_postfix : ∀ f, pPostfixExpr f c1rE = none ∨
    pPostfixExpr f c1rE = some (c1vEn, c1rF) := by
  intro f
  cases f with
  | zero => exact Or.inl rfl
  | succ f =>
    simp only [pPostfixExpr]
    rcases dT_call f with h | h <;> rw [h]
    · exact Or.inl rfl
    · exact Or.inr rfl

theorem dT_unary : ∀ f, pUnary f c1rE = none ∨ pUnary f c1rE = some (c1vEn, c1rF) := by
  intro f
  cases f with
  | zero => exact Or.inl rfl
  | succ f => exact dT_postfix f

theorem dT_mulLoop : ∀ f, pMultiplicationLoop f c1vEn c1rF = none ∨
    pMultiplicationLoop f c1vEn c1rF = some (c1vEn, c1rF) := by
  intro f
  cases f with
  | zero => exact Or.inl rfl
  | succ f => exact Or.inr rfl

theorem dT_mult : ∀ f, pMultiplication f c1rE = none ∨ pMultiplication f c1rE = some (c1vEn, c1rF) := by
  intro f
  cases f with
  | zero => exact Or.inl rfl
  | succ f =>
    simp only [pMultiplication]
    rcases dT_unary f with h | h <;> rw [h]
    · exact Or.inl rfl
    · show pMultiplicationLoop f c1vEn c1rF = none ∨ pMultiplicationLoop f c1vEn c1rF = some (c1vEn, c1rF)
      exact dT_mulLoop f

theorem dT_addLoop : ∀ f, pAdditionLoop f c1vEn c1rF = none ∨
    pAdditionLoop f c1vEn c1rF = some (c1vEn, c1rF) := by
  intro f
  cases f with
  | zero => exact Or.inl rfl
  | succ f => exact Or.inr rfl

theorem dT_add : ∀ f, pAddition f c1rE = none ∨ pAddition f c1rE = some (c1vEn, c1rF) := by
  intro f
  cases f with
  | zero => exact Or.inl rfl
  | succ f =>
    simp only [pAddition]
    rcases dT_mult f with h | h <;> rw [h]
    · exact Or.inl rfl
    · show pAdditionLoop f c1vEn c1rF = none ∨ pAdditionLoop f c1vEn c1rF = some (c1vEn, c1rF)
      exact dT_addLoop f

theorem dT_bsLoop : ∀ f, pBitshiftLoop f c1vEn c1rF = none ∨
    pBitshiftLoop f c1vEn c1rF = some (c1vEn, c1rF) := by
  intro f
  cases f with
  | zero => exact Or.inl rfl
  | succ f => exact Or.inr rfl

theorem dT_bitshift : ∀ f, pBitshift f c1rE = none ∨ pBitshift f c1rE = some (c1vEn, c1rF) := by
  intro f
  cases f with
  | zero => exact Or.inl rfl
  | succ f =>
    simp only [pBitshift]
    rcases dT_add f with h | h <;> rw [h]
    · exact Or.inl rfl
    · show pBitshiftLoop f c1vEn c1rF = none ∨ pBitshiftLoop f c1vEn c1rF = some (c1vEn, c1rF)
      exact dT_bsLoop f

theorem dT_binLoop : ∀ f, pBinaryLoop f c1vEn c1rF = none ∨
    pBinaryLoop f c1vEn c1rF = some (c1vEn, c1rF) := by
  intro f
  cases f with
  | zero => exact Or.inl rfl
  | succ f => exact Or.inr rfl

theorem dT_binary : ∀ f, pBinary f c1rE = none ∨ pBinary f c1rE = some (c1vEn, c1rF) := by
  intro f
  cases f with
  | zero => exact Or.inl rfl
  | succ f =>
    simp only [pBinary]
    rcases dT_bitshift f with h | h <;> rw [h]
    · exact Or.inl rfl
    · show pBinaryLoop f c1vEn c1rF = none ∨ pBinaryLoop f c1vEn c1rF = some (c1vEn, c1rF)
      exact dT_binLoop f

theorem dT_cmpLoop : ∀ f, pComparisonLoop f c1vEn c1rF = none ∨
    pComparisonLoop f c1vEn c1rF = some (c1vEn, c1rF) := by
  intro f
  cases f with
  | zero => exact Or.inl rfl
  | succ f => exact Or.inr rfl

theorem dT_comparison : ∀ f, pComparison f c1rE = none ∨ pComparison f c1rE = some (c1vEn, c1rF) := by
  intro f
  cases f with
  | zero => exact Or.inl rfl
  | succ f =>
    simp only [pComparison]
    rcases dT_binary f with h | h <;> rw [h]
    · exact Or.inl rfl
    · show pComparisonLoop f c1vEn c1rF = none ∨ pComparisonLoop f c1vEn c1rF = some (c1vEn, c1rF)
      exact dT_cmpLoop f

theorem dT_eqLoop : ∀ f, pEqualityLoop f c1vEn c1rF = none ∨
    pEqualityLoop f c1vEn c1rF = some (c1vEn, c1rF) := by
  intro f
  cases f with
  | zero => exact Or.inl rfl
  | succ f => exact Or.inr rfl

theorem dT_equality : ∀ f, pEquality f c1rE = none ∨ pEquality f c1rE = some (c1vEn, c1rF) := by
  intro f
  cases f with
  | zero => exact Or.inl rfl
  | succ f =>
    simp only [pEquality]
    rcases dT_comparison f with h | h <;> rw [h]
    · exact Or.inl rfl
    · show pEqualityLoop f c1vEn c1rF = none ∨ pEqualityLoop f c1vEn c1rF = some (c1vEn, c1rF)
      exact dT_eqLoop f

theorem dT_xor : ∀ f, pXor f c1rE = none ∨ pXor f c1rE = some (c1vEn, c1rF) := by
  intro f
  cases f with
  | zero => exact Or.inl rfl
  | succ f =>
    simp only [pXor]
    rcases dT_equality f with h | h <;> rw [h]
    · exact Or.inl rfl
    · exact Or.inr rfl

theorem dT_and : ∀ f, pAnd f c1rE = none ∨ pAnd f c1rE = some (c1vEn, c1rF) := by
  intro f
  cases f with
  | zero => exact Or.inl rfl
  | succ f =>
    simp only [pAnd]
    rcases dT_xor f with h | h <;> rw [h]
    · exact Or.inl rfl
    · exact Or.inr rfl

theorem dT_or : ∀ f, pOr f c1rE = none ∨ pOr f c1rE = some (c1vEn, c1rF) := by
  intro f
  cases f with
  | zero => exact Or.inl rfl
  | succ f =>
    simp only [pOr]
    rcases dT_and f with h | h <;> rw [h]
    · exact Or.inl rfl
    · exact Or.inr rfl

theorem dT_ternary : ∀ f, pTernary f c1rE = none ∨ pTernary f c1rE = some (c1vEn, c1rF) := by
  intro f
  cases f with
  | zero => exact Or.inl rfl
  | succ f =>
    simp only [pTernary]
    rcases dT_or f with h | h <;> rw [h]
    · exact Or.inl rfl
    · exact Or.inr rfl

theorem dT_assign : ∀ f, pAssignment f c1rE = none ∨
    pAssignment f c1rE = some (c1vEn, c1rF) := by
  intro f
  cases f with
  | zero => exact Or.inl rfl
  | succ f =>
    simp only [pAssignment]
    rcases dT_ternary f with h | h <;> rw [h]
    · exact Or.inl rfl
    · exact Or.inr rfl

theorem dT_expr : ∀ f, pExpression f c1rEr = none ∨
    pExpression f c1rEr = some (c1vEn, c1rFr) := by
  intro f
  cases f with
  | zero => exact Or.inl rfl
  | succ f =>
    simp only [pExpression]
    have hs : { c1rEr with allow_unidentified := true } = c1rE := rfl
    rw [hs]
    rcases dT_assign f with h | h <;> rw [h]
    · exact Or.inl rfl
    · exact Or.inr rfl

theorem dG2 : ∀ (f : Nat) (acc : List ExprBox), pGroupingLoop f acc c1rEr = none := by
  intro f
  cases f with
  | zero => intro acc; rfl
  | succ f =>
    intro acc
    have hunf : pGroupingLoop (f + 1) acc c1rEr =
        (pExpression f c1rEr).bind fun re =>
          pGroupingLoop f (acc ++ [re.1]) re.2 := rfl
    rw [hunf]
    rcases dT_expr f with h | h <;> rw [h]
    · rfl
    · simp only [Option.some_bind]
      exact pGroupingLoop_exh_diverges f (acc ++ [c1vEn]) c1rFr (by decide)

theorem dG1 : ∀ (f : Nat) (acc : List ExprBox), pGroupingLoop f acc c1rDr = none := by
  intro f
  cases f with
  | zero => intro acc; rfl
  | succ f =>
    intro acc
    have hunf : pGroupingLoop (f + 1) acc c1rDr =
        (pExpression f c1rDr).bind fun re =>
          pGroupingLoop f (acc ++ [re.1]) re.2 := rfl
    rw [hunf]
    rcases dS_expr f with h | h <;> rw [h]
    · rfl
    · simp only [Option.some_bind]
      exact dG2 f (acc ++ [c1vSe])

theorem u1_primary : ∀ f, pPrimary f c1r1 = none := by
  intro f
  cases f with
  | zero => rfl
  | succ f =>
    have hunf : pPrimary (f + 1) c1r1 =
        (pExpression f c1rA).bind fun re1 =>
          (pGroupingLoop f [re1.1] re1.2).bind fun res =>
            some (create_comment_expr_box (get_newlines_and_comments res.2).2
              (Expr.Grouping res.1 [] (get_newlines_and_comments res.2).1)) := rfl
    rw [hunf]
    rcases dA_expr f with h | h <;> rw [h]
    · rfl
    · simp only [Option.some_bind]
      rw [dG1 f [c1vAs]]
      rfl

theorem u1_call : ∀ f, pCall f c1r1 = none := by
  intro f
  cases f with
  | zero => rfl
  | succ f =>
    simp only [pCall]
    rw [u1_primary f]
    rfl

theorem u1_postfix : ∀ f, pPostfixExpr f c1r1 = none := by
  intro f
  cases f with
  | zero => rfl
  | succ f =>
    simp only [pPostfixExpr]
    rw [u1_call f]
    rfl

theorem u1_unary : ∀ f, pUnary f c1r1 = none := by
  intro f
  cases f with
  | zero => rfl
  | succ f => exact u1_postfix f

theorem u1_mult : ∀ f, pMultiplication f c1r1 = none := by
  intro f
  cases f with
  | zero => rfl
  | succ f =>
    simp only [pMultiplication]
    rw [u1_unary f]
    rfl

theorem u1_add : ∀ f, pAddition f c1r1 = none := by
  intro f
  cases f with
  | zero => rfl
  | succ f =>
    simp only [pAddition]
    rw [u1_mult f]
    rfl

theorem u1_bitshift : ∀ f, pBitshift f c1r1 = none := by
  intro f
  cases f with
  | zero => rfl
  | succ f =>
    simp only [pBitshift]
    rw [u1_add f]
    rfl

theorem u1_binary : ∀ f, pBinary f c1r1 = none := by
  intro f
  cases f with
  | zero => rfl
  | succ f =>
    simp only [pBinary]
    rw [u1_bitshift f]
    rfl

theorem u1_comparison : ∀ f, pComparison f c1r1 = none := by
  intro f
  cases f with
  | zero => rfl
  | succ f =>
    simp only [pComparison]
    rw [u1_binary f]
    rfl

theorem u1_equality : ∀ f, pEquality f c1r1 = none := by
  intro f
  cases f with
  | zero => rfl
  | succ f =>
    simp only [pEquality]
    rw [u1_comparison f]
    rfl

theorem u1_xor : ∀ f, pXor f c1r1 = none := by
  intro f
  cases f with
  | zero => rfl
  | succ f =>
    simp only [pXor]
    rw [u1_equality f]
    rfl

theorem u1_and : ∀ f, pAnd f c1r1 = none := by
  intro f
  cases f with
  | zero => rfl
  | succ f =>
    simp only [pAnd]
    rw [u1_xor f]
    rfl

theorem u1_or : ∀ f, pOr f c1r1 = none := by
  intro f
  cases f with
  | zero => rfl
  | succ f =>
    simp only [pOr]
    rw [u1_and f]
    rfl

theorem u1_ternary : ∀ f, pTernary f c1r1 = none := by
  intro f
  cases f with
  | zero => rfl
  | succ f =>
    simp only [pTernary]
    rw [u1_or f]
    rfl

theorem u1_assign : ∀ f, pAssignment f c1r1 = none := by
  intro f
  cases f with
  | zero => rfl
  | succ f =>
    simp only [pAssignment]
    rw [u1_ternary f]
    rfl

theorem u0_expr : ∀ f, pExpression f c1r0 = none := by
  intro f
  cases f with
  | zero => rfl
  | succ f =>
    simp only [pExpression]
    have hs : { c1r0 with allow_unidentified := true } = c1r1 := rfl
    rw [hs, u1_assign f]
    rfl

theorem u0_exprStmt : ∀ f, pExpressionStatement f c1r0 = none := by
  intro f
  cases f with
  | zero => rfl
  | succ f =>
    simp only [pExpressionStatement]
    rw [u0_expr f]
    rfl

theorem u0_stmt : ∀ f, pStatement f c1r0 = none := by
  intro f
  cases f with
  | zero => rfl
  | succ f => exact u0_exprStmt f

theorem u0_buildLoop : ∀ f, pBuildAstLoop f c1r0 [] = none := by
  intro f
  cases f with
  | zero => rfl
  | succ f =>
    have hunf : pBuildAstLoop (f + 1) c1r0 [] =
        (pStatement f c1r0).bind fun r =>
          pBuildAstLoop f r.2 ([] ++ [r.1]) := rfl
    rw [hunf, u0_stmt f]
    rfl

/-- C7: parsing `1+2*3` yields a single expression statement whose
expression is Binary `+` with left operand the literal 1 and right
operand Binary `*` over the literals 2 and 3 — multiplication binds
tighter than addition. -/
theorem c7_precedence :
    lex_input "1+2*3".toList = some c7Tokens ∧
    build_ast 100 c7Tokens = some (c7Ast, ⟨c7Tokens, 5, none, [], false, false⟩) :=
  ⟨rfl, rfl⟩

/-- C3: the parser does NOT terminate on every finite token sequence.
For the input `(1` (an unclosed parenthesis before end of input) the
scanner succeeds, but `build_ast` returns no result at ANY fuel bound:
the grouping loop of `Parser::primary` (parser.rs lines 959-961) makes
no progress once the token sequence is exhausted, because `expression`
keeps succeeding with an `UnexpectedEnd` node without advancing, so the
Rust loop runs forever. -/
theorem c3_parser_divergence :
    lex_input "(1".toList = some c3Tokens ∧
    ∀ fuel, build_ast fuel c3Tokens = none :=
  ⟨rfl, fun fuel => n0_buildLoop fuel⟩

/-- C1: counterexample to "every syntactically valid GML source parses
with no diagnostic". For the valid statement `if (a) b = 1;` the
scanner drops the tokens `if`, `a` and `b` entirely (characters in
`'A'..='z'` produce no token), leaving `( ) = 1 ;`, and the parser then
diverges in the grouping loop: `build_ast` returns no result at any
fuel bound, so no AST (let alone a diagnostic-free one consuming every
non-trivia token) is ever produced. -/
theorem c1_valid_gml_counterexample :
    lex_input "if (a) b = 1;".toList = some c1Tokens ∧
    ∀ fuel, build_ast fuel c1Tokens = none :=
  ⟨rfl, fun fuel => u0_buildLoop fuel⟩

/-- C8 counterexample: the diagnostic slot is NOT write-once. For the
input `1(2)*` `}` `*` `}` the parse writes the diagnostic for the
RightBrace at 0:5 and then OVERWRITES it with the diagnostic for the
RightBrace at 0:7 (`Parser::error_parsing` assigns `self.success`
unconditionally): the ghost log records both writes in order, and the
final slot holds the second, different diagnostic. -/
theorem c8_overwrite_counterexample :
    lex_input "1(2)*\x7d*\x7d".toList = some c8Tokens ∧
    ((build_ast 100 c8Tokens).map fun r => (r.2.success, r.2.errorLog)) =
      some (some c8d2, [c8d1, c8d2]) ∧
    c8d1 ≠ c8d2 := by
  refine ⟨rfl, ?_, by decide⟩
  rw [c8_eval_build]
  rfl

/-- C8 amended: the second half of the claim holds — once the success
slot is set, the top-level loop consumes no further statements and
returns the partial AST built so far unchanged. -/
theorem c8_stop_after_error_amended :
    ∀ (fuel : Nat) (s : PState) (acc : List StmtBox) (d : Diagnostic),
      s.success = some d →
      pBuildAstLoop (fuel + 1) s acc = some (acc, s) := by
  intro fuel s acc d h
  simp only [pBuildAstLoop]
  cases hp : s.peekT with
  | none => rfl
  | some t => simp [h]

/-- Witness for the amended C8 theorem at a concrete state. -/
theorem c8_stop_after_error_amended_witness :
    pBuildAstLoop 1 ⟨c8Tokens, 0, some c8d1, [c8d1], false, false⟩ [] =
      some ([], ⟨c8Tokens, 0, some c8d1, [c8d1], false, false⟩) :=
  c8_stop_after_error_amended 0 ⟨c8Tokens, 0, some c8d1, [c8d1], false, false⟩ [] c8d1 rfl

/-- C9: the comment `// note` in `x = 1 // note` newline `y = 2` is NOT
attached to an assignment statement for `x`, because the scanner never
emits tokens for the identifiers `x` and `y` at all: the token sequence
is `= 1 // note = 2 EOF`, the first statement is the stray `=` wrapped
as an error-recovery literal, and the comment ends up attached to the
literal `1` inside the spurious assignment `1 = 2`. Reconstructing the
input from lexemes and trivia is impossible since `x` and `y` appear in
no token. -/
theorem c9_comment_attachment_eval :
    lex_input "x = 1 // note\ny = 2".toList = some c9Tokens ∧
    build_ast 100 c9Tokens = some (c9Ast, c9sB) :=
  ⟨rfl, c9_eval_build⟩
